import Mathlib

/-!
# Dither: a shallow embedding of `Dither.cpp` / `Dither.h`

The image buffer `uint8_t *IMG_pixel` is a `List Nat` whose entries are bytes
(`< 256`).  Every access to it goes through `load` / `store`, which fail
(`none`) when the index is not inside the buffer, so an out-of-bounds access of
the C++ code shows up as the result `none`.  Machine integers are `Nat` / `Int`
with an explicit wrap wherever the C++ code converts to a narrower type.
Signed arithmetic is the arithmetic of a target whose `int` is wider than
16 bits (the operands `uint16_t`, `uint8_t`, `int8_t` are promoted to `int`).
-/

/-- The private members of `class Dither`: image geometry (`uint16_t`), the
output polarity flag, the halftoning pattern `_pattern[_size][_size]` (a map from
the cell `[r][c]` to its byte) and the noise frame. -/
structure Dither where
  _img_width : Nat
  _img_height : Nat
  _invert_output : Bool
  _pattern : Nat → Nat → Nat
  _rnd_frame : List Nat

namespace Dither

/-- The geometry fields are `uint16_t`. -/
def Geometry (d : Dither) : Prop :=
  d._img_width < 65536 ∧ d._img_height < 65536

instance (d : Dither) : Decidable d.Geometry := by
  unfold Geometry; infer_instance

/-- A buffer of bytes. -/
def Bytes (IMG_pixel : List Nat) : Prop := ∀ x ∈ IMG_pixel, x < 256

instance (l : List Nat) : Decidable (Bytes l) := by
  unfold Bytes; infer_instance

/-- Reading `IMG_pixel[ind]`; `none` when `ind` is outside the buffer. -/
def load (IMG_pixel : List Nat) (ind : Nat) : Option Nat :=
  if ind < IMG_pixel.length then some (IMG_pixel.getD ind 0) else none

/-- Writing `IMG_pixel[ind] = v`; `none` when `ind` is outside the buffer. -/
def store (IMG_pixel : List Nat) (ind : Nat) (v : Nat) : Option (List Nat) :=
  if ind < IMG_pixel.length then some (IMG_pixel.set ind v) else none

/-- The sentinel `#define END (-32)`. -/
def END : Int := -32

/-- The define `is_2s_pow(number)`, that is `!((number) & ((number) - 1))`. -/
def is_2s_pow (number : Nat) : Bool :=
  (number &&& (number - 1)) == 0

/-- The table `_filters[filter_types][max_filter_entries]`; rows shorter than 16
entries are zero-filled by the C++ initialiser. -/
def _filters : List (List Int) :=
  [ [16, 7, -1, 3, 5, 1, END, 0, 0, 0, 0, 0, 0, 0, 0, 0],
    [48, 7, 5, -2, 3, 5, 7, 5, 3, -2, 1, 3, 5, 3, 1, END],
    [42, 8, 4, -2, 2, 4, 8, 4, 2, -2, 1, 2, 4, 2, 1, END],
    [32, 8, 4, -2, 2, 4, 8, 4, 2, END, 0, 0, 0, 0, 0, 0],
    [32, 5, 3, -2, 2, 4, 5, 4, 2, -1, 2, 3, 2, END, 0, 0],
    [16, 4, 3, -2, 1, 2, 3, 2, 1, END, 0, 0, 0, 0, 0, 0],
    [4, 2, -1, 1, 1, END, 0, 0, 0, 0, 0, 0, 0, 0, 0, 0],
    [8, 1, 1, -1, 1, 1, 1, -1, 0, 1, END, 0, 0, 0, 0, 0],
    [8, 1, 1, -1, 0, 1, 1, END, 0, 0, 0, 0, 0, 0, 0, 0] ]

def FSf : Nat := 0
def JJNf : Nat := 1
def STUf : Nat := 2
def BURf : Nat := 3
def SIE3f : Nat := 4
def SIE2f : Nat := 5
def SIE24f : Nat := 6
def ATKf : Nat := 7
def PERf : Nat := 8

/-- The flat index `(x) + (y) * _img_width`, computed in `int` and converted to
`uint32_t`. -/
def index (d : Dither) (x y : Int) : Nat :=
  ((x + y * (d._img_width : Int)) % 4294967296).toNat

/-- The loop `while(number >>= 1) l2++` of `_twos_power`, at most 16 rounds for a
`uint16_t` argument. -/
def _twos_power_loop : Nat → Nat → Nat → Nat
  | 0, _, l2 => l2
  | fuel + 1, number, l2 =>
    if number >>> 1 ≠ 0 then _twos_power_loop fuel (number >>> 1) (l2 + 1) else l2

/-- Position of the highest set bit of `number` (`uint16_t`). -/
def _twos_power (number : Nat) : Nat :=
  _twos_power_loop 16 (number % 65536) 0 % 256

/-- Saturation of a signed 16-bit value into `[min, max]`, returned as a byte. -/
def _clamp (v : Int) (min max : Nat) : Nat :=
  let t : Nat := (if v < (min : Int) then (min : Int) else v).toNat % 65536
  (if t > max then max else t) % 256

/-- Gray level of an RGB888 triple: `(r + g + b) / 3`. -/
def color888ToGray256 (r g b : Nat) : Nat :=
  ((r + g + b) / 3) % 256

/-- The triple `(r, g, b)` that `colorGray256To888(color, r, g, b)` assigns. -/
def colorGray256To888 (color : Nat) : Nat × Nat × Nat :=
  (color, color, color)

/-- One channel of `quantize(quant_bits, r, g, b)`; the source applies the same
line to `r`, `g` and `b`, and the dithering code only uses `r`.  The step and the
shift are `uint8_t`, the product is formed in `int` and stored into a byte. -/
def quantize (quant_bits r : Nat) : Nat :=
  let quant_step := (255 / ((1 <<< quant_bits) - 1)) % 256
  let shifter := ((8 - (quant_bits : Int)) % 256).toNat
  ((r >>> shifter) * quant_step) % 256

/-- The values the preamble of `_GPEDDither` derives from a row of `_filters`. -/
structure Preamble where
  divisor : Nat
  bitshift_avail : Bool
  bitshift_div : Nat
  len : Nat
  max_filt_height : Nat
  max_filt_width : Nat
  weights : List Int

/-- The scan `for(; _filters[filter_index][len] > END; len++)`, returning
`(len, max_filt_height, max_filt_width)`; a row has `max_filter_entries = 16`
entries. -/
def preambleLoop (filt : List Int) : Nat → Nat → Nat → Nat → Nat × Nat × Nat
  | 0, len, max_filt_height, max_filt_width => (len, max_filt_height, max_filt_width)
  | fuel + 1, len, max_filt_height, max_filt_width =>
    if filt.getD len 0 > END then
      if filt.getD len 0 > 0 then
        preambleLoop filt fuel (len + 1) max_filt_height
          (if max_filt_height = 0 then max_filt_width + 1 else max_filt_width)
      else
        preambleLoop filt fuel (len + 1) (max_filt_height + 1) max_filt_width
    else (len, max_filt_height, max_filt_width)

/-- The preamble of `_GPEDDither`: divisor, shift, and the entries
`weights[1 .. len-1]` copied from the table. -/
def preamble (filter_index : Nat) : Preamble :=
  let filt := _filters.getD filter_index []
  let divisor := ((filt.getD 0 0) % 256).toNat
  let bitshift_avail := is_2s_pow divisor
  let bitshift_div := if bitshift_avail then _twos_power divisor else 0
  let r := preambleLoop filt 16 1 0 0
  { divisor := divisor, bitshift_avail := bitshift_avail, bitshift_div := bitshift_div,
    len := r.1, max_filt_height := r.2.1, max_filt_width := r.2.2,
    weights := (filt.take r.1).drop 1 }

/-- The edge test
`row < (_img_height - max_filt_height) && col < (_img_width - max_filt_width) && col > 0`,
with the subtractions done in `int`. -/
def eligible (d : Dither) (k : Preamble) (row col : Nat) : Bool :=
  decide ((row : Int) < (d._img_height : Int) - (k.max_filt_height : Int)) &&
  decide ((col : Int) < (d._img_width : Int) - (k.max_filt_width : Int)) &&
  decide (col > 0)

/-- The loop `for(uint8_t p = 1; p < len; p++)` of `_GPEDDither`, as a recursion
over the remaining entries `weights[p ..]`, with the cursor
`(row_offs, col_offs)`.  The product `quant_err_r * curr_weight` is an `int`;
`/` truncates toward zero and `>>` is the arithmetic shift.  The cursor
(`int8_t`) and `temp_r` (`int16_t`) stay far inside their types. -/
def diffuse (d : Dither) (k : Preamble) (quant_err_r : Int) (row col : Nat) :
    List Int → Int → Int → List Nat → Option (List Nat)
  | [], _, _, IMG_pixel => some IMG_pixel
  | curr_weight :: rest, row_offs, col_offs, IMG_pixel =>
    if eligible d k row col then
      if curr_weight < 0 then
        diffuse d k quant_err_r row col rest (row_offs + 1) curr_weight IMG_pixel
      else
        let ind := d.index ((col : Int) + col_offs) ((row : Int) + row_offs)
        match load IMG_pixel ind with
        | none => none
        | some color =>
          let r := (colorGray256To888 color).1
          let temp_r : Int :=
            if !k.bitshift_avail then
              (r : Int) + Int.tdiv (quant_err_r * curr_weight) (k.divisor : Int)
            else
              (r : Int) + ((quant_err_r * curr_weight) >>> k.bitshift_div)
          let r1 := _clamp temp_r 0 255
          match store IMG_pixel ind (color888ToGray256 r1 r1 r1) with
          | none => none
          | some IMG_pixel1 =>
            diffuse d k quant_err_r row col rest row_offs (col_offs + 1) IMG_pixel1
    else
      diffuse d k quant_err_r row col rest row_offs col_offs IMG_pixel

/-- The body of the two pixel loops of `_GPEDDither` for the pivot `(col, row)`. -/
def gpedPixel (d : Dither) (quantization_bits : Nat) (k : Preamble)
    (IMG_pixel : List Nat) (row col : Nat) : Option (List Nat) :=
  let ind := d.index col row
  match load IMG_pixel ind with
  | none => none
  | some color =>
    let r := (colorGray256To888 color).1
    let newr := quantize quantization_bits r
    let quant_err_r : Int := (r : Int) - (newr : Int)
    let newr1 := if d._invert_output then (0xFF - newr) % 256 else newr
    match store IMG_pixel ind (color888ToGray256 newr1 newr1 newr1) with
    | none => none
    | some IMG_pixel1 => diffuse d k quant_err_r row col k.weights 0 1 IMG_pixel1

/-- The raster scan shared by every algorithm:
`for(row = 0; row < _img_height; row++) for(col = 0; col < _img_width; col++)`. -/
def forEachPixel (d : Dither) (body : List Nat → Nat → Nat → Option (List Nat))
    (IMG_pixel : List Nat) : Option (List Nat) :=
  (List.range d._img_height).foldlM
    (fun buf row => (List.range d._img_width).foldlM (fun buf1 col => body buf1 row col) buf)
    IMG_pixel

/-- General purpose error distribution dithering.  The result is `none` when the
code accesses the buffer out of bounds, otherwise the returned `int8_t` and the
final buffer. -/
def _GPEDDither (d : Dither) (IMG_pixel : List Nat) (quantization_bits filter_index : Nat) :
    Option (Int × List Nat) :=
  if quantization_bits < 1 ∨ quantization_bits > 7 then some (-1, IMG_pixel)
  else
    match forEachPixel d (gpedPixel d quantization_bits (preamble filter_index)) IMG_pixel with
    | none => none
    | some out => some (0, out)

def FSDither (d : Dither) (IMG_pixel : List Nat) (quantization_bits : Nat) :=
  d._GPEDDither IMG_pixel quantization_bits FSf

def JJNDither (d : Dither) (IMG_pixel : List Nat) (quantization_bits : Nat) :=
  d._GPEDDither IMG_pixel quantization_bits JJNf

def StuckiDither (d : Dither) (IMG_pixel : List Nat) (quantization_bits : Nat) :=
  d._GPEDDither IMG_pixel quantization_bits STUf

def BurkesDither (d : Dither) (IMG_pixel : List Nat) (quantization_bits : Nat) :=
  d._GPEDDither IMG_pixel quantization_bits BURf

def Sierra3Dither (d : Dither) (IMG_pixel : List Nat) (quantization_bits : Nat) :=
  d._GPEDDither IMG_pixel quantization_bits SIE3f

def Sierra2Dither (d : Dither) (IMG_pixel : List Nat) (quantization_bits : Nat) :=
  d._GPEDDither IMG_pixel quantization_bits SIE2f

def Sierra24ADither (d : Dither) (IMG_pixel : List Nat) (quantization_bits : Nat) :=
  d._GPEDDither IMG_pixel quantization_bits SIE24f

def AtkinsonDither (d : Dither) (IMG_pixel : List Nat) (quantization_bits : Nat) :=
  d._GPEDDither IMG_pixel quantization_bits ATKf

def PersonalFilterDither (d : Dither) (IMG_pixel : List Nat) (quantization_bits : Nat) :=
  d._GPEDDither IMG_pixel quantization_bits PERf

/-- The body of the pixel loops of `thresholding`. -/
def thresholdPixel (d : Dither) (thresh : Nat) (buf : List Nat) (row col : Nat) :
    Option (List Nat) :=
  let ind := d.index col row
  match load buf ind with
  | none => none
  | some pixel =>
    let pixel1 := if pixel ≥ thresh then 0xFF else 0x00
    let pixel2 := if d._invert_output then 0xFF - pixel1 else pixel1
    store buf ind pixel2

/-- Global thresholding against `thresh` (`uint8_t`). -/
def thresholding (d : Dither) (IMG_pixel : List Nat) (thresh : Nat) : Option (List Nat) :=
  forEachPixel d (thresholdPixel d thresh) IMG_pixel

/-- The configured `#define _size 2`. -/
def _size : Nat := 2

/-- The constructor `Dither(width, height, invert_output)`; `noise` are the
`_rnd_frame_width` values `_Rnd()` returned while it filled `_rnd_frame`, and the
pattern is the zero-initialised `_pattern[_size][_size] = {{0}}`. -/
def construct (width height : Nat) (invert_output : Bool) (noise : List Nat) : Dither :=
  { _img_width := width, _img_height := height, _invert_output := invert_output,
    _pattern := fun _ _ => 0, _rnd_frame := noise }

/-- The assignment `_pattern[r][c] = v` (a `uint8_t` cell). -/
def setCell (p : Nat → Nat → Nat) (r c v : Nat) : Nat → Nat → Nat :=
  fun r1 c1 => if r1 = r ∧ c1 = c then v % 256 else p r1 c1

/-- A run of assignments `cell(i) = step * val++` for `i` through `idx`, on the
pattern and the counter `val`. -/
def fillCells (step : Nat) (cell : Nat → Nat × Nat) :
    List Nat → (Nat → Nat → Nat) × Nat → (Nat → Nat → Nat) × Nat
  | [], s => s
  | i :: rest, (p, val) =>
    fillCells step cell rest (setCell p (cell i).1 (cell i).2 (step * val), val + 1)

/-- The state of the spiral loop of `buildClusteredPattern`. -/
structure Spiral where
  p : Nat → Nat → Nat
  val : Nat
  k : Nat
  l : Nat
  m : Nat
  n : Nat

/-- The loop `while(k < m && l < n)` of `buildClusteredPattern`; `none` when the
fuel is used up before the loop condition fails.  The counters are `int`
(`m`, `n` are `int8_t`, so `size` is at most 127); inside the loop `n >= 1` and
`m >= 1` where `n - 1` and `m - 1` are formed, and a `for` whose start lies
beyond its bound is the empty list of indices. -/
def spiralLoop (step : Nat) : Nat → Spiral → Option Spiral
  | 0, s => if s.k < s.m ∧ s.l < s.n then none else some s
  | fuel + 1, s =>
    if s.k < s.m ∧ s.l < s.n then
      -- for(int i = l; i < n; ++i)  _pattern[k][i] = step * val++;
      let a := fillCells step (fun i => (s.k, i)) (List.range' s.l (s.n - s.l)) (s.p, s.val)
      let k := s.k + 1
      -- for(int i = k; i < m; ++i)  _pattern[i][n-1] = step * val++;
      let b := fillCells step (fun i => (i, s.n - 1)) (List.range' k (s.m - k)) a
      let n := s.n - 1
      -- if(k < m) for(int i = n-1; i >= l; --i)  _pattern[m-1][i] = step * val++;  m--;
      let c := if k < s.m then
          fillCells step (fun i => (s.m - 1, i)) (List.range' s.l (n - s.l)).reverse b
        else b
      let m := if k < s.m then s.m - 1 else s.m
      -- if(l < n) for(int i = m-1; i >= k; --i)  _pattern[i][l] = step * val++;  l++;
      let e := if s.l < n then
          fillCells step (fun i => (i, s.l)) (List.range' k (m - k)).reverse c
        else c
      let l := if s.l < n then s.l + 1 else s.l
      spiralLoop step fuel { p := e.1, val := e.2, k := k, l := l, m := m, n := n }
    else some s

/-- Pattern written by `buildClusteredPattern` for the pattern size `size`. -/
def clusteredPattern (size : Nat) (p : Nat → Nat → Nat) : Option (Nat → Nat → Nat) :=
  if size < 1 then some p
  else
    let step := (255 / (size * size)) % 256
    match spiralLoop step size { p := p, val := 1, k := 0, l := 0, m := size, n := size } with
    | none => none
    | some s => some s.p

/-- The spiral fill of `_pattern`, for the pattern size `size` (`_size`). -/
def buildClusteredPattern (d : Dither) (size : Nat) : Option Dither :=
  match clusteredPattern size d._pattern with
  | none => none
  | some p => some { d with _pattern := p }

/-- The loop `for(; c < _size; c += 2) _pattern[r][c] = step * increm++;` on
`(pattern, increm, c)`; `none` when the fuel is used up first. -/
def bayerCols (size step r : Nat) :
    Nat → (Nat → Nat → Nat) × Nat × Nat → Option ((Nat → Nat → Nat) × Nat × Nat)
  | 0, (p, increm, c) => if c < size then none else some (p, increm, c)
  | fuel + 1, (p, increm, c) =>
    if c < size then
      bayerCols size step r fuel (setCell p r c (step * increm), (increm + 1) % 256, (c + 2) % 256)
    else some (p, increm, c)

/-- The loop `for(uint8_t r = 0; r < _size; r++)` of `buildBayerPattern`, over the
remaining rows. -/
def bayerRows (size step offs : Nat) :
    List Nat → (Nat → Nat → Nat) × Nat × Nat → Option ((Nat → Nat → Nat) × Nat × Nat)
  | [], s => some s
  | r :: rest, s =>
    match bayerCols size step r (size + 1) s with
    | none => none
    | some (p, increm, c) =>
      let c1 := (c + offs) % 256
      let c2 := if size &&& 1 ≠ 0 then (c1 % size) % 256 else c1 &&& 1
      bayerRows size step offs rest (p, increm, c2)

/-- Pattern written by `buildBayerPattern` for the pattern size `size`. -/
def bayerPattern (size : Nat) (p : Nat → Nat → Nat) : Option (Nat → Nat → Nat) :=
  if size < 1 then some p
  else
    let offs := if size &&& 1 = 0 then 1 else 0
    let step := (255 / (size * size)) % 256
    -- passage 0
    match bayerRows size step offs (List.range size) (p, 1, 0) with
    | none => none
    | some (p1, increm1, _) =>
      -- passage 1
      match bayerRows size step offs (List.range size) (p1, increm1, 1) with
      | none => none
      | some (p2, _, _) => some p2

/-- The dispersed fill of `_pattern`, for the pattern size `size` (`_size`). -/
def buildBayerPattern (d : Dither) (size : Nat) : Option Dither :=
  match bayerPattern size d._pattern with
  | none => none
  | some p => some { d with _pattern := p }

/-- The pattern cell `compa` looked up for the pixel `(col, row)`: the row
`patt_row` (a `uint8_t`) and the column are reduced bitwise when the preprocessor
test `(_size & (_size - 1)) == 0` holds, and by `%` otherwise. -/
def patternCell (d : Dither) (size row col : Nat) : Nat :=
  let patt_row :=
    if size &&& (size - 1) = 0 then (row &&& (size - 1)) % 256 else (row % size) % 256
  if size &&& (size - 1) = 0 then d._pattern patt_row (col &&& (size - 1))
  else d._pattern patt_row (col % size)

/-- The body of the pixel loops of `patternDither`; `compa + thresh` is formed in
`int`. -/
def patternPixel (d : Dither) (size : Nat) (thresh : Int)
    (buf : List Nat) (row col : Nat) : Option (List Nat) :=
  let ind := d.index col row
  match load buf ind with
  | none => none
  | some pixel =>
    let compa := patternCell d size row col
    let pixel1 := if (pixel : Int) > (compa : Int) + thresh then 0xFF else 0x00
    let pixel2 := if d._invert_output then 0xFF - pixel1 else pixel1
    store buf ind pixel2

/-- Ordered dithering against the tiled pattern, for the pattern size `size`
(`_size`); `thresh` is an `int8_t`. -/
def patternDither (d : Dither) (size : Nat) (IMG_pixel : List Nat) (thresh : Int) :
    Option (Int × List Nat) :=
  if d._pattern 0 0 = 0 then some (-1, IMG_pixel)
  else
    match forEachPixel d (patternPixel d size thresh) IMG_pixel with
    | none => none
    | some out => some (0, out)

/-- A 4x3 engine without output inversion, used to instantiate the theorems. -/
def sampleEngine : Dither := construct 4 3 false []

/-- A 4x3 engine with output inversion. -/
def sampleInverted : Dither := construct 4 3 true []

/-- A 4x3 test image. -/
def sampleImage : List Nat := [10, 200, 130, 60, 255, 0, 77, 128, 90, 180, 33, 240]

/-- A 1x1 engine. -/
def tinyEngine : Dither := construct 1 1 false []

/-- Check, along the cursor walk of the diffusion loop, that every addressed
offset `(col_offs, row_offs)` stays inside the margins the edge test leaves. -/
def offsetsOk (k : Preamble) : List Int → Int → Int → Bool
  | [], _, _ => true
  | curr_weight :: rest, row_offs, col_offs =>
    if curr_weight < 0 then offsetsOk k rest (row_offs + 1) curr_weight
    else
      decide (0 ≤ row_offs) && decide (row_offs ≤ (k.max_filt_height : Int)) &&
      decide (-(k.max_filt_width : Int) ≤ col_offs) &&
      decide (col_offs ≤ (k.max_filt_width : Int)) &&
      decide (row_offs = 0 → 1 ≤ col_offs) &&
      offsetsOk k rest row_offs (col_offs + 1)

/-- The configured `#define fastEDDither_remove_artifacts  false`. -/
def fastEDDither_remove_artifacts : Bool := false

/-- The assignment `c = (int8_t)c >> 7` of `quantize_BW`: the byte is read as a
signed 8-bit value, shifted arithmetically, and stored back into a byte. -/
def quantize_BW (c : Nat) : Nat :=
  let s : Int := if c % 256 ≥ 128 then ((c % 256 : Nat) : Int) - 256 else ((c % 256 : Nat) : Int)
  ((s >>> (7 : Nat)) % 256).toNat

/-- One guarded neighbour update of `fastEDDither`:
`ind = index(x, y); c = IMG_pixel[ind]; temp_c = c + err; IMG_pixel[ind] = _clamp(temp_c, 0, 255)`
when `guard` holds, nothing otherwise. -/
def fastNeighbour (d : Dither) (guard : Bool) (x y : Int) (err : Int)
    (IMG_pixel : List Nat) : Option (List Nat) :=
  if guard then
    let ind := d.index x y
    match load IMG_pixel ind with
    | none => none
    | some c =>
      let temp_c : Int := (c : Int) + err
      store IMG_pixel ind (_clamp temp_c 0 255)
  else some IMG_pixel

/-- The body of the pixel loops of `fastEDDither` for the pivot `(col, row)`;
`remove_artifacts` is the preprocessor switch `fastEDDither_remove_artifacts`.
The error `quant_err_c` is an `int8_t` (it lies in `[-64, 63]`), and the
comparisons `col != (_img_width - 1)`, `row != (_img_height - 1)` are done in
`int`. -/
def fastPixel (d : Dither) (remove_artifacts : Bool)
    (IMG_pixel : List Nat) (row col : Nat) : Option (List Nat) :=
  let ind := d.index col row
  match load IMG_pixel ind with
  | none => none
  | some c =>
    let newc := quantize_BW c
    let quant_err_c : Int := ((c : Int) - (newc : Int)) >>> (1 : Nat)
    let newc1 := if d._invert_output then (0xFF - newc) % 256 else newc
    match store IMG_pixel ind newc1 with
    | none => none
    | some buf1 =>
      -- distribute part of error at (x + 1, y)
      match fastNeighbour d (decide ((col : Int) ≠ (d._img_width : Int) - 1))
          ((col : Int) + 1) (row : Int) quant_err_c buf1 with
      | none => none
      | some buf2 =>
        -- distribute part of error at (x, y + 1)
        match fastNeighbour d (decide ((row : Int) ≠ (d._img_height : Int) - 1))
            (col : Int) ((row : Int) + 1)
            (if remove_artifacts then quant_err_c >>> (1 : Nat) else quant_err_c) buf2 with
        | none => none
        | some buf3 =>
          -- only with the switch on: half of the error also at (x + 1, y + 1)
          fastNeighbour d (remove_artifacts &&
              decide ((col : Int) ≠ (d._img_width : Int) - 1) &&
              decide ((row : Int) ≠ (d._img_height : Int) - 1))
            ((col : Int) + 1) ((row : Int) + 1) (quant_err_c >>> (1 : Nat)) buf3

/-- Fast error diffusion dithering (`void`: it has no failure result); `none` only
when the code accesses the buffer out of bounds. -/
def fastEDDither (d : Dither) (remove_artifacts : Bool) (IMG_pixel : List Nat) :
    Option (List Nat) :=
  forEachPixel d (fastPixel d remove_artifacts) IMG_pixel

/-- The summand of the diffusion loop of `_GPEDDither`:
`(quant_err_r * curr_weight) / divisor` when the divisor is no power of two, and
`(quant_err_r * curr_weight) >> bitshift_div` when it is. -/
def amount (k : Preamble) (quant_err_r curr_weight : Int) : Int :=
  if !k.bitshift_avail then Int.tdiv (quant_err_r * curr_weight) (k.divisor : Int)
  else (quant_err_r * curr_weight) >>> k.bitshift_div

/-- One neighbour update of the diffusion loop: the coordinates
`(col + col_offs, row + row_offs)` passed to `index`, the flat index, the byte
read there and the value `temp_r` before clamping. -/
structure Access where
  x : Int
  y : Int
  ind : Nat
  r : Nat
  temp_r : Int

/-- The diffusion loop `diffuse`, returning with the buffer the list of the
neighbour updates it made, in order. -/
def diffuseLog (d : Dither) (k : Preamble) (quant_err_r : Int) (row col : Nat) :
    List Int → Int → Int → List Nat → Option (List Nat × List Access)
  | [], _, _, IMG_pixel => some (IMG_pixel, [])
  | curr_weight :: rest, row_offs, col_offs, IMG_pixel =>
    if eligible d k row col then
      if curr_weight < 0 then
        diffuseLog d k quant_err_r row col rest (row_offs + 1) curr_weight IMG_pixel
      else
        let ind := d.index ((col : Int) + col_offs) ((row : Int) + row_offs)
        match load IMG_pixel ind with
        | none => none
        | some color =>
          let r := (colorGray256To888 color).1
          let temp_r : Int := (r : Int) + amount k quant_err_r curr_weight
          let r1 := _clamp temp_r 0 255
          match store IMG_pixel ind (color888ToGray256 r1 r1 r1) with
          | none => none
          | some IMG_pixel1 =>
            match diffuseLog d k quant_err_r row col rest row_offs (col_offs + 1) IMG_pixel1 with
            | none => none
            | some (out, log) =>
              some (out, { x := (col : Int) + col_offs, y := (row : Int) + row_offs,
                           ind := ind, r := r, temp_r := temp_r } :: log)
    else
      diffuseLog d k quant_err_r row col rest row_offs col_offs IMG_pixel

/-- The pixel step `gpedPixel`, returning with the buffer the list of the neighbour
updates of its diffusion loop. -/
def gpedPixelLog (d : Dither) (quantization_bits : Nat) (k : Preamble)
    (IMG_pixel : List Nat) (row col : Nat) : Option (List Nat × List Access) :=
  let ind := d.index col row
  match load IMG_pixel ind with
  | none => none
  | some color =>
    let r := (colorGray256To888 color).1
    let newr := quantize quantization_bits r
    let quant_err_r : Int := (r : Int) - (newr : Int)
    let newr1 := if d._invert_output then (0xFF - newr) % 256 else newr
    match store IMG_pixel ind (color888ToGray256 newr1 newr1 newr1) with
    | none => none
    | some IMG_pixel1 => diffuseLog d k quant_err_r row col k.weights 0 1 IMG_pixel1

/-- The coefficients of a kernel: the entries of `weights` that are not row-break
markers (`curr_weight < 0`). -/
def coefficients (k : Preamble) : List Int :=
  k.weights.filter (fun w => decide (¬ w < 0))

/-- A 4x4 engine without output inversion. -/
def engine44 : Dither := construct 4 4 false []

/-- The 4x4 buffer whose 16 bytes are all 200. -/
def uniform200 : List Nat := List.replicate 16 200

/-- A 6x5 engine without output inversion. -/
def engine65 : Dither := construct 6 5 false []

/-- The 6x5 engine with output inversion. -/
def engine65Inverted : Dither := construct 6 5 true []

/-- A 6x5 test image of mid grays. -/
def image65 : List Nat := List.replicate 30 100

/-- The cells of the square of side `S`, row by row. -/
def cells (S : Nat) : List (Nat × Nat) :=
  (List.range S).flatMap (fun r => (List.range S).map (fun c => (r, c)))

/-- One ring of the clockwise walk around the square of side `s` whose top-left
corner is `(t, t)`: the top row left to right, the right column downwards, the
bottom row right to left, the left column upwards. -/
def spec_spiralRing (t s : Nat) : List (Nat × Nat) :=
  if s = 0 then []
  else if s = 1 then [(t, t)]
  else
    (List.range s).map (fun j => (t, t + j)) ++
    (List.range (s - 1)).map (fun j => (t + 1 + j, t + s - 1)) ++
    (List.range (s - 1)).map (fun j => (t + s - 1, t + s - 2 - j)) ++
    (List.range (s - 2)).map (fun j => (t + s - 2 - j, t))

/-- The clockwise inward spiral that starts at the top-left cell, as the spec
words it: ring after ring, each ring two cells narrower than the one before. -/
def spec_spiralFrom : Nat → Nat → Nat → List (Nat × Nat)
  | 0, _, _ => []
  | rings + 1, t, s => spec_spiralRing t s ++ spec_spiralFrom rings (t + 1) (s - 2)

/-- The spiral order of the cells of the square of side `S`. -/
def spec_spiralOrder (S : Nat) : List (Nat × Nat) :=
  spec_spiralFrom S 0 S

/-- The order of the two passes as the claim words it: the cells with
`row + col` even, row by row, then the cells with `row + col` odd, row by row. -/
def spec_bayerOrder (S : Nat) : List (Nat × Nat) :=
  (cells S).filter (fun rc => (rc.1 + rc.2) % 2 = 0) ++
  (cells S).filter (fun rc => (rc.1 + rc.2) % 2 = 1)

/-- The levels `step, 2 * step, ..., S * S * step` with `step = 255 / (S * S)`. -/
def levels (S : Nat) : List Nat :=
  (List.range (S * S)).map (fun k => (k + 1) * (255 / (S * S)))

/-- Two runs of a pattern builder, started from the patterns `p` and `p1`, are
related when every cell either holds the same value in both or still holds its
starting value in both. -/
def relCells (p p1 q q1 : Nat → Nat → Nat) : Prop :=
  ∀ r c, q r c = q1 r c ∨ (q r c = p r c ∧ q1 r c = p1 r c)

/-- The check, for the run of `buildClusteredPattern` that starts from a pattern
holding the marker 256 in every cell: the loop ends, it made `S * S` assignments,
the cell visited `k`-th in the spiral order holds `k * step`, and the spiral order
lists every cell once. -/
def clusteredCheck (S : Nat) : Bool :=
  match spiralLoop ((255 / (S * S)) % 256) S
      { p := fun _ _ => 256, val := 1, k := 0, l := 0, m := S, n := S } with
  | none => false
  | some s =>
    decide (s.val = S * S + 1) &&
    decide ((spec_spiralOrder S).length = S * S) &&
    (List.range (S * S)).all (fun k =>
      decide (s.p ((spec_spiralOrder S).getD k (0, 0)).1 ((spec_spiralOrder S).getD k (0, 0)).2 =
        (k + 1) * (255 / (S * S)))) &&
    decide (List.Perm (spec_spiralOrder S) (cells S))

/-- The same check for the two passes of `buildBayerPattern`, with the order of
the claim; the first pass makes as many assignments as there are cells with
`row + col` even. -/
def bayerCheck (S : Nat) : Bool :=
  match bayerRows S ((255 / (S * S)) % 256) (if S &&& 1 = 0 then 1 else 0) (List.range S)
      (fun _ _ => 256, 1, 0) with
  | none => false
  | some (p1, increm1, _) =>
    match bayerRows S ((255 / (S * S)) % 256) (if S &&& 1 = 0 then 1 else 0) (List.range S)
        (p1, increm1, 1) with
    | none => false
    | some (p2, increm2, _) =>
      decide (increm1 = ((cells S).filter (fun rc => (rc.1 + rc.2) % 2 = 0)).length + 1) &&
      decide (increm2 = S * S + 1) &&
      decide ((spec_bayerOrder S).length = S * S) &&
      (List.range (S * S)).all (fun k =>
        decide (p2 ((spec_bayerOrder S).getD k (0, 0)).1 ((spec_bayerOrder S).getD k (0, 0)).2 =
          (k + 1) * (255 / (S * S)))) &&
      decide (List.Perm (spec_bayerOrder S) (cells S))

/-- The configured `#define _rnd_frame_width  1024`. -/
def _rnd_frame_width : Nat := 1024

/-- The index `noise_offs + (col & (_rnd_frame_width - 1))` at which the
time-consistent path of `randomDither` reads `_rnd_frame`; `noise_offs` is the
`uint8_t` read from `_rnd_frame[row % _rnd_frame_width]`, and the sum is an `int`. -/
def noiseIndex (d : Dither) (row col : Nat) : Nat :=
  (d._rnd_frame.getD (row % _rnd_frame_width) 0) % 256 + (col &&& (_rnd_frame_width - 1))

/-- The body of the pixel loops of `randomDither` for the pixel `(col, row)`.
`fresh row col` stands for the value `_Rnd()` returns at that pixel on the path
without time consistency; reads of `_rnd_frame` are bounds-checked like those of
the image; `rnd_val + thresh` is formed in `int`. -/
def randomPixel (d : Dither) (time_consistency : Bool) (thresh : Int)
    (fresh : Nat → Nat → Nat) (buf : List Nat) (row col : Nat) : Option (List Nat) :=
  match load d._rnd_frame (row % _rnd_frame_width) with
  | none => none
  | some offs =>
    let noise_offs := offs % 256
    let ind := d.index col row
    match (if time_consistency then
        load d._rnd_frame (noise_offs + (col &&& (_rnd_frame_width - 1)))
      else some (fresh row col % 256)) with
    | none => none
    | some rnd_val =>
      match load buf ind with
      | none => none
      | some pixel =>
        let pixel1 := if (pixel : Int) ≥ (rnd_val : Int) + thresh then 0xFF else 0x00
        let pixel2 := if d._invert_output then 0xFF - pixel1 else pixel1
        store buf ind pixel2

/-- Random dithering; `none` when the code reads `_rnd_frame` or accesses the
image out of bounds. -/
def randomDither (d : Dither) (IMG_pixel : List Nat) (time_consistency : Bool)
    (thresh : Int) (fresh : Nat → Nat → Nat) : Option (List Nat) :=
  forEachPixel d (randomPixel d time_consistency thresh fresh) IMG_pixel

/-- A 1024x1 engine whose noise frame holds 128 in each of its 1024 bytes. -/
def wideEngine : Dither :=
  construct 1024 1 false (List.replicate 1024 128)

/-- A 1024x1 image of zeros. -/
def wideImage : List Nat := List.replicate 1024 0

/-! ## Auxiliary lemmas -/

theorem foldlM_range_inv {β : Type} (f : β → Nat → Option β) (P : Nat → β → Prop) (n : Nat)
    (hstep : ∀ i, i < n → ∀ s, P i s → ∃ s1, f s i = some s1 ∧ P (i + 1) s1)
    (s0 : β) (h0 : P 0 s0) :
    ∃ s, (List.range n).foldlM f s0 = some s ∧ P n s := by
  induction n with
  | zero => exact ⟨s0, by simp, h0⟩
  | succ m ih =>
    obtain ⟨s, hs, hP⟩ := ih (fun i hi => hstep i (Nat.lt_succ_of_lt hi))
    obtain ⟨s1, hs1, hP1⟩ := hstep m (Nat.lt_succ_self m) s hP
    refine ⟨s1, ?_, hP1⟩
    rw [List.range_succ, List.foldlM_append, hs]
    simp [hs1]

theorem forEachPixel_inv (d : Dither) (body : List Nat → Nat → Nat → Option (List Nat))
    (P : Nat → List Nat → Prop)
    (hstep : ∀ row col buf, row < d._img_height → col < d._img_width →
      P (row * d._img_width + col) buf →
      ∃ buf1, body buf row col = some buf1 ∧ P (row * d._img_width + col + 1) buf1)
    (buf0 : List Nat) (h0 : P 0 buf0) :
    ∃ out, forEachPixel d body buf0 = some out ∧ P (d._img_height * d._img_width) out := by
  unfold forEachPixel
  apply foldlM_range_inv _ (fun r buf => P (r * d._img_width) buf)
  · intro row hrow buf hP
    have := foldlM_range_inv (fun buf1 col => body buf1 row col)
      (fun c buf1 => P (row * d._img_width + c) buf1) d._img_width
      (fun col hcol s hs => hstep row col s hrow hcol hs) buf (by simpa using hP)
    obtain ⟨s, hs, hPs⟩ := this
    exact ⟨s, hs, by simpa [Nat.succ_mul] using hPs⟩
  · simpa using h0

theorem index_eq (d : Dither) (x y : Int) (n : Nat)
    (h : x + y * (d._img_width : Int) = (n : Int)) (hn : n < 4294967296) :
    d.index x y = n := by
  unfold index
  rw [h]
  have : ((n : Int) % 4294967296) = (n : Int) := by
    apply Int.emod_eq_of_lt <;> omega
  rw [this]
  exact Int.toNat_natCast n

theorem pivot_lt (d : Dither) (row col : Nat)
    (hrow : row < d._img_height) (hcol : col < d._img_width) :
    row * d._img_width + col < d._img_height * d._img_width := by
  have : (row + 1) * d._img_width ≤ d._img_height * d._img_width :=
    Nat.mul_le_mul_right _ hrow
  rw [Nat.succ_mul] at this
  omega

theorem area_lt (d : Dither) (hG : d.Geometry) :
    d._img_height * d._img_width < 4294967296 := by
  obtain ⟨hw, hh⟩ := hG
  have : d._img_height * d._img_width ≤ 65535 * 65535 := Nat.mul_le_mul (by omega) (by omega)
  omega

theorem index_pivot (d : Dither) (hG : d.Geometry) (row col : Nat)
    (hrow : row < d._img_height) (hcol : col < d._img_width) :
    d.index col row = row * d._img_width + col := by
  apply index_eq
  · push_cast; ring
  · have := pivot_lt d row col hrow hcol
    have := area_lt d hG
    omega

theorem offsetsOk_filters (filter_index : Nat) (h : filter_index < 9) :
    offsetsOk (preamble filter_index) (preamble filter_index).weights 0 1 = true := by
  interval_cases filter_index <;> decide

theorem diffuse_not_eligible (d : Dither) (k : Preamble) (e : Int) (row col : Nat)
    (h : eligible d k row col = false) (ws : List Int) :
    ∀ ro co buf, diffuse d k e row col ws ro co buf = some buf := by
  induction ws with
  | nil => intro ro co buf; simp [diffuse]
  | cons a rest ih => intro ro co buf; simp [diffuse, h, ih]

theorem neighbour_index (d : Dither) (hG : d.Geometry) (k : Preamble) (row col : Nat)
    (hel : eligible d k row col = true) (ro co : Int)
    (h1 : 0 ≤ ro) (h2 : ro ≤ (k.max_filt_height : Int))
    (h3 : -(k.max_filt_width : Int) ≤ co) (h4 : co ≤ (k.max_filt_width : Int))
    (h5 : ro = 0 → 1 ≤ co) :
    row * d._img_width + col < d.index ((col : Int) + co) ((row : Int) + ro) ∧
    d.index ((col : Int) + co) ((row : Int) + ro) < d._img_height * d._img_width := by
  simp only [eligible, Bool.and_eq_true, decide_eq_true_eq] at hel
  obtain ⟨⟨e1, e2⟩, e3⟩ := hel
  have hlo : ((row * d._img_width + col : Nat) : Int) <
      ((col : Int) + co) + ((row : Int) + ro) * (d._img_width : Int) := by
    push_cast
    rcases eq_or_lt_of_le h1 with h0 | hpos
    · have := h5 h0.symm
      rw [← h0]; linarith
    · have : (d._img_width : Int) ≤ ro * (d._img_width : Int) := by nlinarith
      linarith
  have hhi : ((col : Int) + co) + ((row : Int) + ro) * (d._img_width : Int) <
      ((d._img_height * d._img_width : Nat) : Int) := by
    push_cast
    have : ((row : Int) + ro + 1) * (d._img_width : Int) ≤
        (d._img_height : Int) * (d._img_width : Int) := by
      apply Int.mul_le_mul_of_nonneg_right <;> omega
    linarith
  have hnn : 0 ≤ ((col : Int) + co) + ((row : Int) + ro) * (d._img_width : Int) := by
    have : (0 : Int) ≤ ((row * d._img_width + col : Nat) : Int) := Int.natCast_nonneg _
    linarith
  obtain ⟨n, hn⟩ := Int.eq_ofNat_of_zero_le hnn
  have hA := area_lt d hG
  rw [hn] at hlo hhi
  have hlo1 : row * d._img_width + col < n := by exact_mod_cast hlo
  have hhi1 : n < d._img_height * d._img_width := by exact_mod_cast hhi
  rw [index_eq d _ _ n hn (by omega)]
  exact ⟨hlo1, hhi1⟩

theorem color888ToGray256_lt (r g b : Nat) : color888ToGray256 r g b < 256 := by
  unfold color888ToGray256; omega

theorem bytes_set (buf : List Nat) (i v : Nat) (hb : Bytes buf) (hv : v < 256) :
    Bytes (buf.set i v) := by
  intro x hx
  rcases List.mem_or_eq_of_mem_set hx with h | h
  · exact hb x h
  · omega

theorem getD_set_ne (buf : List Nat) (i j v : Nat) (h : i ≠ j) :
    (buf.set i v).getD j 0 = buf.getD j 0 := by
  simp [List.getD_eq_getElem?_getD, List.getElem?_set_ne h]

theorem getD_set_eq (buf : List Nat) (i v : Nat) (h : i < buf.length) :
    (buf.set i v).getD i 0 = v := by
  simp [List.getD_eq_getElem?_getD, h]

theorem diffuse_spec (d : Dither) (hG : d.Geometry) (k : Preamble) (e : Int) (row col : Nat)
    (hel : eligible d k row col = true) (ws : List Int) :
    ∀ ro co buf, offsetsOk k ws ro co = true →
      buf.length = d._img_height * d._img_width →
      ∃ out, diffuse d k e row col ws ro co buf = some out ∧ out.length = buf.length ∧
        (∀ i, i ≤ row * d._img_width + col → out.getD i 0 = buf.getD i 0) ∧
        (Bytes buf → Bytes out) := by
  induction ws with
  | nil => intro ro co buf _ _; exact ⟨buf, by simp [diffuse], rfl, fun _ _ => rfl, id⟩
  | cons a rest ih =>
    intro ro co buf hok hlen
    by_cases ha : a < 0
    · simp only [offsetsOk, ha, if_true] at hok
      simpa [diffuse, hel, ha] using ih (ro + 1) a buf hok hlen
    · simp only [offsetsOk, ha, if_false, Bool.and_eq_true, decide_eq_true_eq] at hok
      obtain ⟨⟨⟨⟨⟨h1, h2⟩, h3⟩, h4⟩, h5⟩, hrest⟩ := hok
      obtain ⟨hlo, hhi⟩ := neighbour_index d hG k row col hel ro co h1 h2 h3 h4 h5
      have hin : d.index ((col : Int) + co) ((row : Int) + ro) < buf.length := by omega
      have key : ∀ v, v < 256 → ∃ out,
          diffuse d k e row col rest ro (co + 1)
            (buf.set (d.index ((col : Int) + co) ((row : Int) + ro)) v) = some out ∧
          out.length = buf.length ∧
          (∀ i, i ≤ row * d._img_width + col → out.getD i 0 = buf.getD i 0) ∧
          (Bytes buf → Bytes out) := by
        intro v hv
        obtain ⟨out, ho, hl, hpre, hby⟩ := ih ro (co + 1)
          (buf.set (d.index ((col : Int) + co) ((row : Int) + ro)) v) hrest
          (by rw [List.length_set]; exact hlen)
        refine ⟨out, ho, by rw [hl, List.length_set], ?_, ?_⟩
        · intro i hi
          rw [hpre i hi]
          exact getD_set_ne _ _ _ _ (by omega)
        · intro hb
          exact hby (bytes_set _ _ _ hb hv)
      simp only [diffuse, hel, ha, if_true, if_false, load, store, hin, colorGray256To888]
      exact key _ (color888ToGray256_lt _ _ _)

theorem quantize_lt (b v : Nat) : quantize b v < 256 := by
  unfold quantize
  exact Nat.mod_lt _ (by norm_num)

theorem quantize_eq (b v : Nat) (hb1 : 1 ≤ b) (hb7 : b ≤ 7) (hv : v < 256) :
    quantize b v = (v >>> (8 - b)) * (255 / (2 ^ b - 1)) := by
  interval_cases b <;> simp [quantize, Nat.shiftRight_eq_div_pow] <;> omega

theorem quantize_fix (b v : Nat) (hb1 : 1 ≤ b) (hb7 : b ≤ 7) (hv : v < 256) :
    quantize b (quantize b v) = quantize b v := by
  rw [quantize_eq b (quantize b v) hb1 hb7 (quantize_lt b v), quantize_eq b v hb1 hb7 hv]
  interval_cases b <;> simp [Nat.shiftRight_eq_div_pow] <;> omega

theorem quantize_level (b v : Nat) (hb1 : 1 ≤ b) (hb7 : b ≤ 7) (hv : v < 256) :
    ∃ k, k < 2 ^ b ∧ quantize b v = k * (255 / (2 ^ b - 1)) := by
  refine ⟨v >>> (8 - b), ?_, quantize_eq b v hb1 hb7 hv⟩
  interval_cases b <;> simp [Nat.shiftRight_eq_div_pow] <;> omega

theorem quantize_mono (b v1 v2 : Nat) (hb1 : 1 ≤ b) (hb7 : b ≤ 7) (h : v1 ≤ v2) (hv : v2 < 256) :
    quantize b v1 ≤ quantize b v2 := by
  rw [quantize_eq b v1 hb1 hb7 (by omega), quantize_eq b v2 hb1 hb7 hv]
  apply Nat.mul_le_mul_right
  simp only [Nat.shiftRight_eq_div_pow]
  exact Nat.div_le_div_right h

theorem color888ToGray256_same (r : Nat) (h : r < 256) : color888ToGray256 r r r = r := by
  unfold color888ToGray256; omega

theorem gpedPixel_spec (d : Dither) (hG : d.Geometry) (b filter_index : Nat)
    (hf : filter_index < 9) (buf : List Nat) (row col : Nat)
    (hrow : row < d._img_height) (hcol : col < d._img_width)
    (hlen : buf.length = d._img_height * d._img_width) :
    ∃ out, gpedPixel d b (preamble filter_index) buf row col = some out ∧
      out.length = buf.length ∧
      (∀ i, i < row * d._img_width + col → out.getD i 0 = buf.getD i 0) ∧
      out.getD (row * d._img_width + col) 0 =
        (if d._invert_output then 255 - quantize b (buf.getD (row * d._img_width + col) 0)
         else quantize b (buf.getD (row * d._img_width + col) 0)) ∧
      (Bytes buf → Bytes out) ∧
      (eligible d (preamble filter_index) row col = false →
        out = buf.set (row * d._img_width + col)
          (if d._invert_output then 255 - quantize b (buf.getD (row * d._img_width + col) 0)
           else quantize b (buf.getD (row * d._img_width + col) 0))) := by
  have hp := pivot_lt d row col hrow hcol
  have hin : row * d._img_width + col < buf.length := by omega
  have hq := quantize_lt b (buf.getD (row * d._img_width + col) 0)
  have hval : ∀ q, q < 256 →
      color888ToGray256 (if d._invert_output then (255 - q) % 256 else q)
        (if d._invert_output then (255 - q) % 256 else q)
        (if d._invert_output then (255 - q) % 256 else q) =
      (if d._invert_output then 255 - q else q) := by
    intro q hq
    cases d._invert_output
    · simpa using color888ToGray256_same q hq
    · have : (255 - q) % 256 = 255 - q := by omega
      simp only [if_true, this]
      exact color888ToGray256_same _ (by omega)
  simp only [gpedPixel, index_pivot d hG row col hrow hcol, load, store, hin, if_true,
    colorGray256To888, hval _ hq]
  by_cases hel : eligible d (preamble filter_index) row col = true
  · obtain ⟨out, ho, hl, hpre, hby⟩ := diffuse_spec d hG (preamble filter_index)
      ((buf.getD (row * d._img_width + col) 0 : Int) -
        (quantize b (buf.getD (row * d._img_width + col) 0) : Int)) row col hel
      (preamble filter_index).weights 0 1
      (buf.set (row * d._img_width + col)
        (if d._invert_output then 255 - quantize b (buf.getD (row * d._img_width + col) 0)
         else quantize b (buf.getD (row * d._img_width + col) 0)))
      (offsetsOk_filters filter_index hf) (by rw [List.length_set]; exact hlen)
    refine ⟨out, ho, by rw [hl, List.length_set], ?_, ?_, ?_, ?_⟩
    · intro i hi
      rw [hpre i (by omega)]
      exact getD_set_ne _ _ _ _ (by omega)
    · rw [hpre _ (le_refl _)]
      exact getD_set_eq _ _ _ hin
    · intro hb
      apply hby
      apply bytes_set _ _ _ hb
      split <;> omega
    · intro h; rw [h] at hel; exact absurd hel (by simp)
  · have hel1 : eligible d (preamble filter_index) row col = false := by
      simpa using hel
    rw [diffuse_not_eligible d _ _ row col hel1]
    refine ⟨_, rfl, by rw [List.length_set], ?_, ?_, ?_, fun _ => rfl⟩
    · intro i hi
      exact getD_set_ne _ _ _ _ (by omega)
    · exact getD_set_eq _ _ _ hin
    · intro hb
      apply bytes_set _ _ _ hb
      split <;> omega

theorem pivot_div_mod (w row col : Nat) (hcol : col < w) :
    (row * w + col) / w = row ∧ (row * w + col) % w = col := by
  have hw : 0 < w := by omega
  constructor
  · rw [Nat.add_comm, Nat.add_mul_div_right _ _ hw, Nat.div_eq_of_lt hcol, Nat.zero_add]
  · rw [Nat.add_comm, Nat.add_mul_mod_self_right, Nat.mod_eq_of_lt hcol]

theorem forEachPixel_pointwise (d : Dither) (body : List Nat → Nat → Nat → Option (List Nat))
    (g : Nat → Nat → Nat → Nat)
    (hbody : ∀ buf row col, row < d._img_height → col < d._img_width →
      buf.length = d._img_height * d._img_width →
      body buf row col = some (buf.set (row * d._img_width + col)
        (g row col (buf.getD (row * d._img_width + col) 0))))
    (buf : List Nat) (hlen : buf.length = d._img_height * d._img_width) :
    ∃ out, forEachPixel d body buf = some out ∧ out.length = buf.length ∧
      ∀ row col, row < d._img_height → col < d._img_width →
        out.getD (row * d._img_width + col) 0 =
          g row col (buf.getD (row * d._img_width + col) 0) := by
  obtain ⟨out, ho, hl, hP⟩ := forEachPixel_inv d body
    (fun n cur => cur.length = buf.length ∧ ∀ i, cur.getD i 0 =
      if i < n then g (i / d._img_width) (i % d._img_width) (buf.getD i 0) else buf.getD i 0)
    (by
      intro row col cur hrow hcol ⟨hcl, hc⟩
      have hp := pivot_lt d row col hrow hcol
      obtain ⟨hdiv, hmod⟩ := pivot_div_mod d._img_width row col hcol
      refine ⟨_, hbody cur row col hrow hcol (by omega), by rw [List.length_set]; exact hcl, ?_⟩
      intro i
      by_cases hi : i = row * d._img_width + col
      · subst hi
        rw [getD_set_eq _ _ _ (by omega), hc, hdiv, hmod]
        simp
      · rw [getD_set_ne _ _ _ _ (fun h => hi h.symm), hc i]
        by_cases h1 : i < row * d._img_width + col
        · simp [h1, Nat.lt_succ_of_lt h1]
        · have h2 : ¬ i < row * d._img_width + col + 1 := by omega
          simp [h1, h2])
    buf ⟨rfl, fun i => by simp⟩
  refine ⟨out, ho, hl, ?_⟩
  intro row col hrow hcol
  have hp := pivot_lt d row col hrow hcol
  obtain ⟨hdiv, hmod⟩ := pivot_div_mod d._img_width row col hcol
  rw [hP, hdiv, hmod]
  simp [hp]

theorem forEachPixel_map (d : Dither) (body : List Nat → Nat → Nat → Option (List Nat))
    (g : Nat → Nat)
    (hbody : ∀ buf row col, row < d._img_height → col < d._img_width →
      buf.length = d._img_height * d._img_width →
      body buf row col = some (buf.set (row * d._img_width + col)
        (g (buf.getD (row * d._img_width + col) 0))))
    (buf : List Nat) (hlen : buf.length = d._img_height * d._img_width) :
    forEachPixel d body buf = some (buf.map g) := by
  obtain ⟨out, ho, hl, hP⟩ := forEachPixel_pointwise d body (fun _ _ v => g v) hbody buf hlen
  rw [ho]
  congr 1
  apply List.ext_getElem
  · simp [hl]
  · intro i h1 h2
    have hi : i < d._img_height * d._img_width := by omega
    have hw : 0 < d._img_width := by
      rcases Nat.eq_zero_or_pos d._img_width with h | h
      · rw [h] at hi; omega
      · exact h
    have hrow : i / d._img_width < d._img_height := by
      apply Nat.div_lt_of_lt_mul; rw [Nat.mul_comm]; exact hi
    have := hP (i / d._img_width) (i % d._img_width) hrow (Nat.mod_lt _ hw)
    rw [Nat.mul_comm, Nat.div_add_mod] at this
    simp only [List.getD_eq_getElem?_getD, List.getElem?_eq_getElem h1, Option.getD_some] at this
    simp only [List.getElem_map]
    rw [this]
    simp [List.getElem?_eq_getElem (show i < buf.length by omega)]

theorem GPEDDither_runs (d : Dither) (hG : d.Geometry) (b filter_index : Nat)
    (hb1 : 1 ≤ b) (hb7 : b ≤ 7) (hf : filter_index < 9) (buf : List Nat)
    (hlen : buf.length = d._img_width * d._img_height) :
    ∃ out, d._GPEDDither buf b filter_index = some (0, out) ∧ out.length = buf.length := by
  rw [Nat.mul_comm] at hlen
  obtain ⟨out, ho, hl⟩ := forEachPixel_inv d (gpedPixel d b (preamble filter_index))
    (fun _ cur => cur.length = buf.length)
    (by
      intro row col cur hrow hcol hcl
      obtain ⟨o, h1, h2, _⟩ := gpedPixel_spec d hG b filter_index hf cur row col hrow hcol
        (by omega)
      exact ⟨o, h1, by omega⟩)
    buf rfl
  refine ⟨out, ?_, hl⟩
  have hb : ¬ (b < 1 ∨ b > 7) := by omega
  simp only [_GPEDDither, hb, if_false, ho]

theorem eligible_small (d : Dither) (k : Preamble)
    (hsmall : d._img_width ≤ k.max_filt_width + 1 ∨ d._img_height ≤ k.max_filt_height)
    (row col : Nat) : eligible d k row col = false := by
  simp only [eligible, Bool.and_eq_false_iff, decide_eq_false_iff_not]
  omega

theorem bytes_getD (buf : List Nat) (hb : Bytes buf) (i : Nat) : buf.getD i 0 < 256 := by
  by_cases h : i < buf.length
  · rw [List.getD_eq_getElem _ _ h]
    exact hb _ (List.getElem_mem _)
  · rw [List.getD_eq_default _ _ (by omega)]
    omega

theorem GPEDDither_levels_aux (d : Dither) (hG : d.Geometry) (hinv : d._invert_output = false)
    (b filter_index : Nat) (hb1 : 1 ≤ b) (hb7 : b ≤ 7) (hf : filter_index < 9)
    (buf : List Nat) (hlen : buf.length = d._img_width * d._img_height) (hbytes : Bytes buf) :
    ∃ out, d._GPEDDither buf b filter_index = some (0, out) ∧ out.length = buf.length ∧
      ∀ x ∈ out, (∃ k, k < 2 ^ b ∧ x = k * (255 / (2 ^ b - 1))) ∧ quantize b x = x := by
  rw [Nat.mul_comm] at hlen
  obtain ⟨out, ho, hl, _, hP⟩ := forEachPixel_inv d (gpedPixel d b (preamble filter_index))
    (fun n cur => cur.length = buf.length ∧ Bytes cur ∧ ∀ i, i < n →
      (∃ k, k < 2 ^ b ∧ cur.getD i 0 = k * (255 / (2 ^ b - 1))) ∧
        quantize b (cur.getD i 0) = cur.getD i 0)
    (by
      intro row col cur hrow hcol ⟨hcl, hcb, hc⟩
      obtain ⟨o, h1, h2, h3, h4, h5, _⟩ :=
        gpedPixel_spec d hG b filter_index hf cur row col hrow hcol (by omega)
      refine ⟨o, h1, by omega, h5 hcb, ?_⟩
      intro i hi
      rcases Nat.lt_succ_iff_lt_or_eq.mp hi with h | h
      · rw [h3 i h]; exact hc i h
      · subst h
        rw [h4, hinv]
        simp only [Bool.false_eq_true, if_false]
        have hv := bytes_getD cur hcb (row * d._img_width + col)
        exact ⟨quantize_level b _ hb1 hb7 hv, quantize_fix b _ hb1 hb7 hv⟩)
    buf ⟨rfl, hbytes, fun i hi => absurd hi (Nat.not_lt_zero i)⟩
  refine ⟨out, ?_, hl, ?_⟩
  · have hb : ¬ (b < 1 ∨ b > 7) := by omega
    simp only [_GPEDDither, hb, if_false, ho]
  · intro x hx
    obtain ⟨i, hi, rfl⟩ := List.getElem_of_mem hx
    have := hP i (by omega)
    rwa [List.getD_eq_getElem _ _ hi] at this

theorem thresholding_map (d : Dither) (hG : d.Geometry) (buf : List Nat)
    (hlen : buf.length = d._img_width * d._img_height) (t : Nat) :
    d.thresholding buf t = some (buf.map (fun v =>
      if d._invert_output then 0xFF - (if v ≥ t then 0xFF else 0x00)
      else (if v ≥ t then 0xFF else 0x00))) := by
  rw [Nat.mul_comm] at hlen
  unfold thresholding
  apply forEachPixel_map d _ _ _ buf hlen
  intro cur row col hrow hcol hcl
  have hp := pivot_lt d row col hrow hcol
  have hin : row * d._img_width + col < cur.length := by omega
  simp only [thresholdPixel, index_pivot d hG row col hrow hcol, load, store, hin, if_true]

theorem patternDither_built (d : Dither) (hG : d.Geometry) (size : Nat) (buf : List Nat)
    (hlen : buf.length = d._img_width * d._img_height) (thresh : Int)
    (hbuilt : d._pattern 0 0 ≠ 0) :
    ∃ out, d.patternDither size buf thresh = some (0, out) ∧ out.length = buf.length ∧
      ∀ row col, row < d._img_height → col < d._img_width →
        out.getD (row * d._img_width + col) 0 =
          (if d._invert_output then
            0xFF - (if (buf.getD (row * d._img_width + col) 0 : Int) >
              (patternCell d size row col : Int) + thresh then 0xFF else 0x00)
          else
            (if (buf.getD (row * d._img_width + col) 0 : Int) >
              (patternCell d size row col : Int) + thresh then 0xFF else 0x00)) := by
  rw [Nat.mul_comm] at hlen
  obtain ⟨out, ho, hl, hP⟩ := forEachPixel_pointwise d (patternPixel d size thresh)
    (fun row col pixel =>
      if d._invert_output then
        0xFF - (if (pixel : Int) > (patternCell d size row col : Int) + thresh
          then 0xFF else 0x00)
      else
        (if (pixel : Int) > (patternCell d size row col : Int) + thresh then 0xFF else 0x00))
    (by
      intro cur row col hrow hcol hcl
      have hp := pivot_lt d row col hrow hcol
      have hin : row * d._img_width + col < cur.length := by omega
      simp only [patternPixel, index_pivot d hG row col hrow hcol, load, store, hin, if_true])
    buf hlen
  refine ⟨out, ?_, hl, hP⟩
  simp only [patternDither, hbuilt, if_false, ho]

theorem GPEDDither_invalid_bits (d : Dither) (buf : List Nat) (bits filter_index : Nat)
    (h : bits < 1 ∨ 7 < bits) : d._GPEDDither buf bits filter_index = some (-1, buf) := by
  have h1 : bits < 1 ∨ bits > 7 := h
  simp only [_GPEDDither, h1, if_true]

theorem clusteredPattern_configured (p : Nat → Nat → Nat) :
    ∃ q, clusteredPattern _size p = some q ∧ q 0 0 = 63 :=
  ⟨_, rfl, rfl⟩

theorem bayerPattern_configured (p : Nat → Nat → Nat) :
    ∃ q, bayerPattern _size p = some q ∧ q 0 0 = 63 :=
  ⟨_, rfl, rfl⟩

/-! ## The claims -/

/-- C1: with invert-output off, for each of the nine kernels and every bit depth
`b` in [1,7], `_GPEDDither` on a byte buffer of length width*height returns 0 and
leaves in every byte a quantization level `k * (255 / (2^b - 1))` with `k < 2^b`,
a fixed point of `quantize b`.  The reason is the second part: the step for a
pivot leaves every byte at a smaller flat index as it was and puts the quantized
value at the pivot, so every neighbour it changes lies at a greater flat index. -/
theorem GPEDDither_output_levels (d : Dither) (hG : d.Geometry)
    (hinv : d._invert_output = false)
    (b filter_index : Nat) (hb1 : 1 ≤ b) (hb7 : b ≤ 7) (hf : filter_index < 9)
    (buf : List Nat) (hlen : buf.length = d._img_width * d._img_height) (hbytes : Bytes buf) :
    (∃ out, d._GPEDDither buf b filter_index = some (0, out) ∧ out.length = buf.length ∧
      ∀ x ∈ out, (∃ k, k < 2 ^ b ∧ x = k * (255 / (2 ^ b - 1))) ∧ quantize b x = x) ∧
    (∀ cur row col, row < d._img_height → col < d._img_width → cur.length = buf.length →
      ∃ nxt, gpedPixel d b (preamble filter_index) cur row col = some nxt ∧
        (∀ i, i < row * d._img_width + col → nxt.getD i 0 = cur.getD i 0) ∧
        nxt.getD (row * d._img_width + col) 0 =
          quantize b (cur.getD (row * d._img_width + col) 0)) := by
  refine ⟨GPEDDither_levels_aux d hG hinv b filter_index hb1 hb7 hf buf hlen hbytes, ?_⟩
  intro cur row col hrow hcol hcl
  obtain ⟨o, h1, _, h3, h4, _⟩ := gpedPixel_spec d hG b filter_index hf cur row col hrow hcol
    (by rw [hcl, hlen, Nat.mul_comm])
  refine ⟨o, h1, h3, ?_⟩
  rw [h4, hinv]
  simp

theorem GPEDDither_output_levels_witness :
    (∃ out, sampleEngine._GPEDDither sampleImage 2 FSf = some (0, out) ∧
      out.length = sampleImage.length ∧
      ∀ x ∈ out, (∃ k, k < 2 ^ 2 ∧ x = k * (255 / (2 ^ 2 - 1))) ∧ quantize 2 x = x) ∧
    (∀ cur row col, row < sampleEngine._img_height → col < sampleEngine._img_width →
      cur.length = sampleImage.length →
      ∃ nxt, gpedPixel sampleEngine 2 (preamble FSf) cur row col = some nxt ∧
        (∀ i, i < row * sampleEngine._img_width + col → nxt.getD i 0 = cur.getD i 0) ∧
        nxt.getD (row * sampleEngine._img_width + col) 0 =
          quantize 2 (cur.getD (row * sampleEngine._img_width + col) 0)) :=
  GPEDDither_output_levels sampleEngine (by decide) rfl 2 FSf (by decide) (by decide)
    (by decide) sampleImage (by decide) (by decide)

/-- C2: each of the nine public error-diffusion entry points returns -1 and
leaves the buffer as it was when `quantization_bits` is outside [1,7]; for
`quantization_bits` in [1,7] (on a buffer of length width*height) it returns 0;
so the result is -1 exactly when the bit depth is outside [1,7]. -/
theorem entry_points_return_code (d : Dither) (buf : List Nat) (bits : Nat)
    (f : Dither → List Nat → Nat → Option (Int × List Nat))
    (hf : f ∈ [FSDither, JJNDither, StuckiDither, BurkesDither, Sierra3Dither,
      Sierra2Dither, Sierra24ADither, AtkinsonDither, PersonalFilterDither]) :
    ((bits < 1 ∨ 7 < bits) → f d buf bits = some (-1, buf)) ∧
    (1 ≤ bits → bits ≤ 7 → d.Geometry → buf.length = d._img_width * d._img_height →
      ∃ out, f d buf bits = some (0, out) ∧ out.length = buf.length) ∧
    (d.Geometry → buf.length = d._img_width * d._img_height →
      ∃ ret out, f d buf bits = some (ret, out) ∧ (ret = -1 ↔ (bits < 1 ∨ 7 < bits))) := by
  have key : ∀ k, k < 9 →
      ((bits < 1 ∨ 7 < bits) → d._GPEDDither buf bits k = some (-1, buf)) ∧
      (1 ≤ bits → bits ≤ 7 → d.Geometry → buf.length = d._img_width * d._img_height →
        ∃ out, d._GPEDDither buf bits k = some (0, out) ∧ out.length = buf.length) ∧
      (d.Geometry → buf.length = d._img_width * d._img_height →
        ∃ ret out, d._GPEDDither buf bits k = some (ret, out) ∧
          (ret = -1 ↔ (bits < 1 ∨ 7 < bits))) := by
    intro k hk
    refine ⟨GPEDDither_invalid_bits d buf bits k, ?_, ?_⟩
    · intro h1 h7 hG hlen
      exact GPEDDither_runs d hG bits k h1 h7 hk buf hlen
    · intro hG hlen
      by_cases h : bits < 1 ∨ 7 < bits
      · exact ⟨-1, buf, GPEDDither_invalid_bits d buf bits k h, iff_of_true rfl h⟩
      · obtain ⟨out, ho, _⟩ := GPEDDither_runs d hG bits k (by omega) (by omega) hk buf hlen
        exact ⟨0, out, ho, iff_of_false (by decide) h⟩
  simp only [List.mem_cons, List.mem_singleton, List.not_mem_nil, or_false] at hf
  rcases hf with h | h | h | h | h | h | h | h | h <;> subst h
  · exact key FSf (by decide)
  · exact key JJNf (by decide)
  · exact key STUf (by decide)
  · exact key BURf (by decide)
  · exact key SIE3f (by decide)
  · exact key SIE2f (by decide)
  · exact key SIE24f (by decide)
  · exact key ATKf (by decide)
  · exact key PERf (by decide)

theorem entry_points_return_code_witness :
    JJNDither sampleEngine sampleImage 8 = some (-1, sampleImage) ∧
    ∃ out, JJNDither sampleEngine sampleImage 3 = some (0, out) ∧
      out.length = sampleImage.length :=
  ⟨(entry_points_return_code sampleEngine sampleImage 8 JJNDither (by simp)).1 (by decide),
   (entry_points_return_code sampleEngine sampleImage 3 JJNDither (by simp)).2.1
     (by decide) (by decide) (by decide) (by decide)⟩

/-- C3: for each of the nine kernels, every bit depth in [1,7] and every buffer of
length width*height, `_GPEDDither` completes and returns 0 with a buffer of the
same length.  Every read and write of the embedding goes through `load` and
`store`, which succeed exactly for an index below the buffer length (second and
third part), and the index is the `uint32_t` value of `index`; so the result
`some` says that every pivot and neighbour index was inside `[0, width*height)`.
The pivot index itself is `row * width + col` (fourth part). -/
theorem GPEDDither_in_bounds (d : Dither) (hG : d.Geometry)
    (b filter_index : Nat) (hb1 : 1 ≤ b) (hb7 : b ≤ 7) (hf : filter_index < 9)
    (buf : List Nat) (hlen : buf.length = d._img_width * d._img_height) :
    (∃ out, d._GPEDDither buf b filter_index = some (0, out) ∧
      out.length = d._img_width * d._img_height) ∧
    (∀ (l : List Nat) (i : Nat), load l i = none ↔ l.length ≤ i) ∧
    (∀ (l : List Nat) (i v : Nat), store l i v = none ↔ l.length ≤ i) ∧
    (∀ row col, row < d._img_height → col < d._img_width →
      d.index col row = row * d._img_width + col ∧
      d.index col row < d._img_width * d._img_height) := by
  obtain ⟨out, ho, hl⟩ := GPEDDither_runs d hG b filter_index hb1 hb7 hf buf hlen
  refine ⟨⟨out, ho, by omega⟩, ?_, ?_, ?_⟩
  · intro l i
    unfold load
    split_ifs with h
    · simp; omega
    · simp; omega
  · intro l i v
    unfold store
    split_ifs with h
    · simp; omega
    · simp; omega
  · intro row col hrow hcol
    have hp := pivot_lt d row col hrow hcol
    rw [index_pivot d hG row col hrow hcol, Nat.mul_comm d._img_width]
    exact ⟨rfl, hp⟩

theorem GPEDDither_in_bounds_witness :
    (∃ out, sampleEngine._GPEDDither sampleImage 1 ATKf = some (0, out) ∧
      out.length = sampleEngine._img_width * sampleEngine._img_height) ∧
    (∀ (l : List Nat) (i : Nat), load l i = none ↔ l.length ≤ i) ∧
    (∀ (l : List Nat) (i v : Nat), store l i v = none ↔ l.length ≤ i) ∧
    (∀ row col, row < sampleEngine._img_height → col < sampleEngine._img_width →
      sampleEngine.index col row = row * sampleEngine._img_width + col ∧
      sampleEngine.index col row < sampleEngine._img_width * sampleEngine._img_height) :=
  GPEDDither_in_bounds sampleEngine (by decide) 1 ATKf (by decide) (by decide) (by decide)
    sampleImage (by decide)

/-- C4: when width <= kw + 1 or height <= kh for the kernel margins derived by the
preamble, no pixel passes the edge test (read in signed arithmetic), and the
output of `_GPEDDither` is the pointwise quantization of the input, complemented
to 255 when invert-output is set. -/
theorem GPEDDither_small_image (d : Dither) (hG : d.Geometry)
    (b filter_index : Nat) (hb1 : 1 ≤ b) (hb7 : b ≤ 7) (hf : filter_index < 9)
    (buf : List Nat) (hlen : buf.length = d._img_width * d._img_height)
    (hsmall : d._img_width ≤ (preamble filter_index).max_filt_width + 1 ∨
      d._img_height ≤ (preamble filter_index).max_filt_height) :
    (∀ row col, eligible d (preamble filter_index) row col = false) ∧
    d._GPEDDither buf b filter_index = some (0, buf.map (fun v =>
      if d._invert_output then 255 - quantize b v else quantize b v)) := by
  have hel := eligible_small d (preamble filter_index) hsmall
  refine ⟨hel, ?_⟩
  have hlen1 : buf.length = d._img_height * d._img_width := by rw [hlen, Nat.mul_comm]
  have hb : ¬ (b < 1 ∨ b > 7) := by omega
  have := forEachPixel_map d (gpedPixel d b (preamble filter_index))
    (fun v => if d._invert_output then 255 - quantize b v else quantize b v)
    (by
      intro cur row col hrow hcol hcl
      obtain ⟨o, h1, _, _, _, _, h6⟩ :=
        gpedPixel_spec d hG b filter_index hf cur row col hrow hcol hcl
      rw [h1, h6 (hel row col)])
    buf hlen1
  simp only [_GPEDDither, hb, if_false, this]

theorem GPEDDither_small_image_witness :
    (∀ row col, eligible tinyEngine (preamble SIE3f) row col = false) ∧
    tinyEngine._GPEDDither [200] 3 SIE3f = some (0, [200].map (fun v =>
      if tinyEngine._invert_output then 255 - quantize 3 v else quantize 3 v)) :=
  GPEDDither_small_image tinyEngine (by decide) 3 SIE3f (by decide) (by decide) (by decide)
    [200] (by decide) (by decide)

/-- C5: for every bit depth `b` in [1,7], `quantize b v` on a byte `v` is the
product `(v >> (8 - b)) * (255 / (2^b - 1))` without 8-bit truncation; it is a
multiple `k * (255 / (2^b - 1))` with `k < 2^b`, takes at most `2^b` distinct
values over the 256 bytes, and is non-decreasing in `v`. -/
theorem quantize_levels (b : Nat) (hb1 : 1 ≤ b) (hb7 : b ≤ 7) :
    (∀ v, v < 256 → quantize b v = (v >>> (8 - b)) * (255 / (2 ^ b - 1))) ∧
    (∀ v, v < 256 → ∃ k, k < 2 ^ b ∧ quantize b v = k * (255 / (2 ^ b - 1))) ∧
    ((Finset.range 256).image (quantize b)).card ≤ 2 ^ b ∧
    (∀ v1 v2, v1 ≤ v2 → v2 < 256 → quantize b v1 ≤ quantize b v2) := by
  refine ⟨fun v hv => quantize_eq b v hb1 hb7 hv, fun v hv => quantize_level b v hb1 hb7 hv,
    ?_, fun v1 v2 h hv => quantize_mono b v1 v2 hb1 hb7 h hv⟩
  have hsub : (Finset.range 256).image (quantize b) ⊆
      (Finset.range (2 ^ b)).image (fun k => k * (255 / (2 ^ b - 1))) := by
    intro x hx
    obtain ⟨v, hv, rfl⟩ := Finset.mem_image.mp hx
    obtain ⟨k, hk, he⟩ := quantize_level b v hb1 hb7 (Finset.mem_range.mp hv)
    exact Finset.mem_image.mpr ⟨k, Finset.mem_range.mpr hk, he.symm⟩
  calc ((Finset.range 256).image (quantize b)).card
      ≤ ((Finset.range (2 ^ b)).image (fun k => k * (255 / (2 ^ b - 1)))).card :=
        Finset.card_le_card hsub
    _ ≤ (Finset.range (2 ^ b)).card := Finset.card_image_le
    _ = 2 ^ b := Finset.card_range _

theorem quantize_levels_witness :
    (∀ v, v < 256 → quantize 3 v = (v >>> (8 - 3)) * (255 / (2 ^ 3 - 1))) ∧
    (∀ v, v < 256 → ∃ k, k < 2 ^ 3 ∧ quantize 3 v = k * (255 / (2 ^ 3 - 1))) ∧
    ((Finset.range 256).image (quantize 3)).card ≤ 2 ^ 3 ∧
    (∀ v1 v2, v1 ≤ v2 → v2 < 256 → quantize 3 v1 ≤ quantize 3 v2) :=
  quantize_levels 3 (by decide) (by decide)

/-- C7: `quantize` is idempotent on bytes for every bit depth in [1,7]; hence
quantizing with 7 bits a buffer that was already quantized with 7 bits changes
nothing. -/
theorem quantize_idempotent (b : Nat) (hb1 : 1 ≤ b) (hb7 : b ≤ 7)
    (buf : List Nat) (hbytes : Bytes buf) :
    (∀ v, v < 256 → quantize b (quantize b v) = quantize b v) ∧
    (buf.map (quantize 7)).map (quantize 7) = buf.map (quantize 7) := by
  refine ⟨fun v hv => quantize_fix b v hb1 hb7 hv, ?_⟩
  rw [List.map_map]
  apply List.map_congr_left
  intro v hv
  exact quantize_fix 7 v (by decide) (by decide) (hbytes v hv)

theorem quantize_idempotent_witness :
    (∀ v, v < 256 → quantize 7 (quantize 7 v) = quantize 7 v) ∧
    (sampleImage.map (quantize 7)).map (quantize 7) = sampleImage.map (quantize 7) :=
  quantize_idempotent 7 (by decide) (by decide) sampleImage (by decide)

/-- C8: on a buffer of length width*height, `thresholding` with threshold `t`
turns every byte `v` into 0xFF when `v >= t` and 0x00 otherwise, and into the
complement when invert-output is on; with `t = 128` an all-zero buffer stays all
zero (all 0xFF if inverted) and an all-255 buffer becomes all 0xFF (all 0 if
inverted). -/
theorem thresholding_result (d : Dither) (hG : d.Geometry) (buf : List Nat)
    (hlen : buf.length = d._img_width * d._img_height) (t : Nat) :
    d.thresholding buf t = some (buf.map (fun v =>
      if d._invert_output then (if v ≥ t then 0x00 else 0xFF)
      else (if v ≥ t then 0xFF else 0x00))) ∧
    d.thresholding (List.replicate (d._img_width * d._img_height) 0) 128 =
      some (List.replicate (d._img_width * d._img_height)
        (if d._invert_output then 0xFF else 0x00)) ∧
    d.thresholding (List.replicate (d._img_width * d._img_height) 255) 128 =
      some (List.replicate (d._img_width * d._img_height)
        (if d._invert_output then 0x00 else 0xFF)) := by
  refine ⟨?_, ?_, ?_⟩
  · rw [thresholding_map d hG buf hlen t]
    congr 1
    apply List.map_congr_left
    intro v _
    split_ifs <;> rfl
  · rw [thresholding_map d hG _ (List.length_replicate _ _) 128, List.map_replicate]
    cases d._invert_output <;> rfl
  · rw [thresholding_map d hG _ (List.length_replicate _ _) 128, List.map_replicate]
    cases d._invert_output <;> rfl

theorem thresholding_result_witness :
    sampleInverted.thresholding sampleImage 128 = some (sampleImage.map (fun v =>
      if sampleInverted._invert_output then (if v ≥ 128 then 0x00 else 0xFF)
      else (if v ≥ 128 then 0xFF else 0x00))) ∧
    sampleInverted.thresholding
        (List.replicate (sampleInverted._img_width * sampleInverted._img_height) 0) 128 =
      some (List.replicate (sampleInverted._img_width * sampleInverted._img_height)
        (if sampleInverted._invert_output then 0xFF else 0x00)) ∧
    sampleInverted.thresholding
        (List.replicate (sampleInverted._img_width * sampleInverted._img_height) 255) 128 =
      some (List.replicate (sampleInverted._img_width * sampleInverted._img_height)
        (if sampleInverted._invert_output then 0x00 else 0xFF)) :=
  thresholding_result sampleInverted (by decide) sampleImage (by decide) 128

/-- C9, as the code has it: with invert-output off (or with threshold 0), for
every image size, buffer of length width*height and threshold `t` in [0,255],
running `thresholding` twice gives the same buffer as running it once. -/
theorem thresholding_idempotent (d : Dither) (hG : d.Geometry) (buf : List Nat)
    (hlen : buf.length = d._img_width * d._img_height) (t : Nat) (ht : t < 256)
    (hcase : d._invert_output = false ∨ t = 0) :
    (d.thresholding buf t).bind (fun once => d.thresholding once t) =
      d.thresholding buf t := by
  rw [thresholding_map d hG buf hlen t, Option.some_bind,
    thresholding_map d hG _ (by rw [List.length_map]; exact hlen) t, List.map_map]
  congr 1
  apply List.map_congr_left
  intro v _
  rcases hcase with h | h
  · simp only [h, Function.comp, Bool.false_eq_true, if_false]
    split_ifs <;> omega
  · subst h
    simp

theorem thresholding_idempotent_witness :
    (sampleEngine.thresholding sampleImage 128).bind
        (fun once => sampleEngine.thresholding once 128) =
      sampleEngine.thresholding sampleImage 128 :=
  thresholding_idempotent sampleEngine (by decide) sampleImage (by decide) 128 (by decide)
    (Or.inl rfl)

/-- C9 as stated fails with invert-output on: on a 4x3 image with threshold 128
the second run complements the result of the first. -/
theorem thresholding_inverted_twice :
    sampleInverted.thresholding sampleImage 128 =
      some [255, 0, 0, 255, 0, 255, 255, 0, 255, 0, 255, 0] ∧
    (sampleInverted.thresholding sampleImage 128).bind
        (fun once => sampleInverted.thresholding once 128) =
      some [0, 255, 255, 0, 255, 0, 0, 255, 0, 255, 0, 255] ∧
    (sampleInverted.thresholding sampleImage 128).bind
        (fun once => sampleInverted.thresholding once 128) ≠
      sampleInverted.thresholding sampleImage 128 := by
  decide

/-- C10: `patternDither` returns -1 and leaves the buffer as it was when the cell
`_pattern[0][0]` is 0, for every buffer and every `thresh`, and returns 0
otherwise (on a buffer of length width*height); a freshly constructed engine has
a zero cell there; after `buildClusteredPattern` or `buildBayerPattern` (pattern
size `_size`) the cell is not zero and `patternDither` returns 0. -/
theorem patternDither_unbuilt (d : Dither) (buf : List Nat) (thresh : Int) :
    (d._pattern 0 0 = 0 → d.patternDither _size buf thresh = some (-1, buf)) ∧
    (d._pattern 0 0 ≠ 0 → d.Geometry → buf.length = d._img_width * d._img_height →
      ∃ out, d.patternDither _size buf thresh = some (0, out) ∧ out.length = buf.length) ∧
    (∀ width height invert_output noise,
      (construct width height invert_output noise)._pattern 0 0 = 0 ∧
      (construct width height invert_output noise).patternDither _size buf thresh =
        some (-1, buf)) ∧
    (∃ d1, d.buildClusteredPattern _size = some d1 ∧ d1._pattern 0 0 ≠ 0 ∧
      (d.Geometry → buf.length = d._img_width * d._img_height →
        ∃ out, d1.patternDither _size buf thresh = some (0, out))) ∧
    (∃ d1, d.buildBayerPattern _size = some d1 ∧ d1._pattern 0 0 ≠ 0 ∧
      (d.Geometry → buf.length = d._img_width * d._img_height →
        ∃ out, d1.patternDither _size buf thresh = some (0, out))) := by
  have hzero : ∀ e : Dither, e._pattern 0 0 = 0 →
      e.patternDither _size buf thresh = some (-1, buf) := by
    intro e h
    simp only [patternDither, h, if_true]
  have hbuilt : ∀ q : Nat → Nat → Nat, q 0 0 = 63 →
      ({ d with _pattern := q } : Dither)._pattern 0 0 ≠ 0 ∧
      (d.Geometry → buf.length = d._img_width * d._img_height →
        ∃ out, ({ d with _pattern := q } : Dither).patternDither _size buf thresh =
          some (0, out)) := by
    intro q hq
    have hne : ({ d with _pattern := q } : Dither)._pattern 0 0 ≠ 0 := by
      show q 0 0 ≠ 0
      omega
    refine ⟨hne, fun hG hlen => ?_⟩
    obtain ⟨out, ho, _⟩ := patternDither_built ({ d with _pattern := q } : Dither) hG _size
      buf hlen thresh hne
    exact ⟨out, ho⟩
  refine ⟨hzero d, ?_, ?_, ?_, ?_⟩
  · intro h hG hlen
    obtain ⟨out, ho, hl, _⟩ := patternDither_built d hG _size buf hlen thresh h
    exact ⟨out, ho, hl⟩
  · intro width height invert_output noise
    exact ⟨rfl, hzero _ rfl⟩
  · obtain ⟨q, hq, hq0⟩ := clusteredPattern_configured d._pattern
    refine ⟨{ d with _pattern := q }, ?_, hbuilt q hq0⟩
    simp only [buildClusteredPattern, hq]
  · obtain ⟨q, hq, hq0⟩ := bayerPattern_configured d._pattern
    refine ⟨{ d with _pattern := q }, ?_, hbuilt q hq0⟩
    simp only [buildBayerPattern, hq]

/-! ## Lemmas for the fast variant and the pattern lookup -/

theorem quantize_BW_cases (c : Nat) :
    (c % 256 < 128 ∧ quantize_BW c = 0) ∨ (128 ≤ c % 256 ∧ quantize_BW c = 255) := by
  unfold quantize_BW
  by_cases h : c % 256 ≥ 128
  · right
    refine ⟨h, ?_⟩
    simp only [h, if_true]
    have h1 : (((c % 256 : Nat) : Int) - 256) >>> (7 : Nat) = -1 := by
      rw [Int.shiftRight_eq_div_pow]
      omega
    rw [h1]; rfl
  · left
    refine ⟨by omega, ?_⟩
    simp only [h, if_false]
    have h1 : ((c % 256 : Nat) : Int) >>> (7 : Nat) = 0 := by
      rw [Int.shiftRight_eq_div_pow]
      omega
    rw [h1]; rfl

theorem fastNeighbour_spec (d : Dither) (guard : Bool) (x y err : Int) (buf : List Nat)
    (n : Nat) (h : guard = true → n < d.index x y ∧ d.index x y < buf.length) :
    ∃ out, fastNeighbour d guard x y err buf = some out ∧ out.length = buf.length ∧
      ∀ i, i ≤ n → out.getD i 0 = buf.getD i 0 := by
  cases guard with
  | false => exact ⟨buf, by simp [fastNeighbour], rfl, fun _ _ => rfl⟩
  | true =>
    obtain ⟨h1, h2⟩ := h rfl
    refine ⟨buf.set (d.index x y) (_clamp ((buf.getD (d.index x y) 0 : Int) + err) 0 255),
      by simp only [fastNeighbour, if_true, load, store, h2], by rw [List.length_set], ?_⟩
    intro i hi
    exact getD_set_ne _ _ _ _ (by omega)

theorem fastPixel_spec (d : Dither) (hG : d.Geometry) (flag : Bool) (buf : List Nat)
    (row col : Nat) (hrow : row < d._img_height) (hcol : col < d._img_width)
    (hlen : buf.length = d._img_height * d._img_width) :
    ∃ out, fastPixel d flag buf row col = some out ∧ out.length = buf.length ∧
      (∀ i, i < row * d._img_width + col → out.getD i 0 = buf.getD i 0) ∧
      out.getD (row * d._img_width + col) 0 =
        (if d._invert_output then 255 - quantize_BW (buf.getD (row * d._img_width + col) 0)
         else quantize_BW (buf.getD (row * d._img_width + col) 0)) := by
  have hp := pivot_lt d row col hrow hcol
  have hA := area_lt d hG
  have hin : row * d._img_width + col < buf.length := by omega
  have hq : quantize_BW (buf.getD (row * d._img_width + col) 0) ≤ 255 := by
    rcases quantize_BW_cases (buf.getD (row * d._img_width + col) 0) with h | h <;> omega
  have hval : (if d._invert_output then
        (255 - quantize_BW (buf.getD (row * d._img_width + col) 0)) % 256
      else quantize_BW (buf.getD (row * d._img_width + col) 0)) =
      (if d._invert_output then 255 - quantize_BW (buf.getD (row * d._img_width + col) 0)
       else quantize_BW (buf.getD (row * d._img_width + col) 0)) := by
    split
    · omega
    · rfl
  -- the three neighbour indices
  have hright : (col : Int) ≠ (d._img_width : Int) - 1 →
      d.index ((col : Int) + 1) (row : Int) = row * d._img_width + col + 1 ∧
      row * d._img_width + col + 1 < d._img_height * d._img_width := by
    intro hne
    have hc : col + 1 < d._img_width := by omega
    have := pivot_lt d row (col + 1) hrow hc
    exact ⟨index_eq d _ _ _ (by push_cast; ring) (by omega), by omega⟩
  have hbelow : (row : Int) ≠ (d._img_height : Int) - 1 →
      d.index (col : Int) ((row : Int) + 1) = (row + 1) * d._img_width + col ∧
      (row + 1) * d._img_width + col < d._img_height * d._img_width := by
    intro hne
    have hr : row + 1 < d._img_height := by omega
    have := pivot_lt d (row + 1) col hr hcol
    exact ⟨index_eq d _ _ _ (by push_cast; ring) (by omega), this⟩
  have hdiag : (col : Int) ≠ (d._img_width : Int) - 1 → (row : Int) ≠ (d._img_height : Int) - 1 →
      d.index ((col : Int) + 1) ((row : Int) + 1) = (row + 1) * d._img_width + col + 1 ∧
      (row + 1) * d._img_width + col + 1 < d._img_height * d._img_width := by
    intro hne1 hne2
    have hr : row + 1 < d._img_height := by omega
    have hc : col + 1 < d._img_width := by omega
    have := pivot_lt d (row + 1) (col + 1) hr hc
    exact ⟨index_eq d _ _ _ (by push_cast; ring) (by omega), by omega⟩
  have hmul : (row + 1) * d._img_width = row * d._img_width + d._img_width := Nat.succ_mul _ _
  simp only [fastPixel, index_pivot d hG row col hrow hcol, load, store, hin, if_true, hval]
  obtain ⟨b2, e2, l2, p2⟩ := fastNeighbour_spec d
    (decide ((col : Int) ≠ (d._img_width : Int) - 1)) ((col : Int) + 1) (row : Int)
    (((buf.getD (row * d._img_width + col) 0 : Int) -
      (quantize_BW (buf.getD (row * d._img_width + col) 0) : Int)) >>> (1 : Nat))
    (buf.set (row * d._img_width + col)
      (if d._invert_output then 255 - quantize_BW (buf.getD (row * d._img_width + col) 0)
       else quantize_BW (buf.getD (row * d._img_width + col) 0)))
    (row * d._img_width + col)
    (by
      intro hg
      obtain ⟨h1, h2⟩ := hright (of_decide_eq_true hg)
      rw [h1, List.length_set]; omega)
  rw [e2]
  obtain ⟨b3, e3, l3, p3⟩ := fastNeighbour_spec d
    (decide ((row : Int) ≠ (d._img_height : Int) - 1)) (col : Int) ((row : Int) + 1)
    (if flag then (((buf.getD (row * d._img_width + col) 0 : Int) -
      (quantize_BW (buf.getD (row * d._img_width + col) 0) : Int)) >>> (1 : Nat)) >>> (1 : Nat)
     else ((buf.getD (row * d._img_width + col) 0 : Int) -
      (quantize_BW (buf.getD (row * d._img_width + col) 0) : Int)) >>> (1 : Nat))
    b2 (row * d._img_width + col)
    (by
      intro hg
      obtain ⟨h1, h2⟩ := hbelow (of_decide_eq_true hg)
      rw [h1, l2, List.length_set]; omega)
  simp only [e3]
  obtain ⟨b4, e4, l4, p4⟩ := fastNeighbour_spec d
    (flag && decide ((col : Int) ≠ (d._img_width : Int) - 1) &&
      decide ((row : Int) ≠ (d._img_height : Int) - 1))
    ((col : Int) + 1) ((row : Int) + 1)
    ((((buf.getD (row * d._img_width + col) 0 : Int) -
      (quantize_BW (buf.getD (row * d._img_width + col) 0) : Int)) >>> (1 : Nat)) >>> (1 : Nat))
    b3 (row * d._img_width + col)
    (by
      intro hg
      simp only [Bool.and_eq_true, decide_eq_true_eq] at hg
      obtain ⟨h1, h2⟩ := hdiag hg.1.2 hg.2
      rw [h1, l3, l2, List.length_set]; omega)
  refine ⟨b4, e4, by rw [l4, l3, l2, List.length_set], ?_, ?_⟩
  · intro i hi
    rw [p4 i (by omega), p3 i (by omega), p2 i (by omega)]
    exact getD_set_ne _ _ _ _ (by omega)
  · rw [p4 _ (le_refl _), p3 _ (le_refl _), p2 _ (le_refl _)]
    exact getD_set_eq _ _ _ hin

theorem fastEDDither_binary_aux (d : Dither) (hG : d.Geometry) (flag : Bool) (buf : List Nat)
    (hlen : buf.length = d._img_width * d._img_height) :
    ∃ out, d.fastEDDither flag buf = some out ∧ out.length = buf.length ∧
      ∀ x ∈ out, x = 0 ∨ x = 255 := by
  rw [Nat.mul_comm] at hlen
  obtain ⟨out, ho, hl, hP⟩ := forEachPixel_inv d (fastPixel d flag)
    (fun n cur => cur.length = buf.length ∧ ∀ i, i < n → cur.getD i 0 = 0 ∨ cur.getD i 0 = 255)
    (by
      intro row col cur hrow hcol ⟨hcl, hc⟩
      obtain ⟨o, h1, h2, h3, h4⟩ := fastPixel_spec d hG flag cur row col hrow hcol (by omega)
      refine ⟨o, h1, by omega, ?_⟩
      intro i hi
      rcases Nat.lt_succ_iff_lt_or_eq.mp hi with h | h
      · rw [h3 i h]; exact hc i h
      · subst h
        rw [h4]
        rcases quantize_BW_cases (cur.getD (row * d._img_width + col) 0) with ⟨_, hq⟩ | ⟨_, hq⟩ <;>
          rw [hq] <;> cases d._invert_output <;> simp)
    buf ⟨rfl, fun i hi => absurd hi (Nat.not_lt_zero i)⟩
  refine ⟨out, ho, hl, ?_⟩
  intro x hx
  obtain ⟨i, hi, rfl⟩ := List.getElem_of_mem hx
  have := hP i (by omega)
  rwa [List.getD_eq_getElem _ _ hi] at this

theorem patternCell_configured (d : Dither) (row col : Nat) :
    patternCell d _size row col = d._pattern (row % _size) (col % _size) := by
  have h1 : ∀ n : Nat, n &&& 1 = n % 2 := Nat.and_one_is_mod
  have h2 : ∀ n : Nat, n % 2 % 256 = n % 2 := fun n => by omega
  simp [patternCell, _size, h1, h2]

/-! ## The claims, continued -/

/-- C11: with a built pattern (top-left cell not zero), for every image size,
buffer of length width*height and `thresh` (an `int8_t`, any integer here),
`patternDither` returns 0
and the byte of every pixel `(col, row)` becomes 0xFF when
`in > _pattern[row mod S][col mod S] + thresh` (compared in unbounded integers) and
0x00 otherwise, complemented when invert-output is on; and the bitwise lookup of
the configured size `S = _size = 2` selects the cell `[row mod S][col mod S]`. -/
theorem patternDither_pointwise (d : Dither) (hG : d.Geometry) (buf : List Nat)
    (hlen : buf.length = d._img_width * d._img_height) (thresh : Int)
    (hbuilt : d._pattern 0 0 ≠ 0) :
    (∃ out, d.patternDither _size buf thresh = some (0, out) ∧ out.length = buf.length ∧
      ∀ row col, row < d._img_height → col < d._img_width →
        out.getD (row * d._img_width + col) 0 =
          (if d._invert_output then
            (if (buf.getD (row * d._img_width + col) 0 : Int) >
              (d._pattern (row % _size) (col % _size) : Int) + thresh then 0x00 else 0xFF)
          else
            (if (buf.getD (row * d._img_width + col) 0 : Int) >
              (d._pattern (row % _size) (col % _size) : Int) + thresh then 0xFF else 0x00))) ∧
    (∀ row col, patternCell d _size row col = d._pattern (row % _size) (col % _size)) ∧
    (∀ n : Nat, n &&& (_size - 1) = n % _size) := by
  refine ⟨?_, patternCell_configured d, fun n => Nat.and_one_is_mod n⟩
  obtain ⟨out, ho, hl, hP⟩ := patternDither_built d hG _size buf hlen thresh hbuilt
  refine ⟨out, ho, hl, ?_⟩
  intro row col hrow hcol
  rw [hP row col hrow hcol, patternCell_configured]
  split_ifs <;> rfl

theorem patternDither_pointwise_witness :
    (∃ out, ({ sampleEngine with _pattern := fun r c => 63 * (2 * r + c + 1) } : Dither).patternDither
        _size sampleImage (-5) = some (0, out) ∧ out.length = sampleImage.length ∧
      ∀ row col, row < 3 → col < 4 →
        out.getD (row * 4 + col) 0 =
          (if false then
            (if (sampleImage.getD (row * 4 + col) 0 : Int) >
              ((63 * (2 * (row % _size) + col % _size + 1) : Nat) : Int) + (-5) then 0x00 else 0xFF)
          else
            (if (sampleImage.getD (row * 4 + col) 0 : Int) >
              ((63 * (2 * (row % _size) + col % _size + 1) : Nat) : Int) + (-5) then 0xFF
             else 0x00))) ∧
    (∀ row col, patternCell
        ({ sampleEngine with _pattern := fun r c => 63 * (2 * r + c + 1) } : Dither) _size row col =
      63 * (2 * (row % _size) + col % _size + 1)) ∧
    (∀ n : Nat, n &&& (_size - 1) = n % _size) :=
  patternDither_pointwise ({ sampleEngine with _pattern := fun r c => 63 * (2 * r + c + 1) } : Dither)
    (by decide) sampleImage (by decide) (-5) (by decide)

/-- C14: for every image size and buffer of length width*height, with
invert-output off or on (and either setting of the artifact switch),
`fastEDDither` completes and every byte of its output is 0x00 or 0xFF: each pixel
step leaves the bytes below the pivot index as they were and puts there the
1-bit value. -/
theorem fastEDDither_binary (d : Dither) (hG : d.Geometry) (remove_artifacts : Bool)
    (buf : List Nat) (hlen : buf.length = d._img_width * d._img_height) :
    (∃ out, d.fastEDDither remove_artifacts buf = some out ∧ out.length = buf.length ∧
      ∀ x ∈ out, x = 0x00 ∨ x = 0xFF) ∧
    (∀ cur row col, row < d._img_height → col < d._img_width → cur.length = buf.length →
      ∃ nxt, fastPixel d remove_artifacts cur row col = some nxt ∧
        (∀ i, i < row * d._img_width + col → nxt.getD i 0 = cur.getD i 0) ∧
        (nxt.getD (row * d._img_width + col) 0 = 0x00 ∨
          nxt.getD (row * d._img_width + col) 0 = 0xFF)) := by
  refine ⟨fastEDDither_binary_aux d hG remove_artifacts buf hlen, ?_⟩
  intro cur row col hrow hcol hcl
  obtain ⟨o, h1, _, h3, h4⟩ := fastPixel_spec d hG remove_artifacts cur row col hrow hcol
    (by rw [hcl, hlen, Nat.mul_comm])
  refine ⟨o, h1, h3, ?_⟩
  rw [h4]
  rcases quantize_BW_cases (cur.getD (row * d._img_width + col) 0) with ⟨_, hq⟩ | ⟨_, hq⟩ <;>
    rw [hq] <;> cases d._invert_output <;> simp

theorem fastEDDither_binary_witness :
    (∃ out, sampleInverted.fastEDDither fastEDDither_remove_artifacts sampleImage = some out ∧
      out.length = sampleImage.length ∧ ∀ x ∈ out, x = 0x00 ∨ x = 0xFF) ∧
    (∀ cur row col, row < sampleInverted._img_height → col < sampleInverted._img_width →
      cur.length = sampleImage.length →
      ∃ nxt, fastPixel sampleInverted fastEDDither_remove_artifacts cur row col = some nxt ∧
        (∀ i, i < row * sampleInverted._img_width + col → nxt.getD i 0 = cur.getD i 0) ∧
        (nxt.getD (row * sampleInverted._img_width + col) 0 = 0x00 ∨
          nxt.getD (row * sampleInverted._img_width + col) 0 = 0xFF)) :=
  fastEDDither_binary sampleInverted (by decide) fastEDDither_remove_artifacts sampleImage
    (by decide)

/-- C15: for every width and height (zero included) and every buffer of length
width*height, `fastEDDither` completes without a fault, so every index it reads or
writes is below width*height (`load` and `store` fail exactly at an index that is
not); a pivot in the last column makes no access for the neighbour
`(col+1, row)` and a pivot in the last row none for `(col, row+1)`. -/
theorem fastEDDither_in_bounds (d : Dither) (hG : d.Geometry) (remove_artifacts : Bool)
    (buf : List Nat) (hlen : buf.length = d._img_width * d._img_height) :
    (∃ out, d.fastEDDither remove_artifacts buf = some out ∧
      out.length = d._img_width * d._img_height) ∧
    (∀ (l : List Nat) (i : Nat), load l i = none ↔ l.length ≤ i) ∧
    (∀ (l : List Nat) (i v : Nat), store l i v = none ↔ l.length ≤ i) ∧
    (∀ (cur : List Nat) (row col : Nat) (err : Int), col + 1 = d._img_width →
      fastNeighbour d (decide ((col : Int) ≠ (d._img_width : Int) - 1))
        ((col : Int) + 1) (row : Int) err cur = some cur) ∧
    (∀ (cur : List Nat) (row col : Nat) (err : Int), row + 1 = d._img_height →
      fastNeighbour d (decide ((row : Int) ≠ (d._img_height : Int) - 1))
        (col : Int) ((row : Int) + 1) err cur = some cur) := by
  obtain ⟨out, ho, hl, _⟩ := fastEDDither_binary_aux d hG remove_artifacts buf hlen
  refine ⟨⟨out, ho, by omega⟩, ?_, ?_, ?_, ?_⟩
  · intro l i
    unfold load
    split_ifs with h
    · simp; omega
    · simp; omega
  · intro l i v
    unfold store
    split_ifs with h
    · simp; omega
    · simp; omega
  · intro cur row col err h
    have : ¬ ((col : Int) ≠ (d._img_width : Int) - 1) := by
      rw [← h]; push_cast; simp
    simp [fastNeighbour, this]
  · intro cur row col err h
    have : ¬ ((row : Int) ≠ (d._img_height : Int) - 1) := by
      rw [← h]; push_cast; simp
    simp [fastNeighbour, this]

theorem fastEDDither_in_bounds_witness :
    (∃ out, sampleEngine.fastEDDither fastEDDither_remove_artifacts sampleImage = some out ∧
      out.length = sampleEngine._img_width * sampleEngine._img_height) ∧
    (∀ (l : List Nat) (i : Nat), load l i = none ↔ l.length ≤ i) ∧
    (∀ (l : List Nat) (i v : Nat), store l i v = none ↔ l.length ≤ i) ∧
    (∀ (cur : List Nat) (row col : Nat) (err : Int), col + 1 = sampleEngine._img_width →
      fastNeighbour sampleEngine (decide ((col : Int) ≠ (sampleEngine._img_width : Int) - 1))
        ((col : Int) + 1) (row : Int) err cur = some cur) ∧
    (∀ (cur : List Nat) (row col : Nat) (err : Int), row + 1 = sampleEngine._img_height →
      fastNeighbour sampleEngine (decide ((row : Int) ≠ (sampleEngine._img_height : Int) - 1))
        (col : Int) ((row : Int) + 1) err cur = some cur) :=
  fastEDDither_in_bounds sampleEngine (by decide) fastEDDither_remove_artifacts sampleImage
    (by decide)

theorem diffuseLog_fst (d : Dither) (k : Preamble) (e : Int) (row col : Nat) (ws : List Int) :
    ∀ ro co buf, (diffuseLog d k e row col ws ro co buf).map Prod.fst =
      diffuse d k e row col ws ro co buf := by
  induction ws with
  | nil => intro ro co buf; simp [diffuseLog, diffuse]
  | cons a rest ih =>
    intro ro co buf
    by_cases hel : eligible d k row col = true
    · by_cases ha : a < 0
      · simp only [diffuseLog, diffuse, hel, ha, if_true]
        exact ih _ _ _
      · have htemp : ∀ r : Int,
            (if (!k.bitshift_avail) = true then r + Int.tdiv (e * a) (k.divisor : Int)
             else r + ((e * a) >>> k.bitshift_div)) = r + amount k e a := by
          intro r
          unfold amount
          split <;> rfl
        simp only [diffuseLog, diffuse, hel, ha, if_true, if_false, htemp]
        cases h1 : load buf (d.index ((col : Int) + co) ((row : Int) + ro)) with
        | none => simp
        | some color =>
          simp only []
          generalize color888ToGray256 _ _ _ = v
          cases h2 : store buf (d.index ((col : Int) + co) ((row : Int) + ro)) v with
          | none => simp
          | some buf1 =>
            simp only []
            rw [← ih ro (co + 1) buf1]
            cases diffuseLog d k e row col rest ro (co + 1) buf1 with
            | none => simp
            | some p => simp
    · have hel1 : eligible d k row col = false := by simpa using hel
      simp only [diffuseLog, diffuse, hel1, Bool.false_eq_true, if_false]
      exact ih _ _ _

theorem gpedPixelLog_fst (d : Dither) (b : Nat) (k : Preamble) (buf : List Nat)
    (row col : Nat) :
    (gpedPixelLog d b k buf row col).map Prod.fst = gpedPixel d b k buf row col := by
  unfold gpedPixelLog gpedPixel
  simp only []
  cases h1 : load buf (d.index col row) with
  | none => simp
  | some color =>
    simp only []
    generalize color888ToGray256 _ _ _ = v
    cases h2 : store buf (d.index col row) v with
    | none => simp
    | some buf1 =>
      simp only []
      exact diffuseLog_fst _ _ _ _ _ _ _ _ _

/-- C16 as stated fails: on the 4x4 buffer of 200s (Floyd-Steinberg, 1 bit, no
inversion) the step for pixel (0,0) writes 255 there and nothing else, because
column 0 fails the edge test `col > 0`; the bytes at (1,0) and (0,1) are still
200 right after it. -/
theorem FS_first_pixel_spreads_nothing :
    eligible engine44 (preamble FSf) 0 0 = false ∧
    gpedPixel engine44 1 (preamble FSf) uniform200 0 0 =
      some [255, 200, 200, 200, 200, 200, 200, 200, 200, 200, 200, 200, 200, 200, 200, 200] ∧
    (gpedPixel engine44 1 (preamble FSf) uniform200 0 0).map
      (fun b => (b.getD (engine44.index 1 0) 0, b.getD (engine44.index 0 1) 0)) =
      some (200, 200) := by
  decide

/-- C16, as the code has it: on the 4x4 buffer of 200s (Floyd-Steinberg, 1 bit, no
inversion) the first pixel (0,0) is quantized to 255 and, lying in column 0 where
the edge test fails, spreads no error, so its step changes that byte alone.  The
first error spread is that of pixel (1,0), which passes the edge test: its step
writes 255 at (1,0) and moves the error 200 - 255 = -55 to (2,0), (0,1), (1,1),
(2,1) with the weights 7, 3, 5, 1 over 16, each of these bytes ending at a value
other than 200 that is within 1 of 200 + (-55 * w) / 16, and no other byte
changes.  The whole run returns 0 with one definite buffer. -/
theorem FS_uniform200_scenario :
    quantize 1 200 = 255 ∧
    eligible engine44 (preamble FSf) 0 0 = false ∧
    gpedPixel engine44 1 (preamble FSf) uniform200 0 0 = some (uniform200.set 0 255) ∧
    eligible engine44 (preamble FSf) 0 1 = true ∧
    (coefficients (preamble FSf) = [7, 3, 5, 1] ∧ (preamble FSf).divisor = 16) ∧
    (∃ out, gpedPixel engine44 1 (preamble FSf) (uniform200.set 0 255) 0 1 = some out ∧
      out.getD (engine44.index 1 0) 0 = 255 ∧
      (∀ t ∈ [((2 : Int), (0 : Int), (7 : Int)), (0, 1, 3), (1, 1, 5), (2, 1, 1)],
        out.getD (engine44.index t.1 t.2.1) 0 ≠ 200 ∧
        (200 - 255) * t.2.2 - 16 <
          16 * ((out.getD (engine44.index t.1 t.2.1) 0 : Int) - 200) ∧
        16 * ((out.getD (engine44.index t.1 t.2.1) 0 : Int) - 200) <
          (200 - 255) * t.2.2 + 16) ∧
      (∀ i ∈ List.range 16,
        i ∉ [engine44.index 1 0, engine44.index 2 0, engine44.index 0 1,
          engine44.index 1 1, engine44.index 2 1] →
        out.getD i 0 = (uniform200.set 0 255).getD i 0)) ∧
    engine44.FSDither uniform200 1 =
      some (0, [255, 255, 255, 255, 255, 255, 255, 255, 255, 255, 0, 255, 255, 255, 255, 255]) := by
  refine ⟨by decide, by decide, by decide, by decide, by decide, ⟨_, rfl, ?_, ?_, ?_⟩, by decide⟩
  · decide
  · decide
  · decide

/-- C17 at its failing input: for the Floyd-Steinberg kernel (divisor 16, shift 4),
error -55 and coefficient 7, the code adds `(-385) >> 4 = -25` while the C division
`(-385) / 16` is -24; in the 4x4 scenario of 200s the right neighbour of pixel (1,0)
therefore becomes 175, not 176.  For the error 55 both give 24. -/
theorem shift_differs_from_division :
    (preamble FSf).bitshift_avail = true ∧ (preamble FSf).bitshift_div = 4 ∧
    (preamble FSf).divisor = 16 ∧
    amount (preamble FSf) (-55) 7 = -25 ∧
    Int.tdiv ((-55) * 7) ((preamble FSf).divisor : Int) = -24 ∧
    amount (preamble FSf) 55 7 = 24 ∧
    Int.tdiv (55 * 7) ((preamble FSf).divisor : Int) = 24 ∧
    (gpedPixelLog engine44 1 (preamble FSf)
        [255, 200, 200, 200, 200, 200, 200, 200, 200, 200, 200, 200, 200, 200, 200, 200] 0 1).map
      (fun p => (p.2.map (fun a => (a.x, a.y, a.temp_r))).head?) = some (some (2, 0, 175)) := by
  decide

/-- C18 at its failing inputs: the widths and heights the preamble derives for the
nine filters.  The seven first agree with the claim; for Atkinson and Personal the
zero weight is counted as a row break (`weights[len] > 0` fails for it), so the
derived heights are 3 and 2, not 2 and 1. -/
theorem preamble_margins :
    (List.range 9).map (fun i => ((preamble i).max_filt_width, (preamble i).max_filt_height)) =
      [(1, 1), (2, 2), (2, 2), (2, 1), (2, 2), (2, 1), (1, 1), (2, 3), (2, 2)] ∧
    ((preamble ATKf).weights.filter (fun w => decide (w < 0))).length = 2 ∧
    (preamble ATKf).max_filt_height = 3 ∧
    ((preamble PERf).weights.filter (fun w => decide (w < 0))).length = 1 ∧
    (preamble PERf).max_filt_height = 2 := by
  decide

/-- C19 at its failing input: on a 6x5 image the pivot (1,0) passes the edge test
for the Jarvis-Judice-Ninke kernel, and after the row break `-2` the loop
addresses the column `1 - 2 = -1` of row 1; its flat index 5 is the pixel (5,0),
the last pixel of row 0, whose byte goes from 100 to 106.  The same happens at
row offset 2 (flat index 11, the pixel (5,1)). -/
theorem JJN_neighbour_leaves_row :
    eligible engine65 (preamble JJNf) 0 1 = true ∧
    (gpedPixelLog engine65 1 (preamble JJNf) image65 0 1).map
      (fun p => (p.2.map (fun a => (a.x, a.y, a.ind)))) =
      some [(2, 0, 2), (3, 0, 3), (-1, 1, 5), (0, 1, 6), (1, 1, 7), (2, 1, 8), (3, 1, 9),
        (-1, 2, 11), (0, 2, 12), (1, 2, 13), (2, 2, 14), (3, 2, 15)] ∧
    engine65.index 5 0 = 5 ∧ engine65.index (-1) 1 = 5 ∧
    image65.getD 5 0 = 100 ∧
    (gpedPixel engine65 1 (preamble JJNf) image65 0 1).map (fun b => b.getD 5 0) = some 106 := by
  decide

/-! ## Lemmas on the summands of the diffusion loop -/

theorem tdiv_pos_divisor (a b : Int) (hb : 0 < b) :
    a.tdiv b = if 0 ≤ a then a / b else -((-a) / b) := by
  split_ifs with h
  · exact Int.tdiv_eq_ediv h (le_of_lt hb)
  · have h1 : 0 ≤ -a := by omega
    have := Int.tdiv_eq_ediv h1 (le_of_lt hb)
    rw [Int.neg_tdiv] at this
    omega

theorem amount_shift (k : Preamble) (e w : Int) (h : k.bitshift_avail = true) :
    amount k e w = (e * w) / ((2 ^ k.bitshift_div : Nat) : Int) := by
  simp only [amount, h, Bool.not_true, Bool.false_eq_true, if_false, Int.shiftRight_eq_div_pow]

theorem amount_div_nonneg (k : Preamble) (e w : Int) (h : k.bitshift_avail = false)
    (hd : 0 < k.divisor) (he : 0 ≤ e) (hw : 0 ≤ w) :
    amount k e w = (e * w) / (k.divisor : Int) := by
  simp only [amount, h, Bool.not_false, if_true]
  rw [tdiv_pos_divisor _ _ (by exact_mod_cast hd), if_pos (mul_nonneg he hw)]

theorem amount_div_neg (k : Preamble) (e w : Int) (h : k.bitshift_avail = false)
    (hd : 0 < k.divisor) (he : e < 0) (hw : 0 < w) :
    amount k e w = -((-(e * w)) / (k.divisor : Int)) := by
  simp only [amount, h, Bool.not_false, if_true]
  rw [tdiv_pos_divisor _ _ (by exact_mod_cast hd),
    if_neg (not_le.mpr (mul_neg_of_neg_of_pos he hw))]

theorem amounts_FS (e : Int) :
    e - 3 ≤ ((coefficients (preamble 0)).map (amount (preamble 0) e)).sum ∧
    ((coefficients (preamble 0)).map (amount (preamble 0) e)).sum ≤ e := by
  have hw : coefficients (preamble 0) = [7, 3, 5, 1] := by decide
  have hs : (preamble 0).bitshift_avail = true := by decide
  have hd : (preamble 0).bitshift_div = 4 := by decide
  simp only [hw, List.map, List.sum_cons, List.sum_nil, amount_shift _ _ _ hs, hd]
  norm_num
  constructor <;> omega

theorem amounts_JJN (e : Int) :
    |((coefficients (preamble 1)).map (amount (preamble 1) e)).sum - e| <
      (coefficients (preamble 1)).length := by
  have hw : coefficients (preamble 1) = [7, 5, 3, 5, 7, 5, 3, 1, 3, 5, 3, 1] := by decide
  have hs : (preamble 1).bitshift_avail = false := by decide
  have hd : (preamble 1).divisor = 48 := by decide
  have hd0 : 0 < (preamble 1).divisor := by rw [hd]; decide
  simp only [hw, List.map, List.sum_cons, List.sum_nil, List.length]
  rw [abs_lt]
  rcases le_or_lt 0 e with h | h
  · have key := fun w hw => amount_div_nonneg (preamble 1) e w hs hd0 h hw
    rw [key 7 (by norm_num), key 5 (by norm_num), key 3 (by norm_num), key 1 (by norm_num), hd]
    norm_num
    constructor <;> omega
  · have key := fun w hw => amount_div_neg (preamble 1) e w hs hd0 h hw
    rw [key 7 (by norm_num), key 5 (by norm_num), key 3 (by norm_num), key 1 (by norm_num), hd]
    norm_num
    constructor <;> omega

theorem amounts_Stucki (e : Int) :
    |((coefficients (preamble 2)).map (amount (preamble 2) e)).sum - e| <
      (coefficients (preamble 2)).length := by
  have hw : coefficients (preamble 2) = [8, 4, 2, 4, 8, 4, 2, 1, 2, 4, 2, 1] := by decide
  have hs : (preamble 2).bitshift_avail = false := by decide
  have hd : (preamble 2).divisor = 42 := by decide
  have hd0 : 0 < (preamble 2).divisor := by rw [hd]; decide
  simp only [hw, List.map, List.sum_cons, List.sum_nil, List.length]
  rw [abs_lt]
  rcases le_or_lt 0 e with h | h
  · have key := fun w hw => amount_div_nonneg (preamble 2) e w hs hd0 h hw
    rw [key 8 (by norm_num), key 4 (by norm_num), key 2 (by norm_num), key 1 (by norm_num), hd]
    norm_num
    constructor <;> omega
  · have key := fun w hw => amount_div_neg (preamble 2) e w hs hd0 h hw
    rw [key 8 (by norm_num), key 4 (by norm_num), key 2 (by norm_num), key 1 (by norm_num), hd]
    norm_num
    constructor <;> omega

theorem amounts_Burkes (e : Int) :
    |((coefficients (preamble 3)).map (amount (preamble 3) e)).sum - e| <
      (coefficients (preamble 3)).length := by
  have hw : coefficients (preamble 3) = [8, 4, 2, 4, 8, 4, 2] := by decide
  have hs : (preamble 3).bitshift_avail = true := by decide
  have hd : (preamble 3).bitshift_div = 5 := by decide
  simp only [hw, List.map, List.sum_cons, List.sum_nil, amount_shift _ _ _ hs, hd, List.length]
  rw [abs_lt]
  norm_num
  constructor <;> omega

theorem amounts_Sierra3 (e : Int) :
    |((coefficients (preamble 4)).map (amount (preamble 4) e)).sum - e| <
      (coefficients (preamble 4)).length := by
  have hw : coefficients (preamble 4) = [5, 3, 2, 4, 5, 4, 2, 2, 3, 2] := by decide
  have hs : (preamble 4).bitshift_avail = true := by decide
  have hd : (preamble 4).bitshift_div = 5 := by decide
  simp only [hw, List.map, List.sum_cons, List.sum_nil, amount_shift _ _ _ hs, hd, List.length]
  rw [abs_lt]
  norm_num
  constructor <;> omega

theorem amounts_Sierra2 (e : Int) :
    |((coefficients (preamble 5)).map (amount (preamble 5) e)).sum - e| <
      (coefficients (preamble 5)).length := by
  have hw : coefficients (preamble 5) = [4, 3, 1, 2, 3, 2, 1] := by decide
  have hs : (preamble 5).bitshift_avail = true := by decide
  have hd : (preamble 5).bitshift_div = 4 := by decide
  simp only [hw, List.map, List.sum_cons, List.sum_nil, amount_shift _ _ _ hs, hd, List.length]
  rw [abs_lt]
  norm_num
  constructor <;> omega

theorem amounts_Sierra24A (e : Int) :
    |((coefficients (preamble 6)).map (amount (preamble 6) e)).sum - e| <
      (coefficients (preamble 6)).length := by
  have hw : coefficients (preamble 6) = [2, 1, 1] := by decide
  have hs : (preamble 6).bitshift_avail = true := by decide
  have hd : (preamble 6).bitshift_div = 2 := by decide
  simp only [hw, List.map, List.sum_cons, List.sum_nil, amount_shift _ _ _ hs, hd, List.length]
  rw [abs_lt]
  norm_num
  constructor <;> omega

theorem amounts_bound (i : Nat) (hi : i < 7) (e : Int) :
    |((coefficients (preamble i)).map (amount (preamble i) e)).sum - e| <
      (coefficients (preamble i)).length := by
  interval_cases i
  · have h := amounts_FS e
    have hl : (coefficients (preamble 0)).length = 4 := by decide
    rw [hl, abs_lt]
    constructor <;> push_cast <;> omega
  · exact amounts_JJN e
  · exact amounts_Stucki e
  · exact amounts_Burkes e
  · exact amounts_Sierra3 e
  · exact amounts_Sierra2 e
  · exact amounts_Sierra24A e

theorem sum_set (buf : List Nat) (i v : Nat) (h : i < buf.length) :
    (((buf.set i v).sum : Nat) : Int) = (buf.sum : Int) - (buf.getD i 0 : Int) + (v : Int) := by
  induction buf generalizing i with
  | nil => simp at h
  | cons a rest ih =>
    cases i with
    | zero =>
      simp only [List.set_cons_zero, List.sum_cons, List.getD_cons_zero]
      rw [Nat.cast_add, Nat.cast_add]; ring
    | succ j =>
      have hj : j < rest.length := by simpa using h
      have := ih j hj
      simp only [List.set_cons_succ, List.sum_cons, List.getD_cons_succ]
      rw [Nat.cast_add, Nat.cast_add, this]; ring

theorem clamp_id (t : Int) (h0 : 0 ≤ t) (h1 : t ≤ 255) : ((_clamp t 0 255 : Nat) : Int) = t := by
  unfold _clamp
  have h2 : ¬ t < ((0 : Nat) : Int) := by simpa using h0
  simp only [h2, if_false]
  obtain ⟨n, rfl⟩ := Int.eq_ofNat_of_zero_le h0
  have hn : n ≤ 255 := by exact_mod_cast h1
  simp only [Int.toNat_ofNat]
  have h3 : n % 65536 = n := by omega
  rw [h3]
  have h4 : ¬ n > 255 := by omega
  simp only [h4, if_false]
  have h5 : n % 256 = n := by omega
  rw [h5]

theorem diffuseLog_sum (d : Dither) (k : Preamble) (e : Int) (row col : Nat)
    (hel : eligible d k row col = true) (ws : List Int) :
    ∀ ro co buf out log, diffuseLog d k e row col ws ro co buf = some (out, log) →
      (∀ a ∈ log, 0 ≤ a.temp_r ∧ a.temp_r ≤ 255) →
      ((out.sum : Nat) : Int) = (buf.sum : Int) +
        ((ws.filter (fun w => decide (¬ w < 0))).map (amount k e)).sum := by
  induction ws with
  | nil =>
    intro ro co buf out log h _
    simp only [diffuseLog, Option.some.injEq, Prod.mk.injEq] at h
    simp [← h.1]
  | cons a rest ih =>
    intro ro co buf out log h hlog
    by_cases ha : a < 0
    · simp only [diffuseLog, hel, ha, if_true] at h
      have := ih _ _ _ _ _ h hlog
      simpa [List.filter, ha] using this
    · simp only [diffuseLog, hel, ha, if_true, if_false] at h
      cases h1 : load buf (d.index ((col : Int) + co) ((row : Int) + ro)) with
      | none => simp [h1] at h
      | some color =>
        have hin : d.index ((col : Int) + co) ((row : Int) + ro) < buf.length := by
          unfold load at h1
          by_contra hc
          simp [hc] at h1
        have hcol : color = buf.getD (d.index ((col : Int) + co) ((row : Int) + ro)) 0 := by
          unfold load at h1
          simp only [hin, if_true, Option.some.injEq] at h1
          exact h1.symm
        simp only [h1, store, hin, if_true, colorGray256To888] at h
        cases h3 : diffuseLog d k e row col rest ro (co + 1)
            (buf.set (d.index ((col : Int) + co) ((row : Int) + ro))
              (color888ToGray256 (_clamp ((color : Int) + amount k e a) 0 255)
                (_clamp ((color : Int) + amount k e a) 0 255)
                (_clamp ((color : Int) + amount k e a) 0 255))) with
        | none => simp [h3] at h
        | some p =>
          obtain ⟨out1, log1⟩ := p
          simp only [h3, Option.some.injEq, Prod.mk.injEq] at h
          obtain ⟨ho, hl⟩ := h
          subst ho
          have hhead := hlog _ (by rw [← hl]; exact List.mem_cons_self _ _)
          simp only at hhead
          have htail : ∀ x ∈ log1, 0 ≤ x.temp_r ∧ x.temp_r ≤ 255 := by
            intro x hx
            exact hlog x (by rw [← hl]; exact List.mem_cons_of_mem _ hx)
          have hrec := ih _ _ _ _ _ h3 htail
          have hc := clamp_id _ hhead.1 hhead.2
          have hlt : _clamp ((color : Int) + amount k e a) 0 255 < 256 := by
            have : ((_clamp ((color : Int) + amount k e a) 0 255 : Nat) : Int) ≤ 255 := by
              rw [hc]; exact hhead.2
            omega
          rw [color888ToGray256_same _ hlt, sum_set _ _ _ hin, hc, ← hcol] at hrec
          rw [hrec]
          simp only [List.filter, ha, not_false_eq_true, decide_True, List.map_cons,
            List.sum_cons]
          ring

theorem gpedPixelLog_sum (d : Dither) (hG : d.Geometry)
    (b i : Nat) (hi : i < 7) (buf : List Nat)
    (hlen : buf.length = d._img_width * d._img_height) (row col : Nat)
    (hrow : row < d._img_height) (hcol : col < d._img_width)
    (hel : eligible d (preamble i) row col = true) :
    ∃ out log, gpedPixelLog d b (preamble i) buf row col = some (out, log) ∧
      gpedPixel d b (preamble i) buf row col = some out ∧
      out.getD (row * d._img_width + col) 0 =
        (if d._invert_output then 255 - quantize b (buf.getD (row * d._img_width + col) 0)
         else quantize b (buf.getD (row * d._img_width + col) 0)) ∧
      ((∀ a ∈ log, 0 ≤ a.temp_r ∧ a.temp_r ≤ 255) →
        |(((out.set (row * d._img_width + col)
              (quantize b (buf.getD (row * d._img_width + col) 0))).sum : Nat) : Int) -
            (buf.sum : Int)| < (coefficients (preamble i)).length ∧
        (d._invert_output = false →
          |((out.sum : Nat) : Int) - (buf.sum : Int)| < (coefficients (preamble i)).length)) := by
  have hlen1 : buf.length = d._img_height * d._img_width := by rw [hlen, Nat.mul_comm]
  obtain ⟨out, ho, hol, _, hpiv, _⟩ :=
    gpedPixel_spec d hG b i (by omega) buf row col hrow hcol hlen1
  have hlink := gpedPixelLog_fst d b (preamble i) buf row col
  rw [ho] at hlink
  cases hL : gpedPixelLog d b (preamble i) buf row col with
  | none => rw [hL] at hlink; simp at hlink
  | some p =>
    obtain ⟨o, log⟩ := p
    rw [hL] at hlink
    simp only [Option.map_some', Option.some.injEq] at hlink
    subst hlink
    refine ⟨o, log, rfl, ho, hpiv, ?_⟩
    intro hlog
    have hp := pivot_lt d row col hrow hcol
    have hin : row * d._img_width + col < buf.length := by omega
    have hino : row * d._img_width + col < o.length := by omega
    have hq := quantize_lt b (buf.getD (row * d._img_width + col) 0)
    have hval : color888ToGray256
          (if d._invert_output then
            (255 - quantize b (buf.getD (row * d._img_width + col) 0)) % 256
           else quantize b (buf.getD (row * d._img_width + col) 0))
          (if d._invert_output then
            (255 - quantize b (buf.getD (row * d._img_width + col) 0)) % 256
           else quantize b (buf.getD (row * d._img_width + col) 0))
          (if d._invert_output then
            (255 - quantize b (buf.getD (row * d._img_width + col) 0)) % 256
           else quantize b (buf.getD (row * d._img_width + col) 0)) =
        (if d._invert_output then 255 - quantize b (buf.getD (row * d._img_width + col) 0)
         else quantize b (buf.getD (row * d._img_width + col) 0)) := by
      cases d._invert_output
      · simpa using color888ToGray256_same _ hq
      · have : (255 - quantize b (buf.getD (row * d._img_width + col) 0)) % 256 =
            255 - quantize b (buf.getD (row * d._img_width + col) 0) := by omega
        simp only [if_true, this]
        exact color888ToGray256_same _ (by omega)
    simp only [gpedPixelLog, index_pivot d hG row col hrow hcol, load, store, hin, if_true,
      colorGray256To888, hval] at hL
    have hs := diffuseLog_sum d (preamble i) _ row col hel _ _ _ _ _ _ hL hlog
    rw [sum_set _ _ _ hin, ← hpiv] at hs
    have hb := amounts_bound i hi ((buf.getD (row * d._img_width + col) 0 : Int) -
      (quantize b (buf.getD (row * d._img_width + col) 0) : Int))
    have hset := sum_set o (row * d._img_width + col)
      (quantize b (buf.getD (row * d._img_width + col) 0)) hino
    have heq : (((o.set (row * d._img_width + col)
          (quantize b (buf.getD (row * d._img_width + col) 0))).sum : Nat) : Int) -
          (buf.sum : Int) =
        ((coefficients (preamble i)).map (amount (preamble i)
          ((buf.getD (row * d._img_width + col) 0 : Int) -
            (quantize b (buf.getD (row * d._img_width + col) 0) : Int)))).sum -
        ((buf.getD (row * d._img_width + col) 0 : Int) -
          (quantize b (buf.getD (row * d._img_width + col) 0) : Int)) := by
      rw [hset, hs]; unfold coefficients; ring
    refine ⟨by rw [heq]; exact hb, ?_⟩
    intro hinv
    rw [hinv] at hpiv
    simp only [Bool.false_eq_true, if_false] at hpiv
    rw [hpiv, sub_add_cancel] at hset
    rw [← hset, heq]
    exact hb

/-- C20: for each kernel whose coefficients sum to its divisor (Floyd-Steinberg,
JJN, Stucki, Burkes, Sierra-3, Sierra-2, Sierra-2-4A, the table rows 0 to 6) and
every quantization error `e` (in particular in [-127,127]), the summands the loop
adds to the neighbours, before clamping, sum to a value that differs from `e` by
less than the number of coefficients; for Floyd-Steinberg the sum lies in
`[e - 3, e]`.  Hence, with invert-output on or off, the step of an eligible pivot
in which no neighbour value is clamped (every `temp_r` is in [0,255]) changes the
sum of the bytes of the buffer, which is the sum over the pivot and its
neighbours, by less than that number, when the pivot is counted at its
non-inverted quantized value (the byte written there is that value, or 255 minus
it under inversion); with invert-output off this is the plain sum of the buffer. -/
theorem diffusion_conservation (i : Nat) (hi : i < 7) (e : Int) :
    (coefficients (preamble i)).sum = ((preamble i).divisor : Int) ∧
    |((coefficients (preamble i)).map (amount (preamble i) e)).sum - e| <
      (coefficients (preamble i)).length ∧
    (i = FSf → e - 3 ≤ ((coefficients (preamble i)).map (amount (preamble i) e)).sum ∧
      ((coefficients (preamble i)).map (amount (preamble i) e)).sum ≤ e) ∧
    (∀ (d : Dither) (b : Nat) (buf : List Nat) (row col : Nat),
      d.Geometry →
      buf.length = d._img_width * d._img_height →
      row < d._img_height → col < d._img_width →
      eligible d (preamble i) row col = true →
      ∃ out log, gpedPixelLog d b (preamble i) buf row col = some (out, log) ∧
        gpedPixel d b (preamble i) buf row col = some out ∧
        out.getD (row * d._img_width + col) 0 =
          (if d._invert_output then
            255 - quantize b (buf.getD (row * d._img_width + col) 0)
           else quantize b (buf.getD (row * d._img_width + col) 0)) ∧
        ((∀ a ∈ log, 0 ≤ a.temp_r ∧ a.temp_r ≤ 255) →
          |(((out.set (row * d._img_width + col)
                (quantize b (buf.getD (row * d._img_width + col) 0))).sum : Nat) : Int) -
              (buf.sum : Int)| < (coefficients (preamble i)).length ∧
          (d._invert_output = false →
            |((out.sum : Nat) : Int) - (buf.sum : Int)| <
              (coefficients (preamble i)).length))) := by
  refine ⟨?_, amounts_bound i hi e, ?_, ?_⟩
  · interval_cases i <;> decide
  · intro h
    have h0 : i = 0 := h
    subst h0
    exact amounts_FS e
  · intro d b buf row col hG hlen hrow hcol hel
    exact gpedPixelLog_sum d hG b i hi buf hlen row col hrow hcol hel

theorem diffusion_conservation_witness :
    |((coefficients (preamble BURf)).map (amount (preamble BURf) (-100))).sum - (-100)| <
      (coefficients (preamble BURf)).length ∧
    ∃ out, gpedPixel engine65Inverted 1 (preamble BURf) image65 0 1 = some out ∧
      out.getD 1 0 = 255 ∧
      |(((out.set 1 (quantize 1 (image65.getD 1 0))).sum : Nat) : Int) - (image65.sum : Int)| <
        (coefficients (preamble BURf)).length := by
  refine ⟨(diffusion_conservation BURf (by decide) (-100)).2.1, ?_⟩
  obtain ⟨out, log, hL, ho, hpiv, hsum⟩ :=
    (diffusion_conservation BURf (by decide) 0).2.2.2 engine65Inverted 1 image65 0 1
      (by decide) (by decide) (by decide) (by decide) (by decide)
  refine ⟨out, ho, hpiv, (hsum ?_).1⟩
  have hrun : (gpedPixelLog engine65Inverted 1 (preamble BURf) image65 0 1).map
      (fun p => decide (∀ a ∈ p.2, 0 ≤ a.temp_r ∧ a.temp_r ≤ 255)) = some true := by
    decide
  rw [hL] at hrun
  simpa using hrun

/-! ## Lemmas on the pattern builders -/

theorem relCells_start (p p1 : Nat → Nat → Nat) : relCells p p1 p p1 :=
  fun _ _ => Or.inr ⟨rfl, rfl⟩

theorem relCells_setCell (p p1 q q1 : Nat → Nat → Nat) (r c v : Nat)
    (h : relCells p p1 q q1) : relCells p p1 (setCell q r c v) (setCell q1 r c v) := by
  intro r2 c2
  unfold setCell
  by_cases hc : r2 = r ∧ c2 = c
  · left; simp only [hc, and_self, if_true]
  · simp only [hc, if_false]; exact h r2 c2

theorem relCells_fillCells (p p1 : Nat → Nat → Nat) (step : Nat) (cell : Nat → Nat × Nat)
    (idxs : List Nat) :
    ∀ (a : (Nat → Nat → Nat) × Nat) (q1 : Nat → Nat → Nat), relCells p p1 a.1 q1 →
      ∃ x, fillCells step cell idxs (q1, a.2) = (x, (fillCells step cell idxs a).2) ∧
        relCells p p1 (fillCells step cell idxs a).1 x := by
  induction idxs with
  | nil => intro a q1 h; exact ⟨q1, rfl, h⟩
  | cons i rest ih =>
    intro a q1 h
    obtain ⟨q, val⟩ := a
    simp only [fillCells]
    exact ih (setCell q (cell i).1 (cell i).2 (step * val), val + 1) _
      (relCells_setCell p p1 q q1 _ _ _ h)

theorem relCells_spiralLoop (p p1 : Nat → Nat → Nat) (step : Nat) (fuel : Nat) :
    ∀ (q : Nat → Nat → Nat) (val k l m n : Nat) (q1 : Nat → Nat → Nat), relCells p p1 q q1 →
      (spiralLoop step fuel { p := q, val := val, k := k, l := l, m := m, n := n } = none ∧
        spiralLoop step fuel { p := q1, val := val, k := k, l := l, m := m, n := n } = none) ∨
      (∃ t x, spiralLoop step fuel { p := q, val := val, k := k, l := l, m := m, n := n } =
          some t ∧
        spiralLoop step fuel { p := q1, val := val, k := k, l := l, m := m, n := n } =
          some { t with p := x } ∧
        relCells p p1 t.p x) := by
  induction fuel with
  | zero =>
    intro q val k l m n q1 h
    by_cases hc : k < m ∧ l < n
    · left; simp [spiralLoop, hc]
    · right
      exact ⟨{ p := q, val := val, k := k, l := l, m := m, n := n }, q1,
        by simp [spiralLoop, hc], by simp [spiralLoop, hc], h⟩
  | succ fuel ih =>
    intro q val k l m n q1 h
    by_cases hc : k < m ∧ l < n
    · obtain ⟨xa, ea, ha⟩ := relCells_fillCells p p1 step (fun i => (k, i))
        (List.range' l (n - l)) (q, val) q1 h
      obtain ⟨xb, eb, hb⟩ := relCells_fillCells p p1 step (fun i => (i, n - 1))
        (List.range' (k + 1) (m - (k + 1))) _ xa ha
      simp only [spiralLoop, hc, and_self, if_true, ea, eb]
      by_cases h1 : k + 1 < m
      · obtain ⟨xc, ec, hcc⟩ := relCells_fillCells p p1 step (fun i => (m - 1, i))
          (List.range' l (n - 1 - l)).reverse _ xb hb
        simp only [h1, if_true, ec]
        by_cases h2 : l < n - 1
        · obtain ⟨xe, ee, he⟩ := relCells_fillCells p p1 step (fun i => (i, l))
            (List.range' (k + 1) (m - 1 - (k + 1))).reverse _ xc hcc
          simp only [h2, if_true, ee]
          exact ih _ _ (k + 1) (l + 1) (m - 1) (n - 1) xe he
        · simp only [h2, if_false]
          exact ih _ _ (k + 1) l (m - 1) (n - 1) xc hcc
      · simp only [h1, if_false]
        by_cases h2 : l < n - 1
        · obtain ⟨xe, ee, he⟩ := relCells_fillCells p p1 step (fun i => (i, l))
            (List.range' (k + 1) (m - (k + 1))).reverse _ xb hb
          simp only [h2, if_true, ee]
          exact ih _ _ (k + 1) (l + 1) m (n - 1) xe he
        · simp only [h2, if_false]
          exact ih _ _ (k + 1) l m (n - 1) xb hb
    · right
      exact ⟨{ p := q, val := val, k := k, l := l, m := m, n := n }, q1,
        by simp [spiralLoop, hc], by simp [spiralLoop, hc], h⟩

theorem relCells_bayerCols (p p1 : Nat → Nat → Nat) (size step r : Nat) (fuel : Nat) :
    ∀ (q : Nat → Nat → Nat) (increm c : Nat) (q1 : Nat → Nat → Nat), relCells p p1 q q1 →
      (bayerCols size step r fuel (q, increm, c) = none ∧
        bayerCols size step r fuel (q1, increm, c) = none) ∨
      (∃ t x i c2, bayerCols size step r fuel (q, increm, c) = some (t, i, c2) ∧
        bayerCols size step r fuel (q1, increm, c) = some (x, i, c2) ∧ relCells p p1 t x) := by
  induction fuel with
  | zero =>
    intro q increm c q1 h
    by_cases hc : c < size
    · left; simp [bayerCols, hc]
    · right; exact ⟨q, q1, increm, c, by simp [bayerCols, hc], by simp [bayerCols, hc], h⟩
  | succ fuel ih =>
    intro q increm c q1 h
    by_cases hc : c < size
    · simp only [bayerCols, hc, if_true]
      exact ih _ _ _ _ (relCells_setCell p p1 q q1 _ _ _ h)
    · right; exact ⟨q, q1, increm, c, by simp [bayerCols, hc], by simp [bayerCols, hc], h⟩

theorem relCells_bayerRows (p p1 : Nat → Nat → Nat) (size step offs : Nat) (rows : List Nat) :
    ∀ (q : Nat → Nat → Nat) (increm c : Nat) (q1 : Nat → Nat → Nat), relCells p p1 q q1 →
      (bayerRows size step offs rows (q, increm, c) = none ∧
        bayerRows size step offs rows (q1, increm, c) = none) ∨
      (∃ t x i c2, bayerRows size step offs rows (q, increm, c) = some (t, i, c2) ∧
        bayerRows size step offs rows (q1, increm, c) = some (x, i, c2) ∧ relCells p p1 t x) := by
  induction rows with
  | nil =>
    intro q increm c q1 h
    right; exact ⟨q, q1, increm, c, by simp [bayerRows], by simp [bayerRows], h⟩
  | cons r rest ih =>
    intro q increm c q1 h
    rcases relCells_bayerCols p p1 size step r (size + 1) q increm c q1 h with
      ⟨e1, e2⟩ | ⟨t, x, i, c2, e1, e2, hr⟩
    · left; simp [bayerRows, e1, e2]
    · simp only [bayerRows, e1, e2]
      exact ih _ _ _ _ hr

theorem relCells_marker (p q q1 : Nat → Nat → Nat)
    (h : relCells p (fun _ _ => 256) q q1) (r c : Nat) (hlt : q1 r c < 256) :
    q r c = q1 r c := by
  rcases h r c with h1 | ⟨_, h2⟩
  · exact h1
  · rw [h2] at hlt
    have h3 : (256 : Nat) < 256 := hlt
    omega

theorem level_lt (S k : Nat) (hk : k < S * S) :
    (k + 1) * (255 / (S * S)) < 256 := by
  have h1 : (k + 1) * (255 / (S * S)) ≤ (S * S) * (255 / (S * S)) :=
    Nat.mul_le_mul_right _ hk
  have h2 : (S * S) * (255 / (S * S)) ≤ 255 := Nat.mul_div_le 255 (S * S)
  omega

theorem order_to_levels (S : Nat) (order : List (Nat × Nat)) (f : Nat → Nat → Nat)
    (hlen : order.length = S * S)
    (hall : ∀ k, k < S * S → f (order.getD k (0, 0)).1 (order.getD k (0, 0)).2 =
      (k + 1) * (255 / (S * S)))
    (hperm : List.Perm order (cells S)) :
    List.Perm ((cells S).map (fun rc => f rc.1 rc.2)) (levels S) := by
  have h1 : order.map (fun rc => f rc.1 rc.2) = levels S := by
    apply List.ext_getElem
    · simp [levels, hlen]
    · intro i hi1 hi2
      have hi : i < S * S := by simpa [hlen] using hi1
      have := hall i hi
      rw [List.getD_eq_getElem _ _ (by rw [hlen]; exact hi)] at this
      simp only [List.getElem_map, levels, List.getElem_range]
      exact this
  rw [← h1]
  exact (hperm.map _).symm

set_option maxRecDepth 1000000 in
set_option maxHeartbeats 8000000 in
theorem clusteredCheck_ok (S : Nat) (h1 : 1 ≤ S) (h15 : S ≤ 15) : clusteredCheck S = true := by
  interval_cases S <;> decide!

set_option maxRecDepth 1000000 in
set_option maxHeartbeats 8000000 in
theorem bayerCheck_ok (S : Nat) (h1 : 1 ≤ S) (h15 : S ≤ 15) : bayerCheck S = true := by
  interval_cases S <;> decide!

theorem clusteredPattern_spiral_aux (S : Nat) (h1 : 1 ≤ S) (h15 : S ≤ 15)
    (p : Nat → Nat → Nat) :
    ∃ s, spiralLoop ((255 / (S * S)) % 256) S
        { p := p, val := 1, k := 0, l := 0, m := S, n := S } = some s ∧
      clusteredPattern S p = some s.p ∧
      s.val = S * S + 1 ∧
      (spec_spiralOrder S).length = S * S ∧
      (∀ k, k < S * S →
        s.p ((spec_spiralOrder S).getD k (0, 0)).1 ((spec_spiralOrder S).getD k (0, 0)).2 =
          (k + 1) * (255 / (S * S))) ∧
      List.Perm (spec_spiralOrder S) (cells S) ∧
      List.Perm ((cells S).map (fun rc => s.p rc.1 rc.2)) (levels S) := by
  have hchk := clusteredCheck_ok S h1 h15
  unfold clusteredCheck at hchk
  rcases relCells_spiralLoop p (fun _ _ => 256) ((255 / (S * S)) % 256) S p 1 0 0 S S
      (fun _ _ => 256) (relCells_start p _) with ⟨_, e2⟩ | ⟨t, x, e1, e2, hr⟩
  · rw [e2] at hchk; simp at hchk
  · rw [e2] at hchk
    simp only [Bool.and_eq_true, decide_eq_true_eq, List.all_eq_true, List.mem_range] at hchk
    obtain ⟨⟨⟨hval, hlen⟩, hall⟩, hperm⟩ := hchk
    have hall1 : ∀ k, k < S * S →
        t.p ((spec_spiralOrder S).getD k (0, 0)).1 ((spec_spiralOrder S).getD k (0, 0)).2 =
          (k + 1) * (255 / (S * S)) := by
      intro k hk
      have hx := hall k hk
      rw [relCells_marker p t.p x hr _ _ (by rw [hx]; exact level_lt S k hk)]
      exact hx
    refine ⟨t, e1, ?_, hval, hlen, hall1, hperm, order_to_levels S _ t.p hlen hall1 hperm⟩
    have hS : ¬ S < 1 := by omega
    simp only [clusteredPattern, hS, if_false, e1]

theorem bayerPattern_passes_aux (S : Nat) (h1 : 1 ≤ S) (h15 : S ≤ 15)
    (p : Nat → Nat → Nat) :
    ∃ p1 i1 c1 p2 c2,
      bayerRows S ((255 / (S * S)) % 256) (if S &&& 1 = 0 then 1 else 0) (List.range S)
        (p, 1, 0) = some (p1, i1, c1) ∧
      bayerRows S ((255 / (S * S)) % 256) (if S &&& 1 = 0 then 1 else 0) (List.range S)
        (p1, i1, 1) = some (p2, S * S + 1, c2) ∧
      bayerPattern S p = some p2 ∧
      i1 = ((cells S).filter (fun rc => (rc.1 + rc.2) % 2 = 0)).length + 1 ∧
      (spec_bayerOrder S).length = S * S ∧
      (∀ k, k < S * S →
        p2 ((spec_bayerOrder S).getD k (0, 0)).1 ((spec_bayerOrder S).getD k (0, 0)).2 =
          (k + 1) * (255 / (S * S))) ∧
      List.Perm (spec_bayerOrder S) (cells S) ∧
      List.Perm ((cells S).map (fun rc => p2 rc.1 rc.2)) (levels S) := by
  have hchk := bayerCheck_ok S h1 h15
  unfold bayerCheck at hchk
  rcases relCells_bayerRows p (fun _ _ => 256) S ((255 / (S * S)) % 256)
      (if S &&& 1 = 0 then 1 else 0) (List.range S) p 1 0 (fun _ _ => 256)
      (relCells_start p _) with ⟨_, e2⟩ | ⟨t, x, i, c2, e1, e2, hr⟩
  · rw [e2] at hchk; simp at hchk
  · rw [e2] at hchk
    simp only [] at hchk
    rcases relCells_bayerRows p (fun _ _ => 256) S ((255 / (S * S)) % 256)
        (if S &&& 1 = 0 then 1 else 0) (List.range S) t i 1 x hr with
      ⟨_, f2⟩ | ⟨t2, x2, i2, c3, f1, f2, hr2⟩
    · rw [f2] at hchk; simp at hchk
    · rw [f2] at hchk
      simp only [Bool.and_eq_true, decide_eq_true_eq, List.all_eq_true, List.mem_range] at hchk
      obtain ⟨⟨⟨⟨hi1, hi2⟩, hlen⟩, hall⟩, hperm⟩ := hchk
      have hall1 : ∀ k, k < S * S →
          t2 ((spec_bayerOrder S).getD k (0, 0)).1 ((spec_bayerOrder S).getD k (0, 0)).2 =
            (k + 1) * (255 / (S * S)) := by
        intro k hk
        have hx := hall k hk
        rw [relCells_marker p t2 x2 hr2 _ _ (by rw [hx]; exact level_lt S k hk)]
        exact hx
      subst hi2
      refine ⟨t, i, c2, t2, c3, e1, f1, ?_, hi1, hlen, hall1, hperm,
        order_to_levels S _ t2 hlen hall1 hperm⟩
      have hS : ¬ S < 1 := by omega
      simp only [bayerPattern, hS, if_false, e1, f1]

/-- C12: for every pattern size `S` with 1 <= S <= 15 and every prior content of
the matrix, the loop of `buildClusteredPattern` ends after `S * S` assignments
(`val` ends at `S * S + 1`), the cell visited `k`-th (k = 1..S*S) by the clockwise
inward spiral from the top-left holds `k * step` with `step = 255 / (S * S)`, the
spiral lists every cell once, and the matrix is a permutation of
`step, 2 * step, ..., S * S * step`; since the `S * S` assigned values are all
different and all present, every cell was written exactly once.  For the
configured `S = 2` the result is [[63,126],[252,189]]. -/
theorem clusteredPattern_spiral (S : Nat) (h1 : 1 ≤ S) (h15 : S ≤ 15)
    (p : Nat → Nat → Nat) :
    (∃ s, spiralLoop ((255 / (S * S)) % 256) S
        { p := p, val := 1, k := 0, l := 0, m := S, n := S } = some s ∧
      clusteredPattern S p = some s.p ∧
      s.val = S * S + 1 ∧
      (spec_spiralOrder S).length = S * S ∧
      (∀ k, k < S * S →
        s.p ((spec_spiralOrder S).getD k (0, 0)).1 ((spec_spiralOrder S).getD k (0, 0)).2 =
          (k + 1) * (255 / (S * S))) ∧
      List.Perm (spec_spiralOrder S) (cells S) ∧
      List.Perm ((cells S).map (fun rc => s.p rc.1 rc.2)) (levels S)) ∧
    (levels S).Nodup ∧
    (∃ q, clusteredPattern _size p = some q ∧
      [[q 0 0, q 0 1], [q 1 0, q 1 1]] = [[63, 126], [252, 189]]) ∧
    (∀ d : Dither, d._pattern = p →
      d.buildClusteredPattern S = (clusteredPattern S p).map (fun q => { d with _pattern := q })) := by
  refine ⟨clusteredPattern_spiral_aux S h1 h15 p, ?_, ⟨_, rfl, rfl⟩, ?_⟩
  · unfold levels
    apply List.Nodup.map_on _ (List.nodup_range _)
    intro a _ b _ hab
    have hstep : 0 < 255 / (S * S) := by
      apply Nat.div_pos _ (by positivity)
      have : S * S ≤ 15 * 15 := Nat.mul_le_mul h15 h15
      omega
    have := Nat.eq_of_mul_eq_mul_right hstep hab
    omega
  · intro d hd
    subst hd
    unfold buildClusteredPattern
    cases clusteredPattern S d._pattern <;> rfl

theorem clusteredPattern_spiral_witness :
    (∃ s, spiralLoop ((255 / (3 * 3)) % 256) 3
        { p := fun _ _ => 7, val := 1, k := 0, l := 0, m := 3, n := 3 } = some s ∧
      clusteredPattern 3 (fun _ _ => 7) = some s.p ∧
      s.val = 3 * 3 + 1 ∧
      (spec_spiralOrder 3).length = 3 * 3 ∧
      (∀ k, k < 3 * 3 →
        s.p ((spec_spiralOrder 3).getD k (0, 0)).1 ((spec_spiralOrder 3).getD k (0, 0)).2 =
          (k + 1) * (255 / (3 * 3))) ∧
      List.Perm (spec_spiralOrder 3) (cells 3) ∧
      List.Perm ((cells 3).map (fun rc => s.p rc.1 rc.2)) (levels 3)) ∧
    (levels 3).Nodup ∧
    (∃ q, clusteredPattern _size (fun _ _ => 7) = some q ∧
      [[q 0 0, q 0 1], [q 1 0, q 1 1]] = [[63, 126], [252, 189]]) ∧
    (∀ d : Dither, d._pattern = (fun _ _ => 7) →
      d.buildClusteredPattern 3 =
        (clusteredPattern 3 (fun _ _ => 7)).map (fun q => { d with _pattern := q })) :=
  clusteredPattern_spiral 3 (by decide) (by decide) (fun _ _ => 7)

/-- C13: for every pattern size `S` with 1 <= S <= 15 and every prior content of
the matrix, the two passes of `buildBayerPattern` end after `S * S` assignments in
all (`increm` ends at `S * S + 1`), the first pass making as many as there are
cells with `row + col` even; the `k`-th cell (k = 1..S*S) in the order "cells with
`row + col` even row by row, then cells with `row + col` odd row by row" holds
`k * step` with `step = 255 / (S * S)`; that order lists every cell once, so the
matrix is a permutation of `step, ..., S * S * step` and every cell was written
exactly once.  For the configured `S = 2` the result is [[63,189],[252,126]],
that is `63 * (B + 1)` for `B = [[0,2],[3,1]]`. -/
theorem bayerPattern_passes (S : Nat) (h1 : 1 ≤ S) (h15 : S ≤ 15)
    (p : Nat → Nat → Nat) :
    (∃ p1 i1 c1 p2 c2,
      bayerRows S ((255 / (S * S)) % 256) (if S &&& 1 = 0 then 1 else 0) (List.range S)
        (p, 1, 0) = some (p1, i1, c1) ∧
      bayerRows S ((255 / (S * S)) % 256) (if S &&& 1 = 0 then 1 else 0) (List.range S)
        (p1, i1, 1) = some (p2, S * S + 1, c2) ∧
      bayerPattern S p = some p2 ∧
      i1 = ((cells S).filter (fun rc => (rc.1 + rc.2) % 2 = 0)).length + 1 ∧
      (spec_bayerOrder S).length = S * S ∧
      (∀ k, k < S * S →
        p2 ((spec_bayerOrder S).getD k (0, 0)).1 ((spec_bayerOrder S).getD k (0, 0)).2 =
          (k + 1) * (255 / (S * S))) ∧
      List.Perm (spec_bayerOrder S) (cells S) ∧
      List.Perm ((cells S).map (fun rc => p2 rc.1 rc.2)) (levels S)) ∧
    (∃ q, bayerPattern _size p = some q ∧
      [[q 0 0, q 0 1], [q 1 0, q 1 1]] = [[63, 189], [252, 126]] ∧
      [[q 0 0, q 0 1], [q 1 0, q 1 1]] =
        [[63 * (0 + 1), 63 * (2 + 1)], [63 * (3 + 1), 63 * (1 + 1)]]) ∧
    (∀ d : Dither, d._pattern = p →
      d.buildBayerPattern S = (bayerPattern S p).map (fun q => { d with _pattern := q })) := by
  refine ⟨bayerPattern_passes_aux S h1 h15 p, ⟨_, rfl, rfl, rfl⟩, ?_⟩
  intro d hd
  subst hd
  unfold buildBayerPattern
  cases bayerPattern S d._pattern <;> rfl

theorem bayerPattern_passes_witness :
    (∃ p1 i1 c1 p2 c2,
      bayerRows 3 ((255 / (3 * 3)) % 256) (if 3 &&& 1 = 0 then 1 else 0) (List.range 3)
        (fun _ _ => 7, 1, 0) = some (p1, i1, c1) ∧
      bayerRows 3 ((255 / (3 * 3)) % 256) (if 3 &&& 1 = 0 then 1 else 0) (List.range 3)
        (p1, i1, 1) = some (p2, 3 * 3 + 1, c2) ∧
      bayerPattern 3 (fun _ _ => 7) = some p2 ∧
      i1 = ((cells 3).filter (fun rc => (rc.1 + rc.2) % 2 = 0)).length + 1 ∧
      (spec_bayerOrder 3).length = 3 * 3 ∧
      (∀ k, k < 3 * 3 →
        p2 ((spec_bayerOrder 3).getD k (0, 0)).1 ((spec_bayerOrder 3).getD k (0, 0)).2 =
          (k + 1) * (255 / (3 * 3))) ∧
      List.Perm (spec_bayerOrder 3) (cells 3) ∧
      List.Perm ((cells 3).map (fun rc => p2 rc.1 rc.2)) (levels 3)) ∧
    (∃ q, bayerPattern _size (fun _ _ => 7) = some q ∧
      [[q 0 0, q 0 1], [q 1 0, q 1 1]] = [[63, 189], [252, 126]] ∧
      [[q 0 0, q 0 1], [q 1 0, q 1 1]] =
        [[63 * (0 + 1), 63 * (2 + 1)], [63 * (3 + 1), 63 * (1 + 1)]]) ∧
    (∀ d : Dither, d._pattern = (fun _ _ => 7) →
      d.buildBayerPattern 3 =
        (bayerPattern 3 (fun _ _ => 7)).map (fun q => { d with _pattern := q })) :=
  bayerPattern_passes 3 (by decide) (by decide) (fun _ _ => 7)

/-! ## Lemmas for the last claims -/

theorem quantize_BW_byte (c : Nat) (hc : c < 256) :
    quantize_BW c = (if c < 128 then 0x00 else 0xFF) ∧ quantize_BW c = quantize 1 c := by
  have hm : c % 256 = c := Nat.mod_eq_of_lt hc
  have hq : quantize 1 c = (c >>> (8 - 1)) * (255 / (2 ^ 1 - 1)) :=
    quantize_eq 1 c (by decide) (by decide) hc
  simp only [Nat.shiftRight_eq_div_pow] at hq
  norm_num at hq
  rcases quantize_BW_cases c with ⟨h1, h2⟩ | ⟨h1, h2⟩
  · rw [hm] at h1
    have h3 : c / 128 = 0 := by omega
    rw [h2, hq, h3]
    simp [h1]
  · rw [hm] at h1
    have h3 : c / 128 = 1 := by omega
    have h4 : ¬ c < 128 := by omega
    rw [h2, hq, h3]
    simp [h4]

theorem noiseIndex_small (d : Dither) (row col : Nat) (hcol : col < 769) :
    noiseIndex d row col < 1024 := by
  unfold noiseIndex
  have h1 : d._rnd_frame.getD (row % _rnd_frame_width) 0 % 256 < 256 := Nat.mod_lt _ (by decide)
  have h2 : col &&& (_rnd_frame_width - 1) ≤ col := Nat.and_le_left
  omega

/-- C21: for every byte `c`, `quantize_BW c` is 0x00 when `c < 128` and 0xFF when
`c >= 128`, and it equals `quantize 1 c`; so on a byte buffer of length
width*height, thresholding at 128 with invert-output off gives the buffer of the
`quantize_BW` values. -/
theorem quantize_BW_threshold (d : Dither) (hG : d.Geometry)
    (hinv : d._invert_output = false) (buf : List Nat)
    (hlen : buf.length = d._img_width * d._img_height) (hbytes : Bytes buf) :
    (∀ c, c < 256 →
      quantize_BW c = (if c < 128 then 0x00 else 0xFF) ∧ quantize_BW c = quantize 1 c) ∧
    d.thresholding buf 128 = some (buf.map quantize_BW) ∧
    buf.map quantize_BW = buf.map (quantize 1) := by
  refine ⟨quantize_BW_byte, ?_, ?_⟩
  · rw [thresholding_map d hG buf hlen 128, hinv]
    congr 1
    apply List.map_congr_left
    intro v hv
    rw [(quantize_BW_byte v (hbytes v hv)).1]
    simp only [Bool.false_eq_true, if_false]
    split_ifs <;> first | rfl | omega
  · apply List.map_congr_left
    intro v hv
    exact (quantize_BW_byte v (hbytes v hv)).2

theorem quantize_BW_threshold_witness :
    (∀ c, c < 256 →
      quantize_BW c = (if c < 128 then 0x00 else 0xFF) ∧ quantize_BW c = quantize 1 c) ∧
    sampleEngine.thresholding sampleImage 128 = some (sampleImage.map quantize_BW) ∧
    sampleImage.map quantize_BW = sampleImage.map (quantize 1) :=
  quantize_BW_threshold sampleEngine (by decide) rfl sampleImage (by decide) (by decide)

theorem foldlM_range_none {β : Type} (f : β → Nat → Option β) (n i : Nat) (hi : i < n)
    (hfail : ∀ s, f s i = none) (s0 : β) : (List.range n).foldlM f s0 = none := by
  induction n with
  | zero => omega
  | succ m ih =>
    rw [List.range_succ, List.foldlM_append]
    rcases Nat.lt_succ_iff_lt_or_eq.mp hi with h | h
    · rw [ih h]; rfl
    · subst h
      cases (List.range i).foldlM f s0 with
      | none => rfl
      | some s => simp [hfail s]

set_option maxRecDepth 1000000 in
theorem randomPixel_wide_faults (thresh : Int) (fresh : Nat → Nat → Nat) (buf : List Nat) :
    randomPixel wideEngine true thresh fresh buf 0 896 = none := by
  have h1 : load wideEngine._rnd_frame (0 % _rnd_frame_width) = some 128 := by decide
  have h2 : load wideEngine._rnd_frame (128 % 256 + (896 &&& (_rnd_frame_width - 1))) = none := by
    decide
  simp only [randomPixel, h1, if_true, h2]

set_option maxRecDepth 1000000 in
/-- C23 at its failing input: on a 1024x1 image with a noise frame of 1024 bytes
128, the time-consistent path reads `_rnd_frame` at `128 + (896 & 1023) = 1024` for
the pixel (896, 0), one past the last byte of the frame; the pixel step and the
whole call fault there (result `none`), whatever the image holds.  The index stays
below 1024 for every column below 769. -/
theorem noise_lookup_out_of_frame :
    wideEngine._rnd_frame.length = _rnd_frame_width ∧
    wideEngine.Geometry ∧
    wideImage.length = wideEngine._img_width * wideEngine._img_height ∧
    noiseIndex wideEngine 0 896 = 1024 ∧
    load wideEngine._rnd_frame (noiseIndex wideEngine 0 896) = none ∧
    randomPixel wideEngine true 0 (fun _ _ => 0) wideImage 0 896 = none ∧
    (∀ (img : List Nat) (thresh : Int) (fresh : Nat → Nat → Nat),
      randomDither wideEngine img true thresh fresh = none) ∧
    (∀ (d : Dither) (row col : Nat), col < 769 → noiseIndex d row col < 1024) := by
  refine ⟨by decide, by decide, by decide, by decide, by decide,
    randomPixel_wide_faults _ _ _, ?_, noiseIndex_small⟩
  intro img thresh fresh
  unfold randomDither forEachPixel
  apply foldlM_range_none _ _ 0 (by decide)
  intro s
  exact foldlM_range_none _ _ 896 (by decide) (fun t => randomPixel_wide_faults _ _ t) s

theorem foldlM_range_rel {β : Type} (f g : β → Nat → Option β) (R : Nat → β → β → Prop)
    (n : Nat)
    (hstep : ∀ i, i < n → ∀ s t, R i s t →
      ∃ s1 t1, f s i = some s1 ∧ g t i = some t1 ∧ R (i + 1) s1 t1)
    (s0 t0 : β) (h0 : R 0 s0 t0) :
    ∃ s t, (List.range n).foldlM f s0 = some s ∧ (List.range n).foldlM g t0 = some t ∧
      R n s t := by
  induction n with
  | zero => exact ⟨s0, t0, by simp, by simp, h0⟩
  | succ m ih =>
    obtain ⟨s, t, hs, ht, hR⟩ := ih (fun i hi => hstep i (Nat.lt_succ_of_lt hi))
    obtain ⟨s1, t1, hs1, ht1, hR1⟩ := hstep m (Nat.lt_succ_self m) s t hR
    refine ⟨s1, t1, ?_, ?_, hR1⟩
    · rw [List.range_succ, List.foldlM_append, hs]; simp [hs1]
    · rw [List.range_succ, List.foldlM_append, ht]; simp [ht1]

theorem forEachPixel_rel (d e : Dither) (hw : e._img_width = d._img_width)
    (hh : e._img_height = d._img_height)
    (f g : List Nat → Nat → Nat → Option (List Nat))
    (R : Nat → List Nat → List Nat → Prop)
    (hstep : ∀ row col a b, row < d._img_height → col < d._img_width →
      R (row * d._img_width + col) a b →
      ∃ a1 b1, f a row col = some a1 ∧ g b row col = some b1 ∧
        R (row * d._img_width + col + 1) a1 b1)
    (a0 b0 : List Nat) (h0 : R 0 a0 b0) :
    ∃ a b, forEachPixel d f a0 = some a ∧ forEachPixel e g b0 = some b ∧
      R (d._img_height * d._img_width) a b := by
  unfold forEachPixel
  rw [hw, hh]
  apply foldlM_range_rel _ _ (fun r a b => R (r * d._img_width) a b)
  · intro row hrow a b hR
    obtain ⟨a1, b1, ha, hb, hR1⟩ := foldlM_range_rel (fun buf1 col => f buf1 row col)
      (fun buf1 col => g buf1 row col)
      (fun c a b => R (row * d._img_width + c) a b) d._img_width
      (fun col hcol s t hs => hstep row col s t hrow hcol hs) a b (by simpa using hR)
    exact ⟨a1, b1, ha, hb, by simpa [Nat.succ_mul] using hR1⟩
  · simpa using h0

theorem diffuse_agree (d : Dither) (hG : d.Geometry) (k : Preamble) (e : Int) (row col : Nat)
    (hel : eligible d k row col = true) (ws : List Int) :
    ∀ ro co (A B : List Nat), offsetsOk k ws ro co = true →
      A.length = d._img_height * d._img_width → B.length = d._img_height * d._img_width →
      (∀ i, row * d._img_width + col < i → A.getD i 0 = B.getD i 0) →
      ∃ A1 B1, diffuse d k e row col ws ro co A = some A1 ∧
        diffuse d k e row col ws ro co B = some B1 ∧
        (∀ i, row * d._img_width + col < i → A1.getD i 0 = B1.getD i 0) := by
  induction ws with
  | nil => intro ro co A B _ _ _ h; exact ⟨A, B, by simp [diffuse], by simp [diffuse], h⟩
  | cons a rest ih =>
    intro ro co A B hok hA hB hagree
    by_cases ha : a < 0
    · simp only [offsetsOk, ha, if_true] at hok
      simpa [diffuse, hel, ha] using ih (ro + 1) a A B hok hA hB hagree
    · simp only [offsetsOk, ha, if_false, Bool.and_eq_true, decide_eq_true_eq] at hok
      obtain ⟨⟨⟨⟨⟨h1, h2⟩, h3⟩, h4⟩, h5⟩, hrest⟩ := hok
      obtain ⟨hlo, hhi⟩ := neighbour_index d hG k row col hel ro co h1 h2 h3 h4 h5
      have hinA : d.index ((col : Int) + co) ((row : Int) + ro) < A.length := by omega
      have hinB : d.index ((col : Int) + co) ((row : Int) + ro) < B.length := by omega
      simp only [diffuse, hel, ha, if_true, if_false, load, store, hinA, hinB,
        colorGray256To888, hagree _ hlo]
      apply ih ro (co + 1) _ _ hrest (by rw [List.length_set]; exact hA)
        (by rw [List.length_set]; exact hB)
      intro i hi
      by_cases hx : d.index ((col : Int) + co) ((row : Int) + ro) = i
      · subst hx
        rw [getD_set_eq _ _ _ hinA, getD_set_eq _ _ _ hinB]
      · rw [getD_set_ne _ _ _ _ hx, getD_set_ne _ _ _ _ hx]
        exact hagree i hi

theorem index_congr (d e : Dither) (hw : e._img_width = d._img_width) (x y : Int) :
    e.index x y = d.index x y := by
  unfold index; rw [hw]

theorem eligible_congr (d e : Dither) (hw : e._img_width = d._img_width)
    (hh : e._img_height = d._img_height) (k : Preamble) (row col : Nat) :
    eligible e k row col = eligible d k row col := by
  unfold eligible; rw [hw, hh]

theorem diffuse_congr (d e : Dither) (hw : e._img_width = d._img_width)
    (hh : e._img_height = d._img_height) (k : Preamble) (q : Int) (row col : Nat)
    (ws : List Int) :
    ∀ ro co buf, diffuse e k q row col ws ro co buf = diffuse d k q row col ws ro co buf := by
  induction ws with
  | nil => intro ro co buf; simp [diffuse]
  | cons a rest ih =>
    intro ro co buf
    simp only [diffuse, eligible_congr d e hw hh, index_congr d e hw, ih]

theorem gpedPixel_rel (d1 d0 : Dither) (hG : d0.Geometry)
    (hw : d1._img_width = d0._img_width) (hh : d1._img_height = d0._img_height)
    (hi1 : d1._invert_output = true) (hi0 : d0._invert_output = false)
    (b k : Nat) (hk : k < 9) (A B : List Nat) (row col : Nat)
    (hrow : row < d0._img_height) (hcol : col < d0._img_width)
    (hA : A.length = d0._img_height * d0._img_width)
    (hB : B.length = d0._img_height * d0._img_width)
    (hagree : ∀ i, row * d0._img_width + col ≤ i → A.getD i 0 = B.getD i 0) :
    ∃ A1 B1, gpedPixel d1 b (preamble k) A row col = some A1 ∧
      gpedPixel d0 b (preamble k) B row col = some B1 ∧
      A1.length = A.length ∧ B1.length = B.length ∧
      (∀ i, i < row * d0._img_width + col → A1.getD i 0 = A.getD i 0) ∧
      (∀ i, i < row * d0._img_width + col → B1.getD i 0 = B.getD i 0) ∧
      A1.getD (row * d0._img_width + col) 0 = 255 - B1.getD (row * d0._img_width + col) 0 ∧
      (∀ i, row * d0._img_width + col < i → A1.getD i 0 = B1.getD i 0) := by
  have hG1 : d1.Geometry := by
    unfold Geometry; rw [hw, hh]; exact hG
  obtain ⟨A1, a1, a2, a3, a4, _, a6⟩ := gpedPixel_spec d1 hG1 b k hk A row col
    (by rw [hh]; exact hrow) (by rw [hw]; exact hcol) (by rw [hw, hh]; exact hA)
  obtain ⟨B1, b1, b2, b3, b4, _, b6⟩ := gpedPixel_spec d0 hG b k hk B row col hrow hcol hB
  rw [hw] at a3 a4 a6
  rw [hi1] at a4 a6
  rw [hi0] at b4 b6
  simp only [if_true, Bool.false_eq_true, if_false] at a4 a6 b4 b6
  have hpiv := hagree _ (le_refl _)
  have hp := pivot_lt d0 row col hrow hcol
  refine ⟨A1, B1, a1, b1, a2, b2, a3, b3, ?_, ?_⟩
  · rw [a4, b4, hpiv]
  · by_cases hel : eligible d0 (preamble k) row col = true
    · -- both runs continue with the same diffusion loop on buffers that agree above the pivot
      have hinA : row * d0._img_width + col < A.length := by omega
      have hinB : row * d0._img_width + col < B.length := by omega
      have hq := quantize_lt b (A.getD (row * d0._img_width + col) 0)
      have hq2 := quantize_lt b (B.getD (row * d0._img_width + col) 0)
      have e1 := a1
      have e0 := b1
      have h255 : (255 - quantize b (A.getD (row * d0._img_width + col) 0)) % 256 =
          255 - quantize b (A.getD (row * d0._img_width + col) 0) := by omega
      simp only [gpedPixel, index_congr d0 d1 hw, index_pivot d0 hG row col hrow hcol, load,
        store, hinA, if_true, colorGray256To888, hi1, h255,
        color888ToGray256_same _ (show 255 - quantize b (A.getD (row * d0._img_width + col) 0)
          < 256 by omega), diffuse_congr d0 d1 hw hh] at e1
      simp only [gpedPixel, index_pivot d0 hG row col hrow hcol, load,
        store, hinB, if_true, colorGray256To888, hi0, Bool.false_eq_true, if_false,
        color888ToGray256_same _ hq2] at e0
      rw [hpiv] at e1
      obtain ⟨A2, B2, f1, f0, hag⟩ := diffuse_agree d0 hG (preamble k)
        ((B.getD (row * d0._img_width + col) 0 : Int) -
          (quantize b (B.getD (row * d0._img_width + col) 0) : Int)) row col hel
        (preamble k).weights 0 1
        (A.set (row * d0._img_width + col)
          (255 - quantize b (B.getD (row * d0._img_width + col) 0)))
        (B.set (row * d0._img_width + col) (quantize b (B.getD (row * d0._img_width + col) 0)))
        (offsetsOk_filters k hk) (by rw [List.length_set]; exact hA)
        (by rw [List.length_set]; exact hB)
        (by
          intro i hi
          rw [getD_set_ne _ _ _ _ (by omega), getD_set_ne _ _ _ _ (by omega)]
          exact hagree i (by omega))
      rw [f1] at e1
      rw [f0] at e0
      simp only [Option.some.injEq] at e1 e0
      subst e1 e0
      exact hag
    · have hel0 : eligible d0 (preamble k) row col = false := by simpa using hel
      have hel1 : eligible d1 (preamble k) row col = false := by
        rw [eligible_congr d0 d1 hw hh]; exact hel0
      intro i hi
      rw [a6 hel1, b6 hel0, getD_set_ne _ _ _ _ (by omega), getD_set_ne _ _ _ _ (by omega)]
      exact hagree i (by omega)

theorem GPEDDither_invert_aux (d1 d0 : Dither) (hG : d0.Geometry)
    (hw : d1._img_width = d0._img_width) (hh : d1._img_height = d0._img_height)
    (hi1 : d1._invert_output = true) (hi0 : d0._invert_output = false)
    (b k : Nat) (hb1 : 1 ≤ b) (hb7 : b ≤ 7) (hk : k < 9) (buf : List Nat)
    (hlen : buf.length = d0._img_width * d0._img_height) :
    ∃ outOff outOn, d0._GPEDDither buf b k = some (0, outOff) ∧ d1._GPEDDither buf b k = some (0, outOn) ∧
      outOn = outOff.map (fun v => 255 - v) := by
  rw [Nat.mul_comm] at hlen
  obtain ⟨outOff, outOn, h0, h1, hl0, hl1, hlow, _⟩ := forEachPixel_rel d0 d1 hw hh
    (gpedPixel d0 b (preamble k)) (gpedPixel d1 b (preamble k))
    (fun n B A => B.length = buf.length ∧ A.length = buf.length ∧
      (∀ i, i < n → A.getD i 0 = 255 - B.getD i 0) ∧
      (∀ i, n ≤ i → A.getD i 0 = B.getD i 0))
    (by
      intro row col B A hrow hcol ⟨hB, hA, hlo, hhi⟩
      obtain ⟨A1, B1, e1, e0, l1, l0, pA, pB, hp, hab⟩ := gpedPixel_rel d1 d0 hG hw hh hi1 hi0
        b k hk A B row col hrow hcol (by omega) (by omega) hhi
      refine ⟨B1, A1, e0, e1, by omega, by omega, ?_, ?_⟩
      · intro i hi
        rcases Nat.lt_succ_iff_lt_or_eq.mp hi with h | h
        · rw [pA i h, pB i h]; exact hlo i h
        · subst h; exact hp
      · intro i hi
        exact hab i (by omega))
    buf buf ⟨rfl, rfl, fun i hi => absurd hi (Nat.not_lt_zero i), fun _ _ => rfl⟩
  have hb : ¬ (b < 1 ∨ b > 7) := by omega
  refine ⟨outOff, outOn, by simp only [_GPEDDither, hb, if_false, h0],
    by simp only [_GPEDDither, hb, if_false, h1], ?_⟩
  apply List.ext_getElem
  · simp [hl0, hl1]
  · intro i hi1 hi2
    have := hlow i (by omega)
    rw [List.getD_eq_getElem _ _ hi1, List.getD_eq_getElem _ _ (by omega)] at this
    simp only [List.getElem_map]
    exact this

theorem fastNeighbour_rel (d1 d0 : Dither) (hw : d1._img_width = d0._img_width)
    (guard : Bool) (x y err : Int) (A B : List Nat) (n : Nat) (hlen : A.length = B.length)
    (h : guard = true → n < d0.index x y ∧ d0.index x y < B.length)
    (hag : ∀ i, n < i → A.getD i 0 = B.getD i 0) :
    ∃ A1 B1, fastNeighbour d1 guard x y err A = some A1 ∧
      fastNeighbour d0 guard x y err B = some B1 ∧
      A1.length = A.length ∧ B1.length = B.length ∧
      (∀ i, i ≤ n → A1.getD i 0 = A.getD i 0) ∧
      (∀ i, i ≤ n → B1.getD i 0 = B.getD i 0) ∧
      (∀ i, n < i → A1.getD i 0 = B1.getD i 0) := by
  cases guard with
  | false =>
    exact ⟨A, B, by simp [fastNeighbour], by simp [fastNeighbour], rfl, rfl,
      fun _ _ => rfl, fun _ _ => rfl, hag⟩
  | true =>
    obtain ⟨h1, h2⟩ := h rfl
    have h2A : d0.index x y < A.length := by omega
    refine ⟨A.set (d0.index x y) (_clamp ((B.getD (d0.index x y) 0 : Int) + err) 0 255),
      B.set (d0.index x y) (_clamp ((B.getD (d0.index x y) 0 : Int) + err) 0 255), ?_, ?_,
      by rw [List.length_set], by rw [List.length_set], ?_, ?_, ?_⟩
    · simp only [fastNeighbour, if_true, load, store, index_congr d0 d1 hw, h2A, hag _ h1]
    · simp only [fastNeighbour, if_true, load, store, h2]
    · intro i hi; exact getD_set_ne _ _ _ _ (by omega)
    · intro i hi; exact getD_set_ne _ _ _ _ (by omega)
    · intro i hi
      by_cases hx : d0.index x y = i
      · subst hx; rw [getD_set_eq _ _ _ h2A, getD_set_eq _ _ _ h2]
      · rw [getD_set_ne _ _ _ _ hx, getD_set_ne _ _ _ _ hx]; exact hag i hi

theorem fastPixel_chain (d : Dither) (hG : d.Geometry) (flag : Bool) (buf : List Nat)
    (row col : Nat) (hrow : row < d._img_height) (hcol : col < d._img_width)
    (hlen : buf.length = d._img_height * d._img_width) :
    fastPixel d flag buf row col =
      (fastNeighbour d (decide ((col : Int) ≠ (d._img_width : Int) - 1))
        ((col : Int) + 1) (row : Int)
        (((buf.getD (row * d._img_width + col) 0 : Int) -
          (quantize_BW (buf.getD (row * d._img_width + col) 0) : Int)) >>> (1 : Nat))
        (buf.set (row * d._img_width + col)
          (if d._invert_output then
            (0xFF - quantize_BW (buf.getD (row * d._img_width + col) 0)) % 256
           else quantize_BW (buf.getD (row * d._img_width + col) 0)))).bind (fun buf2 =>
      (fastNeighbour d (decide ((row : Int) ≠ (d._img_height : Int) - 1))
        (col : Int) ((row : Int) + 1)
        (if flag then (((buf.getD (row * d._img_width + col) 0 : Int) -
            (quantize_BW (buf.getD (row * d._img_width + col) 0) : Int)) >>> (1 : Nat)) >>> (1 : Nat)
         else ((buf.getD (row * d._img_width + col) 0 : Int) -
            (quantize_BW (buf.getD (row * d._img_width + col) 0) : Int)) >>> (1 : Nat))
        buf2).bind (fun buf3 =>
      fastNeighbour d (flag && decide ((col : Int) ≠ (d._img_width : Int) - 1) &&
          decide ((row : Int) ≠ (d._img_height : Int) - 1))
        ((col : Int) + 1) ((row : Int) + 1)
        ((((buf.getD (row * d._img_width + col) 0 : Int) -
          (quantize_BW (buf.getD (row * d._img_width + col) 0) : Int)) >>> (1 : Nat)) >>> (1 : Nat))
        buf3)) := by
  have hp := pivot_lt d row col hrow hcol
  have hin : row * d._img_width + col < buf.length := by omega
  simp only [fastPixel, index_pivot d hG row col hrow hcol, load, store, hin, if_true]
  generalize fastNeighbour d (decide ((col : Int) ≠ (d._img_width : Int) - 1)) _ _ _ _ = x
  cases x with
  | none => rfl
  | some b2 =>
    simp only [Option.some_bind]
    generalize fastNeighbour d (decide ((row : Int) ≠ (d._img_height : Int) - 1)) _ _ _ _ = y
    cases y <;> rfl

theorem fast_index_right (d : Dither) (hG : d.Geometry) (row col : Nat)
    (hrow : row < d._img_height) (hcol : col < d._img_width)
    (hne : (col : Int) ≠ (d._img_width : Int) - 1) :
    row * d._img_width + col < d.index ((col : Int) + 1) (row : Int) ∧
    d.index ((col : Int) + 1) (row : Int) < d._img_height * d._img_width := by
  have hA := area_lt d hG
  have hc : col + 1 < d._img_width := by omega
  have := pivot_lt d row (col + 1) hrow hc
  rw [index_eq d _ _ (row * d._img_width + col + 1) (by push_cast; ring) (by omega)]
  omega

theorem fast_index_below (d : Dither) (hG : d.Geometry) (row col : Nat)
    (hcol : col < d._img_width)
    (hne : (row : Int) ≠ (d._img_height : Int) - 1) (hrow : row < d._img_height) :
    row * d._img_width + col < d.index (col : Int) ((row : Int) + 1) ∧
    d.index (col : Int) ((row : Int) + 1) < d._img_height * d._img_width := by
  have hA := area_lt d hG
  have hr : row + 1 < d._img_height := by omega
  have := pivot_lt d (row + 1) col hr hcol
  have hmul : (row + 1) * d._img_width = row * d._img_width + d._img_width := Nat.succ_mul _ _
  rw [index_eq d _ _ ((row + 1) * d._img_width + col) (by push_cast; ring) (by omega)]
  omega

theorem fast_index_diag (d : Dither) (hG : d.Geometry) (row col : Nat)
    (hrow : row < d._img_height) (hcol : col < d._img_width)
    (hne1 : (col : Int) ≠ (d._img_width : Int) - 1)
    (hne2 : (row : Int) ≠ (d._img_height : Int) - 1) :
    row * d._img_width + col < d.index ((col : Int) + 1) ((row : Int) + 1) ∧
    d.index ((col : Int) + 1) ((row : Int) + 1) < d._img_height * d._img_width := by
  have hA := area_lt d hG
  have hr : row + 1 < d._img_height := by omega
  have hc : col + 1 < d._img_width := by omega
  have := pivot_lt d (row + 1) (col + 1) hr hc
  have hmul : (row + 1) * d._img_width = row * d._img_width + d._img_width := Nat.succ_mul _ _
  rw [index_eq d _ _ ((row + 1) * d._img_width + col + 1) (by push_cast; ring) (by omega)]
  omega

theorem fastPixel_rel (d1 d0 : Dither) (hG : d0.Geometry)
    (hw : d1._img_width = d0._img_width) (hh : d1._img_height = d0._img_height)
    (hi1 : d1._invert_output = true) (hi0 : d0._invert_output = false)
    (flag : Bool) (A B : List Nat) (row col : Nat)
    (hrow : row < d0._img_height) (hcol : col < d0._img_width)
    (hA : A.length = d0._img_height * d0._img_width)
    (hB : B.length = d0._img_height * d0._img_width)
    (hagree : ∀ i, row * d0._img_width + col ≤ i → A.getD i 0 = B.getD i 0) :
    ∃ A1 B1, fastPixel d1 flag A row col = some A1 ∧
      fastPixel d0 flag B row col = some B1 ∧
      A1.length = A.length ∧ B1.length = B.length ∧
      (∀ i, i < row * d0._img_width + col → A1.getD i 0 = A.getD i 0) ∧
      (∀ i, i < row * d0._img_width + col → B1.getD i 0 = B.getD i 0) ∧
      A1.getD (row * d0._img_width + col) 0 = 255 - B1.getD (row * d0._img_width + col) 0 ∧
      (∀ i, row * d0._img_width + col < i → A1.getD i 0 = B1.getD i 0) := by
  have hG1 : d1.Geometry := by
    unfold Geometry; rw [hw, hh]; exact hG
  have hp := pivot_lt d0 row col hrow hcol
  have hinA : row * d0._img_width + col < A.length := by omega
  have hinB : row * d0._img_width + col < B.length := by omega
  have hpiv := hagree _ (le_refl _)
  have hq : quantize_BW (B.getD (row * d0._img_width + col) 0) ≤ 255 := by
    rcases quantize_BW_cases (B.getD (row * d0._img_width + col) 0) with h | h <;> omega
  have c1 := fastPixel_chain d1 hG1 flag A row col (by rw [hh]; exact hrow)
    (by rw [hw]; exact hcol) (by rw [hw, hh]; exact hA)
  have c0 := fastPixel_chain d0 hG flag B row col hrow hcol hB
  rw [hw, hh, hi1, hpiv] at c1
  rw [hi0] at c0
  simp only [if_true, Bool.false_eq_true, if_false] at c1 c0
  have h255 : (255 - quantize_BW (B.getD (row * d0._img_width + col) 0)) % 256 =
      255 - quantize_BW (B.getD (row * d0._img_width + col) 0) := by omega
  rw [h255] at c1
  -- first neighbour
  obtain ⟨A2, B2, ea2, eb2, la2, lb2, pa2, pb2, ag2⟩ := fastNeighbour_rel d1 d0 hw
    (decide ((col : Int) ≠ (d0._img_width : Int) - 1)) ((col : Int) + 1) (row : Int)
    (((B.getD (row * d0._img_width + col) 0 : Int) -
      (quantize_BW (B.getD (row * d0._img_width + col) 0) : Int)) >>> (1 : Nat))
    (A.set (row * d0._img_width + col)
      (255 - quantize_BW (B.getD (row * d0._img_width + col) 0)))
    (B.set (row * d0._img_width + col) (quantize_BW (B.getD (row * d0._img_width + col) 0)))
    (row * d0._img_width + col)
    (by rw [List.length_set, List.length_set]; omega)
    (by
      intro hg
      have := fast_index_right d0 hG row col hrow hcol (of_decide_eq_true hg)
      rw [List.length_set]; omega)
    (by
      intro i hi
      rw [getD_set_ne _ _ _ _ (by omega), getD_set_ne _ _ _ _ (by omega)]
      exact hagree i (by omega))
  -- second neighbour
  obtain ⟨A3, B3, ea3, eb3, la3, lb3, pa3, pb3, ag3⟩ := fastNeighbour_rel d1 d0 hw
    (decide ((row : Int) ≠ (d0._img_height : Int) - 1)) (col : Int) ((row : Int) + 1)
    (if flag then (((B.getD (row * d0._img_width + col) 0 : Int) -
        (quantize_BW (B.getD (row * d0._img_width + col) 0) : Int)) >>> (1 : Nat)) >>> (1 : Nat)
     else ((B.getD (row * d0._img_width + col) 0 : Int) -
        (quantize_BW (B.getD (row * d0._img_width + col) 0) : Int)) >>> (1 : Nat))
    A2 B2 (row * d0._img_width + col)
    (by rw [la2, lb2, List.length_set, List.length_set]; omega)
    (by
      intro hg
      have := fast_index_below d0 hG row col hcol (of_decide_eq_true hg) hrow
      rw [lb2, List.length_set]; omega)
    ag2
  -- third neighbour
  obtain ⟨A4, B4, ea4, eb4, la4, lb4, pa4, pb4, ag4⟩ := fastNeighbour_rel d1 d0 hw
    (flag && decide ((col : Int) ≠ (d0._img_width : Int) - 1) &&
      decide ((row : Int) ≠ (d0._img_height : Int) - 1))
    ((col : Int) + 1) ((row : Int) + 1)
    ((((B.getD (row * d0._img_width + col) 0 : Int) -
      (quantize_BW (B.getD (row * d0._img_width + col) 0) : Int)) >>> (1 : Nat)) >>> (1 : Nat))
    A3 B3 (row * d0._img_width + col)
    (by rw [la3, lb3, la2, lb2, List.length_set, List.length_set]; omega)
    (by
      intro hg
      simp only [Bool.and_eq_true, decide_eq_true_eq] at hg
      have := fast_index_diag d0 hG row col hrow hcol hg.1.2 hg.2
      rw [lb3, lb2, List.length_set]; omega)
    ag3
  rw [ea2, Option.some_bind, ea3, Option.some_bind, ea4] at c1
  rw [eb2, Option.some_bind, eb3, Option.some_bind, eb4] at c0
  refine ⟨A4, B4, c1, c0, by rw [la4, la3, la2, List.length_set],
    by rw [lb4, lb3, lb2, List.length_set], ?_, ?_, ?_, ag4⟩
  · intro i hi
    rw [pa4 i (by omega), pa3 i (by omega), pa2 i (by omega)]
    exact getD_set_ne _ _ _ _ (by omega)
  · intro i hi
    rw [pb4 i (by omega), pb3 i (by omega), pb2 i (by omega)]
    exact getD_set_ne _ _ _ _ (by omega)
  · rw [pa4 _ (le_refl _), pa3 _ (le_refl _), pa2 _ (le_refl _),
      pb4 _ (le_refl _), pb3 _ (le_refl _), pb2 _ (le_refl _),
      getD_set_eq _ _ _ hinA, getD_set_eq _ _ _ hinB]

theorem fastEDDither_invert_aux (d1 d0 : Dither) (hG : d0.Geometry)
    (hw : d1._img_width = d0._img_width) (hh : d1._img_height = d0._img_height)
    (hi1 : d1._invert_output = true) (hi0 : d0._invert_output = false)
    (flag : Bool) (buf : List Nat)
    (hlen : buf.length = d0._img_width * d0._img_height) :
    ∃ outOff outOn, d0.fastEDDither flag buf = some outOff ∧
      d1.fastEDDither flag buf = some outOn ∧
      outOn = outOff.map (fun v => 255 - v) := by
  rw [Nat.mul_comm] at hlen
  obtain ⟨outOff, outOn, h0, h1, hl0, hl1, hlow, _⟩ := forEachPixel_rel d0 d1 hw hh
    (fastPixel d0 flag) (fastPixel d1 flag)
    (fun n B A => B.length = buf.length ∧ A.length = buf.length ∧
      (∀ i, i < n → A.getD i 0 = 255 - B.getD i 0) ∧
      (∀ i, n ≤ i → A.getD i 0 = B.getD i 0))
    (by
      intro row col B A hrow hcol ⟨hB, hA, hlo, hhi⟩
      obtain ⟨A1, B1, e1, e0, l1, l0, pA, pB, hp, hab⟩ := fastPixel_rel d1 d0 hG hw hh hi1 hi0
        flag A B row col hrow hcol (by omega) (by omega) hhi
      refine ⟨B1, A1, e0, e1, by omega, by omega, ?_, ?_⟩
      · intro i hi
        rcases Nat.lt_succ_iff_lt_or_eq.mp hi with h | h
        · rw [pA i h, pB i h]; exact hlo i h
        · subst h; exact hp
      · intro i hi
        exact hab i (by omega))
    buf buf ⟨rfl, rfl, fun i hi => absurd hi (Nat.not_lt_zero i), fun _ _ => rfl⟩
  refine ⟨outOff, outOn, h0, h1, ?_⟩
  apply List.ext_getElem
  · simp [hl0, hl1]
  · intro i hi1 hi2
    have := hlow i (by omega)
    rw [List.getD_eq_getElem _ _ hi1, List.getD_eq_getElem _ _ (by omega)] at this
    simp only [List.getElem_map]
    exact this

theorem ext_pixels (d : Dither) (A B : List Nat) (f : Nat → Nat)
    (hA : A.length = d._img_height * d._img_width)
    (hB : B.length = d._img_height * d._img_width)
    (h : ∀ row col, row < d._img_height → col < d._img_width →
      A.getD (row * d._img_width + col) 0 = f (B.getD (row * d._img_width + col) 0)) :
    A = B.map f := by
  apply List.ext_getElem
  · simp [hA, hB]
  · intro i h1 h2
    have hi : i < d._img_height * d._img_width := by omega
    have hw : 0 < d._img_width := by
      rcases Nat.eq_zero_or_pos d._img_width with h0 | h0
      · rw [h0] at hi; omega
      · exact h0
    have hrow : i / d._img_width < d._img_height := by
      apply Nat.div_lt_of_lt_mul; rw [Nat.mul_comm]; exact hi
    have := h (i / d._img_width) (i % d._img_width) hrow (Nat.mod_lt _ hw)
    rw [Nat.mul_comm, Nat.div_add_mod] at this
    rw [List.getD_eq_getElem _ _ h1, List.getD_eq_getElem _ _ (by omega)] at this
    simp only [List.getElem_map]
    exact this

theorem patternDither_invert_aux (d1 d0 : Dither) (hG : d0.Geometry)
    (hw : d1._img_width = d0._img_width) (hh : d1._img_height = d0._img_height)
    (hp : d1._pattern = d0._pattern)
    (hi1 : d1._invert_output = true) (hi0 : d0._invert_output = false)
    (size : Nat) (buf : List Nat) (hlen : buf.length = d0._img_width * d0._img_height)
    (thresh : Int) (hbuilt : d0._pattern 0 0 ≠ 0) :
    ∃ outOff outOn, d0.patternDither size buf thresh = some (0, outOff) ∧
      d1.patternDither size buf thresh = some (0, outOn) ∧
      outOn = outOff.map (fun v => 255 - v) := by
  have hG1 : d1.Geometry := by
    unfold Geometry; rw [hw, hh]; exact hG
  obtain ⟨o0, e0, l0, p0⟩ := patternDither_built d0 hG size buf hlen thresh hbuilt
  obtain ⟨o1, e1, l1, p1⟩ := patternDither_built d1 hG1 size buf (by rw [hw, hh]; exact hlen)
    thresh (by rw [hp]; exact hbuilt)
  refine ⟨o0, o1, e0, e1, ?_⟩
  apply ext_pixels d0 o1 o0 (fun v => 255 - v) (by rw [l1, hlen, Nat.mul_comm])
    (by rw [l0, hlen, Nat.mul_comm])
  intro row col hrow hcol
  have h1 := p1 row col (by rw [hh]; exact hrow) (by rw [hw]; exact hcol)
  have h0 := p0 row col hrow hcol
  have hc : patternCell d1 size row col = patternCell d0 size row col := by
    unfold patternCell; rw [hp]
  rw [hw, hi1, hc] at h1
  rw [hi0] at h0
  rw [h1, h0]
  simp only [if_true, Bool.false_eq_true, if_false]

theorem thresholding_invert_aux (d1 d0 : Dither) (hG : d0.Geometry)
    (hw : d1._img_width = d0._img_width) (hh : d1._img_height = d0._img_height)
    (hi1 : d1._invert_output = true) (hi0 : d0._invert_output = false)
    (buf : List Nat) (hlen : buf.length = d0._img_width * d0._img_height) (t : Nat) :
    ∃ outOff outOn, d0.thresholding buf t = some outOff ∧
      d1.thresholding buf t = some outOn ∧
      outOn = outOff.map (fun v => 255 - v) := by
  have hG1 : d1.Geometry := by
    unfold Geometry; rw [hw, hh]; exact hG
  refine ⟨_, _, thresholding_map d0 hG buf hlen t,
    thresholding_map d1 hG1 buf (by rw [hw, hh]; exact hlen) t, ?_⟩
  rw [hi1, hi0, List.map_map]
  apply List.map_congr_left
  intro v _
  simp only [if_true, Bool.false_eq_true, if_false, Function.comp]

/-- C22: the invert-output flag only complements the result.  For every engine
geometry and buffer of length width*height, the buffer produced with
invert-output on is, byte for byte, 255 minus the buffer produced from the same
input with invert-output off: for `_GPEDDither` (each of the nine kernels, every
bit depth in [1,7]), for `fastEDDither` (either setting of the artifact switch),
for `patternDither` (built pattern, any `thresh`) and for `thresholding` (any
threshold). -/
theorem invert_output_complements (d : Dither) (hG : d.Geometry) (buf : List Nat)
    (hlen : buf.length = d._img_width * d._img_height) :
    (∀ b k, 1 ≤ b → b ≤ 7 → k < 9 →
      ∃ outOff outOn,
        ({ d with _invert_output := false } : Dither)._GPEDDither buf b k = some (0, outOff) ∧
        ({ d with _invert_output := true } : Dither)._GPEDDither buf b k = some (0, outOn) ∧
        outOn = outOff.map (fun v => 255 - v)) ∧
    (∀ remove_artifacts,
      ∃ outOff outOn,
        ({ d with _invert_output := false } : Dither).fastEDDither remove_artifacts buf =
          some outOff ∧
        ({ d with _invert_output := true } : Dither).fastEDDither remove_artifacts buf =
          some outOn ∧
        outOn = outOff.map (fun v => 255 - v)) ∧
    (∀ thresh : Int, d._pattern 0 0 ≠ 0 →
      ∃ outOff outOn,
        ({ d with _invert_output := false } : Dither).patternDither _size buf thresh =
          some (0, outOff) ∧
        ({ d with _invert_output := true } : Dither).patternDither _size buf thresh =
          some (0, outOn) ∧
        outOn = outOff.map (fun v => 255 - v)) ∧
    (∀ t : Nat,
      ∃ outOff outOn,
        ({ d with _invert_output := false } : Dither).thresholding buf t = some outOff ∧
        ({ d with _invert_output := true } : Dither).thresholding buf t = some outOn ∧
        outOn = outOff.map (fun v => 255 - v)) := by
  have hG0 : ({ d with _invert_output := false } : Dither).Geometry := hG
  refine ⟨?_, ?_, ?_, ?_⟩
  · intro b k hb1 hb7 hk
    exact GPEDDither_invert_aux ({ d with _invert_output := true } : Dither)
      ({ d with _invert_output := false } : Dither) hG0 rfl rfl rfl rfl b k hb1 hb7 hk buf hlen
  · intro flag
    exact fastEDDither_invert_aux ({ d with _invert_output := true } : Dither)
      ({ d with _invert_output := false } : Dither) hG0 rfl rfl rfl rfl flag buf hlen
  · intro thresh hbuilt
    exact patternDither_invert_aux ({ d with _invert_output := true } : Dither)
      ({ d with _invert_output := false } : Dither) hG0 rfl rfl rfl rfl rfl _size buf hlen thresh hbuilt
  · intro t
    exact thresholding_invert_aux ({ d with _invert_output := true } : Dither)
      ({ d with _invert_output := false } : Dither) hG0 rfl rfl rfl rfl buf hlen t

theorem invert_output_complements_witness :
    (∀ b k, 1 ≤ b → b ≤ 7 → k < 9 →
      ∃ outOff outOn,
        ({ sampleEngine with _invert_output := false } : Dither)._GPEDDither sampleImage b k =
          some (0, outOff) ∧
        ({ sampleEngine with _invert_output := true } : Dither)._GPEDDither sampleImage b k =
          some (0, outOn) ∧
        outOn = outOff.map (fun v => 255 - v)) ∧
    (∀ remove_artifacts,
      ∃ outOff outOn,
        ({ sampleEngine with _invert_output := false } : Dither).fastEDDither remove_artifacts
          sampleImage = some outOff ∧
        ({ sampleEngine with _invert_output := true } : Dither).fastEDDither remove_artifacts
          sampleImage = some outOn ∧
        outOn = outOff.map (fun v => 255 - v)) ∧
    (∀ thresh : Int, sampleEngine._pattern 0 0 ≠ 0 →
      ∃ outOff outOn,
        ({ sampleEngine with _invert_output := false } : Dither).patternDither _size
          sampleImage thresh = some (0, outOff) ∧
        ({ sampleEngine with _invert_output := true } : Dither).patternDither _size
          sampleImage thresh = some (0, outOn) ∧
        outOn = outOff.map (fun v => 255 - v)) ∧
    (∀ t : Nat,
      ∃ outOff outOn,
        ({ sampleEngine with _invert_output := false } : Dither).thresholding sampleImage t =
          some outOff ∧
        ({ sampleEngine with _invert_output := true } : Dither).thresholding sampleImage t =
          some outOn ∧
        outOn = outOff.map (fun v => 255 - v)) :=
  invert_output_complements sampleEngine (by decide) sampleImage (by decide)

theorem set_getD_self (buf : List Nat) (i : Nat) (h : i < buf.length) :
    buf.set i (buf.getD i 0) = buf := by
  apply List.ext_getElem
  · simp
  · intro j h1 h2
    by_cases hij : i = j
    · subst hij
      simp [List.getElem?_eq_getElem h]
    · simp [List.getElem_set_ne hij]

theorem clamp_byte (r : Nat) (h : r < 256) : _clamp (r : Int) 0 255 = r := by
  have := clamp_id (r : Int) (by omega) (by omega)
  exact_mod_cast this

theorem diffuse_zero (d : Dither) (hG : d.Geometry) (k : Preamble) (row col : Nat)
    (hel : eligible d k row col = true) (ws : List Int) :
    ∀ ro co buf, offsetsOk k ws ro co = true →
      buf.length = d._img_height * d._img_width → Bytes buf →
      diffuse d k 0 row col ws ro co buf = some buf := by
  induction ws with
  | nil => intro ro co buf _ _ _; simp [diffuse]
  | cons a rest ih =>
    intro ro co buf hok hlen hb
    by_cases ha : a < 0
    · simp only [offsetsOk, ha, if_true] at hok
      simpa [diffuse, hel, ha] using ih (ro + 1) a buf hok hlen hb
    · simp only [offsetsOk, ha, if_false, Bool.and_eq_true, decide_eq_true_eq] at hok
      obtain ⟨⟨⟨⟨⟨h1, h2⟩, h3⟩, h4⟩, h5⟩, hrest⟩ := hok
      obtain ⟨hlo, hhi⟩ := neighbour_index d hG k row col hel ro co h1 h2 h3 h4 h5
      have hin : d.index ((col : Int) + co) ((row : Int) + ro) < buf.length := by omega
      have hr := bytes_getD buf hb (d.index ((col : Int) + co) ((row : Int) + ro))
      have htemp : (if (!k.bitshift_avail) = true then
            ((buf.getD (d.index ((col : Int) + co) ((row : Int) + ro)) 0 : Nat) : Int) +
              Int.tdiv (0 * a) (k.divisor : Int)
          else ((buf.getD (d.index ((col : Int) + co) ((row : Int) + ro)) 0 : Nat) : Int) +
              ((0 * a) >>> k.bitshift_div)) =
          ((buf.getD (d.index ((col : Int) + co) ((row : Int) + ro)) 0 : Nat) : Int) := by
        split <;> simp
      simp only [diffuse, hel, ha, if_true, if_false, load, store, hin, colorGray256To888, htemp,
        clamp_byte _ hr, color888ToGray256_same _ hr, set_getD_self _ _ hin]
      exact ih ro (co + 1) buf hrest hlen hb

theorem gpedPixel_fixed (d : Dither) (hG : d.Geometry) (hinv : d._invert_output = false)
    (b k : Nat) (hk : k < 9) (buf : List Nat) (row col : Nat)
    (hrow : row < d._img_height) (hcol : col < d._img_width)
    (hlen : buf.length = d._img_height * d._img_width) (hb : Bytes buf)
    (hfix : quantize b (buf.getD (row * d._img_width + col) 0) =
      buf.getD (row * d._img_width + col) 0) :
    gpedPixel d b (preamble k) buf row col = some buf := by
  have hp := pivot_lt d row col hrow hcol
  have hin : row * d._img_width + col < buf.length := by omega
  have hr := bytes_getD buf hb (row * d._img_width + col)
  simp only [gpedPixel, index_pivot d hG row col hrow hcol, load, store, hin, if_true,
    colorGray256To888, hinv, Bool.false_eq_true, if_false, hfix,
    color888ToGray256_same _ hr, set_getD_self _ _ hin, sub_self]
  by_cases hel : eligible d (preamble k) row col = true
  · exact diffuse_zero d hG (preamble k) row col hel _ 0 1 buf (offsetsOk_filters k hk) hlen hb
  · exact diffuse_not_eligible d _ _ row col (by simpa using hel) _ _ _ _

theorem forEachPixel_fixed (d : Dither) (body : List Nat → Nat → Nat → Option (List Nat))
    (buf : List Nat)
    (h : ∀ row col, row < d._img_height → col < d._img_width → body buf row col = some buf) :
    forEachPixel d body buf = some buf := by
  obtain ⟨out, ho, hP⟩ := forEachPixel_inv d body (fun _ cur => cur = buf)
    (fun row col cur hrow hcol hc => ⟨buf, by rw [hc]; exact h row col hrow hcol, rfl⟩) buf rfl
  rw [ho, hP]

theorem GPEDDither_idempotent_aux (d : Dither) (hG : d.Geometry)
    (hinv : d._invert_output = false) (b k : Nat) (hb1 : 1 ≤ b) (hb7 : b ≤ 7) (hk : k < 9)
    (buf : List Nat) (hlen : buf.length = d._img_width * d._img_height) (hbytes : Bytes buf) :
    ∃ out, d._GPEDDither buf b k = some (0, out) ∧ d._GPEDDither out b k = some (0, out) := by
  obtain ⟨out, ho, hl, hlev⟩ := GPEDDither_levels_aux d hG hinv b k hb1 hb7 hk buf hlen hbytes
  refine ⟨out, ho, ?_⟩
  have hbo : Bytes out := by
    intro x hx
    have := (hlev x hx).2
    rw [← this]; exact quantize_lt b x
  have hlo : out.length = d._img_height * d._img_width := by rw [hl, hlen, Nat.mul_comm]
  have hfix := forEachPixel_fixed d (gpedPixel d b (preamble k)) out
    (by
      intro row col hrow hcol
      have hp := pivot_lt d row col hrow hcol
      apply gpedPixel_fixed d hG hinv b k hk out row col hrow hcol hlo hbo
      have hmem : out.getD (row * d._img_width + col) 0 ∈ out := by
        rw [List.getD_eq_getElem _ _ (by omega)]
        exact List.getElem_mem _
      exact (hlev _ hmem).2)
  have hb : ¬ (b < 1 ∨ b > 7) := by omega
  simp only [_GPEDDither, hb, if_false, hfix]

theorem fastNeighbour_zero (d : Dither) (guard : Bool) (x y : Int) (buf : List Nat)
    (hb : Bytes buf) (h : guard = true → d.index x y < buf.length) :
    fastNeighbour d guard x y 0 buf = some buf := by
  cases guard with
  | false => simp [fastNeighbour]
  | true =>
    have hin := h rfl
    have hr := bytes_getD buf hb (d.index x y)
    simp only [fastNeighbour, if_true, load, store, hin, add_zero, clamp_byte _ hr,
      set_getD_self _ _ hin]

theorem fastPixel_fixed (d : Dither) (hG : d.Geometry) (hinv : d._invert_output = false)
    (flag : Bool) (buf : List Nat) (row col : Nat)
    (hrow : row < d._img_height) (hcol : col < d._img_width)
    (hlen : buf.length = d._img_height * d._img_width) (hb : Bytes buf)
    (hbin : buf.getD (row * d._img_width + col) 0 = 0 ∨
      buf.getD (row * d._img_width + col) 0 = 255) :
    fastPixel d flag buf row col = some buf := by
  have hp := pivot_lt d row col hrow hcol
  have hin : row * d._img_width + col < buf.length := by omega
  have hq : quantize_BW (buf.getD (row * d._img_width + col) 0) =
      buf.getD (row * d._img_width + col) 0 := by
    rcases hbin with h | h <;> rw [h] <;> decide
  have he : (((buf.getD (row * d._img_width + col) 0 : Nat) : Int) -
      ((buf.getD (row * d._img_width + col) 0 : Nat) : Int)) >>> (1 : Nat) = 0 := by
    rw [sub_self]; rfl
  have he2 : ((0 : Int) >>> (1 : Nat)) = 0 := rfl
  rw [fastPixel_chain d hG flag buf row col hrow hcol hlen, hinv, hq]
  simp only [Bool.false_eq_true, if_false, he, he2, ite_self, set_getD_self _ _ hin]
  rw [fastNeighbour_zero d _ _ _ buf hb (by
      intro hg
      have := fast_index_right d hG row col hrow hcol (of_decide_eq_true hg)
      omega),
    Option.some_bind,
    fastNeighbour_zero d _ _ _ buf hb (by
      intro hg
      have := fast_index_below d hG row col hcol (of_decide_eq_true hg) hrow
      omega),
    Option.some_bind]
  exact fastNeighbour_zero d _ _ _ buf hb (by
    intro hg
    simp only [Bool.and_eq_true, decide_eq_true_eq] at hg
    have := fast_index_diag d hG row col hrow hcol hg.1.2 hg.2
    omega)

theorem fastEDDither_idempotent_aux (d : Dither) (hG : d.Geometry)
    (hinv : d._invert_output = false) (flag : Bool)
    (buf : List Nat) (hlen : buf.length = d._img_width * d._img_height) :
    ∃ out, d.fastEDDither flag buf = some out ∧ d.fastEDDither flag out = some out := by
  obtain ⟨out, ho, hl, hbin⟩ := fastEDDither_binary_aux d hG flag buf hlen
  refine ⟨out, ho, ?_⟩
  have hbo : Bytes out := by
    intro x hx
    rcases hbin x hx with h | h <;> omega
  have hlo : out.length = d._img_height * d._img_width := by rw [hl, hlen, Nat.mul_comm]
  unfold fastEDDither
  apply forEachPixel_fixed
  intro row col hrow hcol
  have hp := pivot_lt d row col hrow hcol
  apply fastPixel_fixed d hG hinv flag out row col hrow hcol hlo hbo
  apply hbin
  rw [List.getD_eq_getElem _ _ (by omega)]
  exact List.getElem_mem _

/-- C24: with invert-output off, error diffusion is idempotent.  For each of the
nine kernels, every bit depth `b` in [1,7], every image size and every byte buffer
of length width*height, `_GPEDDither` applied (same kernel, same `b`) to its own
output returns 0 and leaves that buffer as it is; and `fastEDDither` applied to
its own output leaves it as it is (either setting of the artifact switch). -/
theorem dithering_idempotent (d : Dither) (hG : d.Geometry)
    (hinv : d._invert_output = false)
    (buf : List Nat) (hlen : buf.length = d._img_width * d._img_height) (hbytes : Bytes buf) :
    (∀ b k, 1 ≤ b → b ≤ 7 → k < 9 →
      ∃ out, d._GPEDDither buf b k = some (0, out) ∧ d._GPEDDither out b k = some (0, out)) ∧
    (∀ remove_artifacts,
      ∃ out, d.fastEDDither remove_artifacts buf = some out ∧
        d.fastEDDither remove_artifacts out = some out) :=
  ⟨fun b k hb1 hb7 hk => GPEDDither_idempotent_aux d hG hinv b k hb1 hb7 hk buf hlen hbytes,
   fun flag => fastEDDither_idempotent_aux d hG hinv flag buf hlen⟩

theorem dithering_idempotent_witness :
    (∀ b k, 1 ≤ b → b ≤ 7 → k < 9 →
      ∃ out, sampleEngine._GPEDDither sampleImage b k = some (0, out) ∧
        sampleEngine._GPEDDither out b k = some (0, out)) ∧
    (∀ remove_artifacts,
      ∃ out, sampleEngine.fastEDDither remove_artifacts sampleImage = some out ∧
        sampleEngine.fastEDDither remove_artifacts out = some out) :=
  dithering_idempotent sampleEngine (by decide) rfl sampleImage (by decide) (by decide)

end Dither
